import Mathlib

/-!
Verification of gadmin: permission matching, access control and token-version revocation.

A shallow embedding of the request-path code of `lyuangg/gadmin`:

* `middleware/permission.go`  : `matchPermission`, `PermissionMiddleware`
* `middleware/jwt.go`         : `AuthMiddleware`
* `utils/jwt.go`              : `Claims`, `GetTokenVersion`
* `services/auth.go`          : `AuthService.Login`, `AuthService.ChangePassword`,
  `AuthService.Logout`
* `services/user.go`          : `UserService.GetUserForAuth`, `UpdateUser`, `ResetPassword`
* `utils/jwt.go`              : `GenerateToken`, `ParseToken` (over the JWT library)
* `routes/routemeta/permission.go` : `RegisterRoutePermission`, `GetRoutePermission`,
  `matchRoutePath`, `getRouteKey`
* `response/response.go`      : `Responder.Error`, `Responder.RespondError`
* `services/permission.go`    : `PermissionService.BatchDeletePermissions`
* `services/operation_log.go` : `OperationLogService.CleanOldLogs`
* `middleware/operation_log.go` : `OperationLogMiddleware`, `formatJSON`

Go strings are modelled by Lean strings (sequences of Unicode scalar values), and for
`matchPermission` also by their bytes, which need not be valid UTF-8; Go `uint`
by `Nat` with an explicit `% 2 ^ 64` where the code does arithmetic, Go `int` by `Int`.
A gin handler is modelled by the list of effects it performs on its context, in order.
Request and response bodies, whose length the code measures in bytes, are lists of bytes.
-/

namespace Gadmin

deriving instance DecidableEq for Except

/-! ## The Go `strings` helpers used by the code -/

namespace Strings

/-- Go `strings.HasPrefix(s, p)`. -/
def HasPrefix (s p : String) : Bool := p.data.isPrefixOf s.data

/-- Go `strings.HasSuffix(s, suffix)`. -/
def HasSuffix (s suffix : String) : Bool := suffix.data.isSuffixOf s.data

/-- Go `strings.TrimSuffix(s, suffix)`: `s` without the trailing `suffix`, or `s` itself
when it does not end in `suffix`. -/
def TrimSuffix (s suffix : String) : String :=
  if HasSuffix s suffix then ⟨s.data.take (s.data.length - suffix.data.length)⟩ else s

/-- Go `strings.EqualFold(s, t)`: equality under simple Unicode case folding.  The
folding table belongs to the Go standard library, not to this repository, so it is a
parameter: `fold` sends a rune to the canonical representative of its case orbit. -/
def EqualFold (fold : Char → Char) (s t : String) : Bool :=
  s.data.map fold == t.data.map fold

/-- Go `strings.Contains(s, substr)` on character lists. -/
def containsChars : List Char → List Char → Bool
  | [], sub => sub.isEmpty
  | c :: rest, sub => sub.isPrefixOf (c :: rest) || containsChars rest sub

/-- Go `strings.Contains(s, substr)`. -/
def Contains (s substr : String) : Bool := containsChars s.data substr.data

/-- Go `strings.Split(s, sep)` for a separator `sep` of one character: the pieces of
`s` between the occurrences of `sep`, one more than there are occurrences. -/
def Split : List Char → Char → List (List Char)
  | [], _ => [[]]
  | c :: rest, sep =>
    if c == sep then [] :: Split rest sep
    else
      match Split rest sep with
      | [] => [[c]]
      | piece :: pieces => (c :: piece) :: pieces

/-- Go `strings.SplitN(s, sep, n)` for a separator of one character and `n ≥ 0`: at
most `n` pieces, the last one being the unsplit rest; no piece at all for `n = 0`. -/
def SplitN : List Char → Char → Nat → List (List Char)
  | _, _, 0 => []
  | s, _, 1 => [s]
  | [], _, _ + 2 => [[]]
  | c :: rest, sep, n + 2 =>
    if c == sep then [] :: SplitN rest sep (n + 1)
    else
      match SplitN rest sep (n + 2) with
      | [] => [[c]]
      | piece :: pieces => (c :: piece) :: pieces

/-- Go `strconv.ParseUint(s, 10, bitSize)`: a non-empty run of decimal digits whose
value fits in `bitSize` bits; `none` stands for a non-nil error. -/
def ParseUint (s : List Char) (bitSize : Nat) : Option Nat :=
  if s.isEmpty then none
  else if s.all (fun c => '0' ≤ c && c ≤ '9') then
    let n := s.foldl (fun acc c => acc * 10 + (c.toNat - '0'.toNat)) 0
    if n < 2 ^ bitSize then some n else none
  else none

/-- The case folding restricted to ASCII letters (`A`..`Z` to `a`..`z`), the part of
the table that HTTP method names exercise. -/
def foldASCII (c : Char) : Char := c.toLower

end Strings

/-! ## The Go `regexp` calls of `matchPermission` -/

namespace Regexp

/-- The bytes `regexp.QuoteMeta` escapes: the characters of the Go constant
"\\.+*?()|[]\x7b\x7d^$". -/
def special (c : Char) : Bool :=
  c == '\\' || c == '.' || c == '+' || c == '*' || c == '?' || c == '(' || c == ')' ||
  c == '|' || c == '[' || c == ']' || c == '{' || c == '}' || c == '^' || c == '$'

/-- Go `regexp.QuoteMeta`: a backslash is put in front of every special character. -/
def QuoteMeta : List Char → List Char
  | [] => []
  | c :: rest => if special c then '\\' :: c :: QuoteMeta rest else c :: QuoteMeta rest

/-- The replacement text of `matchPermission`, the raw string "[^/]+" (it holds no `$`,
so `ReplaceAllString` inserts it literally). -/
def paramClass : List Char := ['[', '^', '/', ']', '+']

/-- The call `regexp.MustCompile(":\\\\w+").ReplaceAllString(pattern, "[^/]+")` of
`matchPermission`.  The Go source writes the pattern in a raw string with two
backslashes, so the expression is: a colon, one literal backslash, one or more `w`
(greedy).  Every leftmost non-overlapping match is replaced.  `skipping` is true while
the scan is still inside the `w+` of the match just replaced. -/
def replaceAllParams : Bool → List Char → List Char
  | _, [] => []
  | skipping, c :: b :: w :: rest =>
    if skipping && c == 'w' then replaceAllParams true (b :: w :: rest)
    else if c == ':' && b == '\\' && w == 'w' then paramClass ++ replaceAllParams true rest
    else c :: replaceAllParams false (b :: w :: rest)
  | skipping, c :: rest =>
    if skipping && c == 'w' then replaceAllParams true rest
    else c :: replaceAllParams false rest

/-- The pieces of a compiled expression of the shape `matchPermission` builds. -/
inductive Atom where
  /-- One literal character. -/
  | lit (c : Char)
  /-- The class repetition `[^/]+`: one or more characters other than `/`. -/
  | notSlashPlus
  deriving DecidableEq, Repr

/-- ASCII letters and digits, Go's `isalnum` of `regexp/syntax`. -/
def isalnum (c : Char) : Bool :=
  ('0' ≤ c && c ≤ '9') || ('A' ≤ c && c ≤ 'Z') || ('a' ≤ c && c ≤ 'z')

/-- Where the parser of the anchored body stands: between items, right after a
backslash, or inside the five characters of the class repetition `[^/]+`. -/
inductive ParseState where
  | item
  | escape
  | classOpen
  | classNot
  | classSlash
  | classClose
  deriving DecidableEq, Repr

/-- Parsing of the text between the leading `^` and the final `$`, for the fragment of
the RE2 syntax that `QuoteMeta` output with `[^/]+` substitutions can contain: an
escaped ASCII non-alphanumeric character is that character, the five characters
`[^/]+` are the class repetition, a character that is not special is itself, and the
lone `$` that ends the text is the end anchor.  Anything else is outside the fragment
and is reported as `none`, like a compile error. -/
def parseAnchoredBody : ParseState → List Char → Option (List Atom)
  | _, [] => none
  | .item, c :: rest =>
    if c == '$' && rest.isEmpty then some []
    else if c == '\\' then parseAnchoredBody .escape rest
    else if c == '[' then parseAnchoredBody .classOpen rest
    else if special c then none
    else (parseAnchoredBody .item rest).map (Atom.lit c :: ·)
  | .escape, c :: rest =>
    if c.toNat < 128 && !isalnum c then (parseAnchoredBody .item rest).map (Atom.lit c :: ·)
    else none
  | .classOpen, c :: rest => if c == '^' then parseAnchoredBody .classNot rest else none
  | .classNot, c :: rest => if c == '/' then parseAnchoredBody .classSlash rest else none
  | .classSlash, c :: rest => if c == ']' then parseAnchoredBody .classClose rest else none
  | .classClose, c :: rest =>
    if c == '+' then (parseAnchoredBody .item rest).map (Atom.notSlashPlus :: ·) else none

/-- Go `regexp.Compile` on a text of the form `"^" + pattern + "$"`. -/
def Compile : List Char → Option (List Atom)
  | [] => none
  | c :: body => if c == '^' then parseAnchoredBody .item body else none

/-- Go `(*Regexp).MatchString` for an expression anchored at both ends, on the runes of
the text: the whole text must be consumed by the atoms in order.  (`Bytes.MatchString`
is the call on a Go string, whose bytes are first read as runes.) -/
def MatchString : List Atom → List Char → Bool
  | [], [] => true
  | [], _ :: _ => false
  | _ :: _, [] => false
  | Atom.lit c :: atoms, x :: xs => c == x && MatchString atoms xs
  | Atom.notSlashPlus :: atoms, x :: xs =>
    x != '/' && (MatchString atoms xs || MatchString (Atom.notSlashPlus :: atoms) xs)

end Regexp

/-! ## `middleware/permission.go`: `matchPermission` -/

open Strings in
/-- The function `matchPermission(permPath, permMethod, reqPath, reqMethod)` of
`middleware/permission.go`, on strings of valid runes; `Bytes.matchPermission` is the
function on arbitrary Go strings, and the two agree on the bytes of every Lean string
(`matchPermission_bytes_ofString`). -/
def matchPermission (fold : Char → Char) (permPath permMethod reqPath reqMethod : String) :
    Bool :=
  if !EqualFold fold permMethod reqMethod then false
  else if permPath == reqPath then true
  else if HasSuffix permPath "/*" &&
      HasPrefix reqPath (TrimSuffix permPath "/*" ++ "/") then true
  else
    let pattern := Regexp.QuoteMeta permPath.data
    let pattern := Regexp.replaceAllParams false pattern
    match Regexp.Compile ('^' :: pattern ++ ['$']) with
    | none => false
    | some re => if Regexp.MatchString re reqPath.data then true else false


/-! ## `errors/errors.go` -/

def CodeSuccess : Int := 0
def CodeBadRequest : Int := 400
def CodeUnauthorized : Int := 401
def CodeForbidden : Int := 403
def CodeNotFound : Int := 404
def CodeInternalError : Int := 500

/-- The struct `BizError` of `errors/errors.go`. -/
structure BizError where
  Code : Int
  Msg : String
  deriving DecidableEq, Repr

/-- A Go `error` value as the modelled code sees it: a `*BizError`, gorm's
`ErrRecordNotFound`, any other error with its text, or an error that wraps another one
(as `fmt.Errorf` with `%w` builds it) under its own text. -/
inductive GoError where
  | biz (e : BizError)
  | recordNotFound
  | other (text : String)
  | wrap (text : String) (inner : GoError)
  deriving DecidableEq, Repr

def NewBizError (code : Int) (msg : String) : GoError := .biz ⟨code, msg⟩
def BadRequestMsg (msg : String) : GoError := NewBizError CodeBadRequest msg
def UnauthorizedMsg (msg : String) : GoError := NewBizError CodeUnauthorized msg
def ForbiddenMsg (msg : String) : GoError := NewBizError CodeForbidden msg
def NotFoundMsg (msg : String) : GoError := NewBizError CodeNotFound msg
def InternalErrorMsg (msg : String) : GoError := NewBizError CodeInternalError msg

/-- The method `Error()` of an error value. -/
def GoError.Error : GoError → String
  | .biz e => e.Msg
  | .recordNotFound => "record not found"
  | .other text => text
  | .wrap text _ => text

/-- Go `errors.As(err, &biz)` for a target of type `*BizError`: the first `BizError` on
the chain of wrapped errors, `none` when the call returns false. -/
@[simp]
def GoError.As : GoError → Option BizError
  | .biz e => some e
  | .recordNotFound => none
  | .other _ => none
  | .wrap _ inner => inner.As

/-! ## `models`: the fields the modelled code reads or writes -/

/-- The struct `models.Role`.  `DeletedAt` is `none` for a live row; the timestamps
and the preloaded associations are not modelled. -/
structure Role where
  ID : Nat := 0
  DeletedAt : Option Nat := none
  Name : String := ""
  Description : String := ""
  deriving DecidableEq, Repr

/-- The struct `models.User`.  `DeletedAt` is `none` for a live row; `CreatedAt` and
`UpdatedAt` are not modelled; `Type_` is the Go field `Type`. -/
structure User where
  ID : Nat := 0
  DeletedAt : Option Nat := none
  Username : String := ""
  Password : String := ""
  Nickname : String := ""
  Avatar : String := ""
  Type_ : Int := 0
  Status : Int := 0
  TokenVersion : Nat := 0
  Remark : String := ""
  Roles : List Role := []
  deriving DecidableEq, Repr

/-- The struct `models.UserRole`, a row of the join table `user_roles`. -/
structure UserRole where
  UserID : Nat
  RoleID : Nat
  deriving DecidableEq, Repr

/-- The struct `models.Permission`, as far as the modelled code reads it; `DeletedAt` is
`none` for a live row. -/
structure Permission where
  ID : Nat := 0
  DeletedAt : Option Nat := none
  Path : String := ""
  Method : String := ""
  Name : String := ""
  Group : String := ""
  deriving DecidableEq, Repr

/-- A row of the join table `role_permissions`. -/
structure RolePermission where
  RoleID : Nat
  PermissionID : Nat
  deriving DecidableEq, Repr

/-- The struct `models.OperationLog`; `Request` and `Response` hold the bytes of the
stored text, `DeletedAt` is `none` for a live row, the timestamps and the field
`Nickname`, which is not stored, are not modelled. -/
structure OperationLog where
  ID : Nat := 0
  DeletedAt : Option Nat := none
  UserID : Nat := 0
  Username : String := ""
  Method : String := ""
  Path : String := ""
  RouteName : String := ""
  Request : List UInt8 := []
  Response : List UInt8 := []
  StatusCode : Int := 0
  IP : String := ""
  UserAgent : String := ""
  Duration : Int := 0
  deriving DecidableEq, Repr

/-! ## `utils/jwt.go` -/

/-- The struct `utils.Claims`; `ID`, `Issuer`, `IssuedAt` and `ExpiresAt` are the fields
of the embedded `jwt.RegisteredClaims` that `GenerateToken` fills in (times in seconds);
`Type_` is the Go field `Type`. -/
structure Claims where
  UserID : Nat := 0
  Username : String := ""
  Nickname : String := ""
  Type_ : Int := 0
  IsSuperAdmin : Bool := false
  RoleIDs : List Nat := []
  ID : String := ""
  Issuer : String := ""
  IssuedAt : Option Nat := none
  ExpiresAt : Option Nat := none
  deriving DecidableEq, Repr

/-- The function `GetTokenVersion(claims)` of `utils/jwt.go`: the user id and the token
version held by the marker `claims.ID`, or the text of the error. -/
def GetTokenVersion (claims : Claims) : Except String (Nat × Nat) :=
  if claims.ID == "" then .error "token中缺少jti字段"
  else
    match Strings.Split claims.ID.data ':' with
    | [part0, part1] =>
      match Strings.ParseUint part0 32 with
      | none => .error "无法解析token中的user_id"
      | some userID =>
        match Strings.ParseUint part1 32 with
        | none => .error "无法解析token中的token_version"
        | some tokenVersion => .ok (userID, tokenVersion)
    | _ => .error "token的jti格式错误"

/-! ## The gin context, as a list of effects -/

/-- What a handler does to its gin context and to its collaborators, one constructor
for each call the modelled handlers make. -/
inductive Effect where
  /-- The call `c.JSON(status, Response{Code: code, Msg: msg, Data: nil})`. -/
  | json (status : Nat) (code : Int) (msg : String)
  /-- The call `r.logger.ErrorContext(c, text, ...)`. -/
  | logError (text : String)
  /-- The call `c.SetCookie(name, value, maxAge, path, domain, secure, httpOnly)`. -/
  | setCookie (name value : String) (maxAge : Int) (path domain : String)
      (secure httpOnly : Bool)
  /-- The call `c.Redirect(status, location)`. -/
  | redirect (status : Nat) (location : String)
  /-- The call `c.Abort()`. -/
  | abort
  /-- The call `c.Set("user", *user)`. -/
  | setUser (user : User)
  /-- The call `c.Set("claims", claims)`. -/
  | setClaims (claims : Claims)
  /-- The call `c.Next()`: the next handler of the chain runs. -/
  | next
  /-- The call `GetUserForAuth(ctx, userID)` on the user service. -/
  | callGetUserForAuth (userID : Nat)
  /-- The call `GetPermissionsByRoleIDs(c, roleIDs)` on the permission service. -/
  | callGetPermissionsByRoleIDs (roleIDs : List Nat)
  deriving DecidableEq, Repr

def StatusOK : Nat := 200
def StatusFound : Nat := 302
def StatusUnauthorized : Nat := 401
def StatusForbidden : Nat := 403

/-! ## `response/response.go` -/

/-- The method `Responder.Error(c, code, msg)`. -/
def Responder.Error (code : Int) (msg : String) : List Effect :=
  [.json StatusOK code msg]

/-- The method `Responder.RespondError(c, err)`: a `BizError` gives its own code and
message, any other error is logged and gives code 500 with a fixed message. -/
def Responder.RespondError (err : GoError) : List Effect :=
  match err.As with
  | some biz => Responder.Error biz.Code biz.Msg
  | none =>
    .logError ("internal error: " ++ err.Error) ::
      Responder.Error CodeInternalError "服务器内部错误"

/-! ## `middleware/permission.go`: `PermissionMiddleware` -/

/-- The part of the incoming request the two middlewares read.  `Cookie` is the result
of `c.Cookie("token")`, `none` when gin reports an error (no such cookie); `Query` is
`c.Query("token")`. -/
structure Request where
  Method : String := ""
  Path : String := ""
  Authorization : String := ""
  Accept : String := ""
  Cookie : Option String := none
  Query : String := ""
  deriving DecidableEq, Repr

/-- The handler returned by `PermissionMiddleware(a)`.  `GetPermissionsByRoleIDs` is the
permission service of the app; `ctxClaims` is what `utils.ClaimsFromContext(c)` finds,
`none` when it reports `ok == false`.  `resolved` holds the service call made, if any,
and the value of `permissions, err` after the `if len(roleIDs) > 0` block. -/
def PermissionMiddleware (fold : Char → Char)
    (GetPermissionsByRoleIDs : List Nat → Except GoError (List Permission))
    (ctxClaims : Option Claims) (req : Request) : List Effect :=
  match ctxClaims with
  | none => Responder.RespondError (UnauthorizedMsg "未认证") ++ [.abort]
  | some claims =>
    let isSuperAdmin := claims.IsSuperAdmin
    let roleIDs := claims.RoleIDs
    if isSuperAdmin then [.next]
    else
      let path := req.Path
      let method := req.Method
      let resolved : List Effect × Except GoError (List Permission) :=
        if roleIDs.length > 0 then
          ([.callGetPermissionsByRoleIDs roleIDs], GetPermissionsByRoleIDs roleIDs)
        else ([], .ok [])
      match resolved.2 with
      | .error _ =>
        resolved.1 ++ Responder.RespondError (InternalErrorMsg "查询权限失败") ++ [.abort]
      | .ok permissions =>
        let hasPermission :=
          permissions.any (fun perm => matchPermission fold perm.Path perm.Method path method)
        if !hasPermission then
          resolved.1 ++ Responder.RespondError (ForbiddenMsg "没有权限访问此资源") ++ [.abort]
        else resolved.1 ++ [.next]

/-! ## `middleware/jwt.go`: `AuthMiddleware` -/

/-- The first lines of the handler of `AuthMiddleware`: the token is taken from the
`Authorization: Bearer` header, else from the cookie, else from the query string. -/
def AuthMiddleware.token (req : Request) : String :=
  let token := ""
  let token :=
    if req.Authorization != "" then
      match Strings.SplitN req.Authorization.data ' ' 2 with
      | [part0, part1] => if String.mk part0 == "Bearer" then String.mk part1 else token
      | _ => token
    else token
  let token :=
    if token == "" then
      match req.Cookie with
      | some cookieToken => if cookieToken != "" then cookieToken else token
      | none => token
    else token
  if token == "" then req.Query else token

/-- The closure `redirectToLogin(errorMsg, statusCode)` of `AuthMiddleware`. -/
def AuthMiddleware.redirectToLogin (req : Request) (errorMsg : String) (statusCode : Nat) :
    List Effect :=
  if Strings.Contains req.Accept "text/html" then
    [.setCookie "token" "" (-1) "/" "" false true, .redirect StatusFound "/login", .abort]
  else if statusCode == StatusForbidden then
    Responder.RespondError (ForbiddenMsg errorMsg) ++ [.abort]
  else
    Responder.RespondError (UnauthorizedMsg errorMsg) ++ [.abort]

/-- The handler returned by `AuthMiddleware(a)`.  `ParseToken` is `utils.ParseToken`
(signature and expiry check of the JWT library under the configured secret);
`GetUserForAuth` is the user service of the app, its result `.ok none` standing for a
nil user returned with a nil error. -/
def AuthMiddleware (ParseToken : String → Except String Claims)
    (GetUserForAuth : Nat → Except GoError (Option User)) (req : Request) : List Effect :=
  let token := AuthMiddleware.token req
  if token == "" then AuthMiddleware.redirectToLogin req "未提供认证Token" StatusUnauthorized
  else
    match ParseToken token with
    | .error _ => AuthMiddleware.redirectToLogin req "Token无效或已过期" StatusUnauthorized
    | .ok claims =>
      match GetTokenVersion claims with
      | .error _ => AuthMiddleware.redirectToLogin req "Token格式错误" StatusUnauthorized
      | .ok (_, tokenVersion) =>
        .callGetUserForAuth claims.UserID ::
          match GetUserForAuth claims.UserID with
          | .error _ => AuthMiddleware.redirectToLogin req "用户不存在" StatusUnauthorized
          | .ok none => AuthMiddleware.redirectToLogin req "用户不存在" StatusUnauthorized
          | .ok (some user) =>
            if tokenVersion < user.TokenVersion then
              AuthMiddleware.redirectToLogin req "Token已失效" StatusUnauthorized
            else if user.Status == 0 then
              AuthMiddleware.redirectToLogin req "用户已被禁用" StatusForbidden
            else
              let user := { user with
                ID := claims.UserID
                Username := claims.Username
                Nickname := claims.Nickname
                Type_ := claims.Type_
                Roles := claims.RoleIDs.map (fun roleID => ({ ID := roleID } : Role)) }
              [.setUser user, .setClaims claims, .next]

/-! ## The database behind `s.ctx.DB()` -/

/-- The tables the modelled services touch.  `faults` says, statement by statement,
whether the storage layer fails the next statements (`true` is a failure; past the end
of the list no statement fails). -/
structure DB where
  users : List User := []
  roles : List Role := []
  userRoles : List UserRole := []
  permissions : List Permission := []
  rolePermissions : List RolePermission := []
  logs : List OperationLog := []
  faults : List Bool := []
  deriving DecidableEq, Repr

/-- One statement is sent to the storage layer: whether it fails, and the store with
that fault consumed. -/
def DB.statement (db : DB) : Bool × DB :=
  match db.faults with
  | [] => (false, db)
  | fault :: rest => (fault, { db with faults := rest })

/-- The query `DB().Where("id = ?", userID).First(&user)` on the users table: the live
row with that id, `ErrRecordNotFound` when there is none. -/
def DB.FirstUser (db : DB) (userID : Nat) : Except GoError User × DB :=
  let (fault, db) := db.statement
  if fault then (.error (.other "database error"), db)
  else
    match db.users.find? (fun u => u.ID == userID && u.DeletedAt.isNone) with
    | some user => (.ok user, db)
    | none => (.error .recordNotFound, db)

/-- The statement `DB().Save(&user)`: every column of the row with the primary key of
`user` is overwritten; a row is inserted when there is none. -/
def DB.SaveUser (db : DB) (user : User) : Option GoError × DB :=
  let (fault, db) := db.statement
  if fault then (some (.other "database error"), db)
  else if db.users.any (fun u => u.ID == user.ID) then
    (none, { db with users := db.users.map (fun u => if u.ID == user.ID then user else u) })
  else (none, { db with users := db.users ++ [user] })

/-- The query `DB().Where("id IN ?", roleIDs).Find(&roles)`: the live roles whose id is
in the list. -/
def DB.FindRoles (db : DB) (roleIDs : List Nat) : Except GoError (List Role) × DB :=
  let (fault, db) := db.statement
  if fault then (.error (.other "database error"), db)
  else (.ok (db.roles.filter (fun r => roleIDs.contains r.ID && r.DeletedAt.isNone)), db)

/-- The call `DB().Model(&user).Association("Roles").Replace(roles)`, whose error the
services ignore: afterwards the join rows of the user are those of `roles`. -/
def DB.ReplaceUserRoles (db : DB) (user : User) (roles : List Role) : DB :=
  let (fault, db) := db.statement
  if fault then db
  else
    { db with userRoles :=
        db.userRoles.filter (fun ur => ur.UserID != user.ID) ++
          roles.map (fun r => ⟨user.ID, r.ID⟩) }

/-- The two functions of `golang.org/x/crypto/bcrypt` the services call:
`CompareHashAndPassword(hash, password)` is `true` when Go returns a nil error,
`GenerateFromPassword(password, DefaultCost)` is `none` when Go returns an error. -/
structure Bcrypt where
  CompareHashAndPassword : String → String → Bool
  GenerateFromPassword : String → Option String

/-- Go `uint` increment `x++` on a 64-bit platform. -/
def uintIncr (x : Nat) : Nat := (x + 1) % 2 ^ 64

/-! ## `services/auth.go` -/

/-- The method `AuthService.ChangePassword(ctx, userID, oldPassword, newPassword)`: the
returned error (`none` for nil) and the store afterwards. -/
def AuthService.ChangePassword (bcrypt : Bcrypt) (db : DB) (userID : Nat)
    (oldPassword newPassword : String) : Option GoError × DB :=
  match db.FirstUser userID with
  | (.error .recordNotFound, db) => (some (NotFoundMsg "用户不存在"), db)
  | (.error err, db) => (some err, db)
  | (.ok user, db) =>
    if !bcrypt.CompareHashAndPassword user.Password oldPassword then
      (some (UnauthorizedMsg "当前密码错误"), db)
    else if newPassword.utf8ByteSize < 6 then
      (some (BadRequestMsg "新密码长度不能少于6位"), db)
    else
      match bcrypt.GenerateFromPassword newPassword with
      | none => (some (InternalErrorMsg "密码加密失败"), db)
      | some hashedPassword =>
        let user := { user with Password := hashedPassword }
        let user := { user with TokenVersion := uintIncr user.TokenVersion }
        match db.SaveUser user with
        | (some err, db) => (some err, db)
        | (none, db) => (none, db)

/-- The method `AuthService.Logout(ctx, userID)`. -/
def AuthService.Logout (db : DB) (userID : Nat) : Option GoError × DB :=
  match db.FirstUser userID with
  | (.error .recordNotFound, db) => (some (NotFoundMsg "用户不存在"), db)
  | (.error err, db) => (some err, db)
  | (.ok user, db) =>
    let user := { user with TokenVersion := uintIncr user.TokenVersion }
    match db.SaveUser user with
    | (some _, db) => (some (InternalErrorMsg "更新Token版本失败"), db)
    | (none, db) => (none, db)

/-! ## `services/user.go` -/

/-- The method `UserService.GetUserForAuth(ctx, userID)`: only the columns id, username,
nickname, type, status and token_version are selected. -/
def UserService.GetUserForAuth (db : DB) (userID : Nat) : Except GoError User × DB :=
  match db.FirstUser userID with
  | (.error err, db) => (.error err, db)
  | (.ok row, db) =>
    (.ok { ID := row.ID, Username := row.Username, Nickname := row.Nickname,
           Type_ := row.Type_, Status := row.Status, TokenVersion := row.TokenVersion }, db)

/-- The method `UserService.UpdateUser(ctx, userID, nickname, password, remark, roleIDs)`;
`roleIDs` is `none` for a nil slice. -/
def UserService.UpdateUser (bcrypt : Bcrypt) (db : DB) (userID : Nat)
    (nickname password remark : String) (roleIDs : Option (List Nat)) :
    Option GoError × DB :=
  match db.FirstUser userID with
  | (.error .recordNotFound, db) => (some (NotFoundMsg "用户不存在"), db)
  | (.error err, db) => (some err, db)
  | (.ok user, db) =>
    let user := if nickname != "" then { user with Nickname := nickname } else user
    let user := { user with Remark := remark }
    let hashed : Except GoError User :=
      if password != "" then
        match bcrypt.GenerateFromPassword password with
        | none => .error (InternalErrorMsg "密码加密失败")
        | some hashedPassword => .ok { user with Password := hashedPassword }
      else .ok user
    match hashed with
    | .error err => (some err, db)
    | .ok user =>
      match db.SaveUser user with
      | (some _, db) => (some (InternalErrorMsg "更新用户失败"), db)
      | (none, db) =>
        match roleIDs with
        | none => (none, db)
        | some roleIDs =>
          if roleIDs.length > 0 then
            match db.FindRoles roleIDs with
            | (.error err, db) => (some err, db)
            | (.ok roles, db) => (none, db.ReplaceUserRoles user roles)
          else (none, db.ReplaceUserRoles user [])

/-- The method `UserService.ResetPassword(ctx, userID)`: the new password and the
returned error, and the store afterwards.  `randomPassword` is the value of
`s.generateRandomPassword()`, drawn from `math/rand`. -/
def UserService.ResetPassword (bcrypt : Bcrypt) (randomPassword : String) (db : DB)
    (userID : Nat) : (String × Option GoError) × DB :=
  match db.FirstUser userID with
  | (.error .recordNotFound, db) => (("", some (NotFoundMsg "用户不存在")), db)
  | (.error err, db) => (("", some err), db)
  | (.ok user, db) =>
    let newPassword := randomPassword
    match bcrypt.GenerateFromPassword newPassword with
    | none => (("", some (InternalErrorMsg "密码加密失败")), db)
    | some hashedPassword =>
      let user := { user with Password := hashedPassword }
      match db.SaveUser user with
      | (some err, db) => (("", some err), db)
      | (none, db) => ((newPassword, none), db)

/-- The user service of the app as `AuthMiddleware` sees it, reading the store `db`. -/
def userServiceOf (db : DB) (userID : Nat) : Except GoError (Option User) :=
  match (UserService.GetUserForAuth db userID).1 with
  | .error err => .error err
  | .ok user => .ok (some user)

/-! ## The segment rule of the specification, and fixtures for the examples -/

/-- The segment rule as the specification words it: pattern and request path have the
same number of '/'-separated segments, and each pattern segment either starts with ':'
and faces a non-empty segment, or equals the facing segment. -/
def specSegmentRule (P R : String) : Bool :=
  let ps := Strings.Split P.data '/'
  let rs := Strings.Split R.data '/'
  ps.length == rs.length &&
    (ps.zip rs).all (fun pr => (pr.1.head? == some ':' && !pr.2.isEmpty) || pr.1 == pr.2)

/-- A stand-in for bcrypt in the examples: the hash of a password is the password with
a fixed tag in front. -/
def exampleBcrypt : Bcrypt where
  CompareHashAndPassword := fun hash password => hash == "hash:" ++ password
  GenerateFromPassword := fun password => some ("hash:" ++ password)

/-- An enabled user, id 1, at token version 0. -/
def exampleUser : User :=
  { ID := 1, Username := "u", Password := "hash:secret", Status := 1, TokenVersion := 0 }

/-- A store with the one user `exampleUser`. -/
def exampleDB : DB := { users := [exampleUser] }

/-- A store with one enabled user, id 1, at the largest Go `uint` token version. -/
def exampleDBMax : DB :=
  { users := [{ ID := 1, Username := "u", Password := "hash:secret", Status := 1,
                TokenVersion := 2 ^ 64 - 1 }] }

/-- A token verifier for the examples: the string "token-v0" is the token issued to
user 1 at token version 0, any other string fails to verify. -/
def exampleParseToken (token : String) : Except String Claims :=
  if token == "token-v0" then .ok { UserID := 1, Username := "u", ID := "1:0" }
  else .error "invalid token"

/-- A request of an API client presenting "token-v0" as bearer token. -/
def exampleApiRequest : Request :=
  { Method := "GET", Path := "/admin/api/users", Authorization := "Bearer token-v0",
    Accept := "application/json" }

/-- A request of a browser presenting "token-v0" as bearer token. -/
def exampleHtmlRequest : Request :=
  { Method := "GET", Path := "/admin/api/users", Authorization := "Bearer token-v0",
    Accept := "text/html,application/xhtml+xml" }

/-- A permission service for the examples: every role set holds (GET, /admin/api/users). -/
def examplePermissionService (_ : List Nat) : Except GoError (List Permission) :=
  .ok [{ Path := "/admin/api/users", Method := "GET" }]

/-! ## `utils/jwt.go`: `GenerateToken` and `ParseToken` -/

/-- The three values the Go function `GetTokenVersion` returns: every error return of
the source is `return 0, 0, err`. -/
def GetTokenVersion.returned (claims : Claims) : Nat × Nat × Option String :=
  match GetTokenVersion claims with
  | .error err => (0, 0, some err)
  | .ok (userID, tokenVersion) => (userID, tokenVersion, none)

/-- The two calls into `github.com/golang-jwt/jwt/v5` made by `utils/jwt.go`; the
library is not part of the repository.  `SignedString secret claims` is
`jwt.NewWithClaims(jwt.SigningMethodHS256, claims).SignedString(secret)`;
`ParseWithClaims secret now token` is `jwt.ParseWithClaims(token, &Claims{}, keyfunc)`
with the key function returning `secret`, run at clock time `now` (seconds): the parsed
claims with the `Valid` flag of the token, or the error. -/
structure JWT where
  SignedString : String → Claims → Except String String
  ParseWithClaims : String → Nat → String → Except String (Claims × Bool)

/-- The marker `fmt.Sprintf("%d:%d", userID, tokenVersion)` of `GenerateToken`. -/
def tokenMarker (userID tokenVersion : Nat) : String :=
  String.mk (Nat.toDigits 10 userID) ++ ":" ++ String.mk (Nat.toDigits 10 tokenVersion)

/-- The function `GenerateToken` of `utils/jwt.go`.  `jwtSecret` is the package variable
set by `InitJWT`, `now` the value of `time.Now()` in seconds. -/
def GenerateToken (jwt : JWT) (jwtSecret : String) (now : Nat) (userID : Nat)
    (username nickname : String) (userType : Int) (isSuperAdmin : Bool) (roleIDs : List Nat)
    (tokenVersion : Nat) : Except String String :=
  let nowTime := now
  let expireTime := nowTime + 24 * 3600
  let jti := tokenMarker userID tokenVersion
  let claims : Claims :=
    { UserID := userID
      Username := username
      Nickname := nickname
      Type_ := userType
      IsSuperAdmin := isSuperAdmin
      RoleIDs := roleIDs
      ExpiresAt := some expireTime
      IssuedAt := some nowTime
      Issuer := "gadmin"
      ID := jti }
  jwt.SignedString jwtSecret claims

/-- The function `ParseToken` of `utils/jwt.go`, run at clock time `now`. -/
def ParseToken (jwt : JWT) (jwtSecret : String) (now : Nat) (token : String) :
    Except String Claims :=
  match jwt.ParseWithClaims jwtSecret now token with
  | .error err => .error err
  | .ok (claims, valid) => if valid then .ok claims else .error "invalid token"

/-! ## `routes/routemeta/permission.go` -/

/-- Go `strings.ToUpper(s)`: every rune is replaced by its upper case.  The case table
belongs to the Go standard library, so it is a parameter, like the folding of
`EqualFold`. -/
def Strings.ToUpper (upper : Char → Char) (s : String) : String := ⟨s.data.map upper⟩

/-- The upper-casing restricted to ASCII letters (`a`..`z` to `A`..`Z`). -/
def Strings.upperASCII (c : Char) : Char := c.toUpper

/-- The struct `RoutePermissionInfo`. -/
structure RoutePermissionInfo where
  Name : String := ""
  Group : String := ""
  deriving DecidableEq, Repr

/-- The package variable `routePermissionMap`, a Go `map[string]RoutePermissionInfo`:
its entries, each key once, kept in the order in which the keys were first assigned. -/
abbrev RouteMap := List (String × RoutePermissionInfo)

/-- The map read `routePermissionMap[key]`; `none` when `exists` is false. -/
def RouteMap.get? (m : RouteMap) (key : String) : Option RoutePermissionInfo :=
  (m.find? (fun entry => entry.1 == key)).map (fun entry => entry.2)

/-- The map assignment `routePermissionMap[key] = info`. -/
def RouteMap.set (m : RouteMap) (key : String) (info : RoutePermissionInfo) : RouteMap :=
  if m.any (fun entry => entry.1 == key) then
    m.map (fun entry => if entry.1 == key then (key, info) else entry)
  else m ++ [(key, info)]

/-- The function `getRouteKey(method, path)`:
`fmt.Sprintf("%s:%s", strings.ToUpper(method), path)`. -/
def getRouteKey (upper : Char → Char) (method path : String) : String :=
  Strings.ToUpper upper method ++ ":" ++ path

/-- The function `RegisterRoutePermission(method, path, permissionName, groupName)`, as
a change of the map (the mutex is not modelled). -/
def RegisterRoutePermission (upper : Char → Char) (m : RouteMap)
    (method path permissionName groupName : String) : RouteMap :=
  let key := getRouteKey upper method path
  m.set key { Name := permissionName, Group := groupName }

/-- The loop of `matchRoutePath` over the two lists of parts, which have equal length
when the loop is reached. -/
def matchRouteParts : List (List Char) → List (List Char) → Bool
  | routePart :: routeParts, actualPart :: actualParts =>
    if Strings.HasPrefix (String.mk routePart) ":" then matchRouteParts routeParts actualParts
    else if routePart != actualPart then false
    else matchRouteParts routeParts actualParts
  | _, _ => true

/-- The function `matchRoutePath(routePath, actualPath)`. -/
def matchRoutePath (routePath actualPath : String) : Bool :=
  let routeParts := Strings.Split routePath.data '/'
  let actualParts := Strings.Split actualPath.data '/'
  if routeParts.length != actualParts.length then false
  else matchRouteParts routeParts actualParts

/-- The loop `for routeKey, info := range routePermissionMap` of `GetRoutePermission`,
run over the entries in the order in which the `range` visits them; the value after
the loop is the empty `RoutePermissionInfo`. -/
def GetRoutePermission.scan (fold : Char → Char) (method path : String) :
    List (String × RoutePermissionInfo) → RoutePermissionInfo
  | [] => {}
  | (routeKey, info) :: rest =>
    match Strings.SplitN routeKey.data ':' 2 with
    | [part0, part1] =>
      let routeMethod := String.mk part0
      let routePath := String.mk part1
      if !Strings.EqualFold fold routeMethod method then GetRoutePermission.scan fold method path rest
      else if matchRoutePath routePath path then info
      else GetRoutePermission.scan fold method path rest
    | _ => GetRoutePermission.scan fold method path rest

/-- The test that the loop of `GetRoutePermission` applies to one entry before it returns
the descriptor of that entry: the key splits at its first ':' into a method and a path,
the method equals the requested one under `EqualFold`, and `matchRoutePath` accepts. -/
def GetRoutePermission.accepts (fold : Char → Char) (method path : String)
    (entry : String × RoutePermissionInfo) : Bool :=
  match Strings.SplitN entry.1.data ':' 2 with
  | [part0, part1] =>
    Strings.EqualFold fold (String.mk part0) method && matchRoutePath (String.mk part1) path
  | _ => false

/-- The function `GetRoutePermission(method, path)` on the map `m`.  Go does not specify
the order in which `range` visits a map, and it may differ from one loop to the next, so
the order of this call is the input `iteration`, a rearrangement of the entries of `m`. -/
def GetRoutePermission (upper fold : Char → Char) (m : RouteMap)
    (iteration : List (String × RoutePermissionInfo)) (method path : String) :
    RoutePermissionInfo :=
  let key := getRouteKey upper method path
  match m.get? key with
  | some info => info
  | none => GetRoutePermission.scan fold method path iteration

/-! ## The wording of the specification for the new claims, and more fixtures -/

/-- A decimal non-negative integer, as the specification words it: a non-empty run of
the digits `0` to `9`. -/
def specIsDecimal (part : List Char) : Bool :=
  !part.isEmpty && part.all (fun c => '0' ≤ c && c ≤ '9')

/-- The route rule as the specification words it: pattern and path have the same number
of '/'-separated segments, and every pattern segment either starts with ':' or equals
the path segment at the same position. -/
def specRouteRule (pattern path : String) : Prop :=
  (Strings.Split pattern.data '/').length = (Strings.Split path.data '/').length ∧
    ∀ i : Nat, ∀ h1 : i < (Strings.Split pattern.data '/').length,
      ∀ h2 : i < (Strings.Split path.data '/').length,
        ((Strings.Split pattern.data '/').get ⟨i, h1⟩).head? = some ':' ∨
          (Strings.Split pattern.data '/').get ⟨i, h1⟩ = (Strings.Split path.data '/').get ⟨i, h2⟩

/-- An entry of the map qualifies for a lookup, in the words of the specification: its
key reads `M:pattern`, `M` equals the method ignoring case, and the pattern is the path
or matches it. -/
def specQualifies (fold : Char → Char) (method path : String)
    (entry : String × RoutePermissionInfo) : Bool :=
  match Strings.SplitN entry.1.data ':' 2 with
  | [M, pattern] =>
    Strings.EqualFold fold (String.mk M) method &&
      (String.mk pattern == path || matchRoutePath (String.mk pattern) path)
  | _ => false

/-- The claims the examples sign: user 1 at token version 3 with roles 1 and 2, issued
at time 1000. -/
def exampleClaims : Claims :=
  { UserID := 1, Username := "user1", Nickname := "n", Type_ := 0, IsSuperAdmin := false,
    RoleIDs := [1, 2], ExpiresAt := some (1000 + 24 * 3600), IssuedAt := some 1000,
    Issuer := "gadmin", ID := "1:3" }

/-- A stand-in for the JWT library in the examples: under the secret "s" it signs
`exampleClaims` as the string "signed", and it verifies exactly that string under that
secret before the expiry of the claims. -/
def exampleJWT : JWT where
  SignedString := fun secret claims =>
    if secret == "s" && claims == exampleClaims then .ok "signed" else .error "cannot sign"
  ParseWithClaims := fun secret now token =>
    if secret == "s" && token == "signed" && now < 1000 + 24 * 3600 then
      .ok (exampleClaims, true)
    else .error "token is malformed, forged or expired"

/-- The registry after `RegisterRoutePermission("GET", "/a/:x", "first", "g")` and then
`RegisterRoutePermission("GET", "/a/:y", "second", "g")`. -/
def exampleRouteMap : RouteMap :=
  RegisterRoutePermission Strings.upperASCII
    (RegisterRoutePermission Strings.upperASCII [] "GET" "/a/:x" "first" "g")
    "GET" "/a/:y" "second" "g"

/-- The registry after the registrations of the route tests: "GET /admin/api/users",
"get /admin/api/roles" and "GET /admin/api/roles/:id". -/
def exampleTestMap : RouteMap :=
  RegisterRoutePermission Strings.upperASCII
    (RegisterRoutePermission Strings.upperASCII
      (RegisterRoutePermission Strings.upperASCII [] "GET" "/admin/api/users" "用户列表" "用户管理")
      "get" "/admin/api/roles" "角色列表" "角色管理")
    "GET" "/admin/api/roles/:id" "角色详情" "角色管理"

/-! ## Definitions for the later claims -/

/-- The relation "the error is, or wraps, the `*BizError` `b`", in the words of the
specification: `b` is the error itself, or the wrapped error is or wraps `b` and the
wrapper is not itself a `*BizError`. -/
inductive specIsOrWraps : GoError → BizError → Prop where
  | is (b : BizError) : specIsOrWraps (.biz b) b
  | wraps (text : String) (inner : GoError) (b : BizError) :
      specIsOrWraps inner b → specIsOrWraps (.wrap text inner) b

/-- What a call sends to the client: the `c.JSON` calls of a handler run, in order, as
triples of HTTP status, body code and body message. -/
def clientBodies : List Effect → List (Nat × Int × String)
  | [] => []
  | .json status code msg :: rest => (status, code, msg) :: clientBodies rest
  | _ :: rest => clientBodies rest

/-- An error that wraps a business error under another text, as
`fmt.Errorf("load user: %w", err)` builds it. -/
def exampleWrappedError : GoError :=
  .wrap "load user: 用户不存在" (NotFoundMsg "用户不存在")

/-- The Bearer rule in the words of the specification: the part after "Bearer " of a
header that starts with "Bearer " (the scheme, then the first space) and has a
non-empty rest; `none` for every other header. -/
def specBearerToken (header : String) : Option String :=
  if Strings.HasPrefix header "Bearer " then
    if header.data.drop 7 = [] then none else some (String.mk (header.data.drop 7))
  else none

/-- The token precedence in the words of the specification: the Bearer token of the
header, otherwise the cookie when it is present and non-empty, otherwise the query
parameter. -/
def specToken (req : Request) : String :=
  match specBearerToken req.Authorization with
  | some token => token
  | none =>
    match req.Cookie with
    | some cookieToken => if cookieToken = "" then req.Query else cookieToken
    | none => req.Query

/-- A request that carries a Bearer header, a cookie and a query parameter. -/
def exampleTokenRequest : Request :=
  { Authorization := "Bearer header-token", Cookie := some "cookie-token",
    Query := "query-token" }

/-- Whether an effect is the call `c.Set("claims", claims)`. -/
def Effect.isSetClaims : Effect → Bool
  | .setClaims _ => true
  | _ => false

/-- A token verifier for the examples: "token-a" carries the claims of user 1 with the
marker "1:0", "token-b" the same claims with the marker "7:0"; any other string fails to
verify. -/
def exampleMarkerParseToken (token : String) : Except String Claims :=
  if token == "token-a" then .ok { UserID := 1, Username := "u", ID := "1:0" }
  else if token == "token-b" then .ok { UserID := 1, Username := "u", ID := "7:0" }
  else .error "invalid token"

/-- A request of an API client presenting `token` in the "token" query parameter. -/
def exampleQueryRequest (token : String) : Request :=
  { Method := "GET", Path := "/admin/api/users", Accept := "application/json",
    Query := token }

/-! ### `services/auth.go`: `Login` -/

/-- The query `DB().Where("username = ?", username).Preload("Roles").First(&user)`: the
live row with that username (the column carries a unique index), then the preload of its
live roles through the join table `user_roles`, in the order of the roles table. -/
def DB.FirstUserByUsername (db : DB) (username : String) : Except GoError User × DB :=
  let (fault, db) := db.statement
  if fault then (.error (.other "database error"), db)
  else
    match db.users.find? (fun u => u.Username == username && u.DeletedAt.isNone) with
    | none => (.error .recordNotFound, db)
    | some user =>
      let (fault, db) := db.statement
      if fault then (.error (.other "database error"), db)
      else
        (.ok { user with
          Roles := db.roles.filter (fun r => r.DeletedAt.isNone &&
            db.userRoles.any (fun ur => ur.UserID == user.ID && ur.RoleID == r.ID)) }, db)

/-- The interface `TokenGenerator` of `services/token.go`, in the order of the Go
parameters: userID, username, nickname, userType, isSuperAdmin, roleIDs, tokenVersion. -/
abbrev TokenGenerator :=
  Nat → String → String → Int → Bool → List Nat → Nat → Except GoError String

/-- The loop `for _, role := range user.Roles` of `Login`: the values of `isSuperAdmin`
and `roleIDs` after it, starting from `false` and the nil slice. -/
def AuthService.Login.loop (roles : List Role) : Bool × List Nat :=
  roles.foldl
    (fun state role =>
      let roleIDs := state.2 ++ [role.ID]
      if role.Name == "超级管理员" then (true, roleIDs) else (state.1, roleIDs))
    (false, [])

/-- The method `AuthService.Login(ctx, username, password, captchaID, captchaVal)`: the
three returned values (`none` for a nil user or a nil error) and the store afterwards.
`Verify` is the captcha provider of the service context, `generator` its token
generator. -/
def AuthService.Login (Verify : String → String → Bool) (bcrypt : Bcrypt)
    (generator : TokenGenerator) (db : DB)
    (username password captchaID captchaVal : String) :
    (Option User × String × Option GoError) × DB :=
  if !Verify captchaID captchaVal then ((none, "", some (UnauthorizedMsg "验证码错误")), db)
  else
    match db.FirstUserByUsername username with
    | (.error .recordNotFound, db) => ((none, "", some (UnauthorizedMsg "用户名或密码错误")), db)
    | (.error err, db) => ((none, "", some err), db)
    | (.ok user, db) =>
      if !bcrypt.CompareHashAndPassword user.Password password then
        ((none, "", some (UnauthorizedMsg "用户名或密码错误")), db)
      else
        let (isSuperAdmin, roleIDs) := AuthService.Login.loop user.Roles
        match generator user.ID user.Username user.Nickname user.Type_ isSuperAdmin roleIDs
            user.TokenVersion with
        | .error err => ((none, "", some err), db)
        | .ok token => ((some user, token, none), db)

/-- A token generator for the examples that writes the flag and the number of roles it
was called with into the token. -/
def exampleGenerator : TokenGenerator :=
  fun _ _ _ _ isSuperAdmin roleIDs _ =>
    .ok ((if isSuperAdmin then "admin/" else "plain/") ++
      String.mk (Nat.toDigits 10 roleIDs.length))

/-- A store in which `exampleUser` holds the roles 1 ("编辑") and 2 ("超级管理员"). -/
def exampleLoginDB : DB :=
  { users := [exampleUser]
    roles := [{ ID := 1, Name := "编辑" }, { ID := 2, Name := "超级管理员" }]
    userRoles := [⟨1, 1⟩, ⟨1, 2⟩] }

/-! ### `services/permission.go`: `BatchDeletePermissions` -/

/-- The call `DB().Model(&permission).Association("Roles").Clear()`: the join rows of the
permission are deleted. -/
def DB.ClearPermissionRoles (db : DB) (permission : Permission) : Option GoError × DB :=
  let (fault, db) := db.statement
  if fault then (some (.other "database error"), db)
  else
    (none, { db with
      rolePermissions :=
        db.rolePermissions.filter (fun rp => rp.PermissionID != permission.ID) })

/-- The loop `for _, permission := range permissions` of `BatchDeletePermissions`, which
returns at the first failing `Clear`. -/
def PermissionService.BatchDeletePermissions.clear : DB → List Permission →
    Option GoError × DB
  | db, [] => (none, db)
  | db, permission :: rest =>
    match db.ClearPermissionRoles permission with
    | (some err, db) => (some err, db)
    | (none, db) => PermissionService.BatchDeletePermissions.clear db rest

/-- The method `PermissionService.BatchDeletePermissions(ctx, ids)`: the returned error
(`none` for nil) and the store afterwards.  The queries on `models.Permission` see the
live rows only, and the final `Delete` is a soft delete stamping them with `now`. -/
def PermissionService.BatchDeletePermissions (now : Nat) (db : DB) (ids : List Nat) :
    Option GoError × DB :=
  if ids.length == 0 then (some (BadRequestMsg "权限ID列表不能为空"), db)
  else
    let (fault, db) := db.statement
    if fault then (some (.other "database error"), db)
    else
      let count :=
        (db.permissions.filter (fun p => ids.contains p.ID && p.DeletedAt.isNone)).length
      if count != ids.length then (some (BadRequestMsg "部分权限不存在"), db)
      else
        let (fault, db) := db.statement
        if fault then (some (.other "database error"), db)
        else
          let permissions :=
            db.permissions.filter (fun p => ids.contains p.ID && p.DeletedAt.isNone)
          match PermissionService.BatchDeletePermissions.clear db permissions with
          | (some err, db) => (some err, db)
          | (none, db) =>
            let (fault, db) := db.statement
            if fault then (some (.other "database error"), db)
            else
              (none, { db with
                permissions := db.permissions.map (fun p =>
                  if ids.contains p.ID && p.DeletedAt.isNone then
                    { p with DeletedAt := some now }
                  else p) })

/-- A store with the permissions 1 and 2, both granted to role 1. -/
def examplePermissionDB : DB :=
  { permissions := [{ ID := 1, Path := "/b1", Method := "GET", Name := "B1" },
      { ID := 2, Path := "/b2", Method := "GET", Name := "B2" }]
    rolePermissions := [⟨1, 1⟩, ⟨1, 2⟩] }

/-! ### `services/operation_log.go`: `CleanOldLogs` -/

/-- The query `DB().Model(&models.OperationLog{}).Order("id DESC").Offset(offset).Limit(1)
.Pluck("id", &dest)`: the id at position `offset` among the ids of the live rows in
descending order, `none` when there is no such row (the destination is left alone). -/
def DB.PluckLogID (db : DB) (offset : Nat) : Except GoError (Option Nat) × DB :=
  let (fault, db) := db.statement
  if fault then (.error (.other "database error"), db)
  else
    (.ok ((((db.logs.filter (fun l => l.DeletedAt.isNone)).map (fun l => l.ID)).insertionSort
      (· ≥ ·))[offset]?), db)

/-- The method `OperationLogService.CleanOldLogs(ctx, retain)`: the returned count and
error (`none` for nil) and the store afterwards.  The delete is `Unscoped`: rows leave
the table. -/
def OperationLogService.CleanOldLogs (db : DB) (retain : Int) :
    (Int × Option GoError) × DB :=
  if retain ≤ 0 then ((0, none), db)
  else
    let minIDToKeep : Nat := 0
    match db.PluckLogID (retain - 1).toNat with
    | (.error err, db) => ((0, some err), db)
    | (.ok found, db) =>
      let minIDToKeep := found.getD minIDToKeep
      let (fault, db) := db.statement
      if fault then ((0, some (.other "database error")), db)
      else
        (((db.logs.filter (fun l => l.ID < minIDToKeep)).length, none),
          { db with logs := db.logs.filter (fun l => !(l.ID < minIDToKeep)) })

/-- The five rows the test of `CleanOldLogs` inserts, ids 1 to 5. -/
def exampleLogDB : DB :=
  { logs := [1, 2, 3, 4, 5].map (fun i =>
      { ID := i, Username := "u", Method := "GET", Path := "/", StatusCode := 200 }) }

/-! ### `services/auth.go`: two calls that increment `TokenVersion`, at once

`Logout` and `ChangePassword` run outside any transaction: their `First` query and their
`Save` statement are two separate statements, between which a statement of another
request may run. -/

/-- A call of `AuthService.Logout(ctx, userID)` or of
`AuthService.ChangePassword(ctx, userID, oldPassword, newPassword)`. -/
inductive VersionCall where
  | logout
  | changePassword (oldPassword newPassword : String)
  deriving DecidableEq, Repr

/-- The call up to its `Save` statement: the `First` query and the work on the loaded
row; the result is the row about to be saved, or the error returned. -/
def VersionCall.load (bcrypt : Bcrypt) (db : DB) (userID : Nat) :
    VersionCall → Except GoError User × DB
  | .logout =>
    match db.FirstUser userID with
    | (.error .recordNotFound, db) => (.error (NotFoundMsg "用户不存在"), db)
    | (.error err, db) => (.error err, db)
    | (.ok user, db) => (.ok { user with TokenVersion := uintIncr user.TokenVersion }, db)
  | .changePassword oldPassword newPassword =>
    match db.FirstUser userID with
    | (.error .recordNotFound, db) => (.error (NotFoundMsg "用户不存在"), db)
    | (.error err, db) => (.error err, db)
    | (.ok user, db) =>
      if !bcrypt.CompareHashAndPassword user.Password oldPassword then
        (.error (UnauthorizedMsg "当前密码错误"), db)
      else if newPassword.utf8ByteSize < 6 then
        (.error (BadRequestMsg "新密码长度不能少于6位"), db)
      else
        match bcrypt.GenerateFromPassword newPassword with
        | none => (.error (InternalErrorMsg "密码加密失败"), db)
        | some hashedPassword =>
          let user := { user with Password := hashedPassword }
          (.ok { user with TokenVersion := uintIncr user.TokenVersion }, db)

/-- The rest of the call: the statement `DB().Save(&user)` and the return. -/
def VersionCall.save (db : DB) (user : User) : VersionCall → Option GoError × DB
  | .logout =>
    match db.SaveUser user with
    | (some _, db) => (some (InternalErrorMsg "更新Token版本失败"), db)
    | (none, db) => (none, db)
  | .changePassword _ _ =>
    match db.SaveUser user with
    | (some err, db) => (some err, db)
    | (none, db) => (none, db)

/-- Where a running call stands: before its `First` query, between the query and the
`Save` with the row it holds, or returned with its error (`none` for nil). -/
inductive CallState where
  | ready
  | loaded (user : User)
  | returned (err : Option GoError)
  deriving DecidableEq, Repr

/-- The next statement of a running call, with the local work that follows it. -/
def VersionCall.step (bcrypt : Bcrypt) (userID : Nat) (call : VersionCall)
    (state : CallState) (db : DB) : CallState × DB :=
  match state with
  | .ready =>
    match call.load bcrypt db userID with
    | (.error err, db) => (.returned (some err), db)
    | (.ok user, db) => (.loaded user, db)
  | .loaded user =>
    match call.save db user with
    | (err, db) => (.returned err, db)
  | .returned err => (.returned err, db)

/-- Two calls `a` and `b` for the same user on one store; the schedule says, statement by
statement, which call goes next (`false` for `a`, `true` for `b`). -/
def runTwo (bcrypt : Bcrypt) (userID : Nat) (a b : VersionCall) :
    List Bool → CallState × CallState × DB → CallState × CallState × DB
  | [], state => state
  | false :: rest, (sa, sb, db) =>
    runTwo bcrypt userID a b rest
      ((a.step bcrypt userID sa db).1, sb, (a.step bcrypt userID sa db).2)
  | true :: rest, (sa, sb, db) =>
    runTwo bcrypt userID a b rest
      (sa, (b.step bcrypt userID sb db).1, (b.step bcrypt userID sb db).2)

/-- The stored `token_version` of the live user `userID`, if there is one. -/
def storedTokenVersion (db : DB) (userID : Nat) : Option Nat :=
  (db.users.find? (fun u => u.ID == userID && u.DeletedAt.isNone)).map (fun u => u.TokenVersion)

/-! ### `middleware/operation_log.go` -/

def maxOperationLogSize : Nat := 50 * 1024

/-- The bytes of the Go string "...(truncated)". -/
def truncatedSuffix : List UInt8 :=
  "...(truncated)".data.map (fun c => c.toNat.toUInt8)

/-- The two calls into `encoding/json` made by `formatJSON`; the package belongs to the Go
standard library.  `Unmarshal data` is `json.Unmarshal(data, &jsonObj)` for a `jsonObj`
of type `interface{}`, `MarshalIndent v` is `json.MarshalIndent(v, "", "  ")`; `none`
stands for a non-nil error. -/
structure JSONLib (Value : Type) where
  Unmarshal : List UInt8 → Option Value
  MarshalIndent : Value → Option (List UInt8)

/-- The function `formatJSON(s)`, on the bytes of the string. -/
def formatJSON {Value : Type} (lib : JSONLib Value) (s : List UInt8) : List UInt8 :=
  if s = [] then []
  else
    match lib.Unmarshal s with
    | none => s
    | some jsonObj =>
      match lib.MarshalIndent jsonObj with
      | none => s
      | some formatted => formatted

/-- The value of `requestBody` in `OperationLogMiddleware` after the request body has
been read; `bodyBytes` is `none` when the request has no body or `io.ReadAll` fails. -/
def OperationLogMiddleware.requestBody (bodyBytes : Option (List UInt8)) : List UInt8 :=
  match bodyBytes with
  | none => []
  | some bodyBytes =>
    if bodyBytes.length > maxOperationLogSize then
      bodyBytes.take maxOperationLogSize ++ truncatedSuffix
    else bodyBytes

/-- The value of `responseBody` in `OperationLogMiddleware` after the truncation;
`written` is what the handlers wrote, the content of `blw.body`. -/
def OperationLogMiddleware.responseBody (written : List UInt8) : List UInt8 :=
  if written.length > maxOperationLogSize then
    written.take maxOperationLogSize ++ truncatedSuffix
  else written

/-- The record `OperationLogMiddleware` hands to `a.DB().Create`, `none` when the request
is not recorded (another path or method).  `routeName` is the name the route registry
gives for the request; status, client address, user agent and duration are what gin and
the clock report. -/
def OperationLogMiddleware.operationLog {Value : Type} (lib : JSONLib Value)
    (ctxClaims : Option Claims) (method path : String) (bodyBytes : Option (List UInt8))
    (written : List UInt8) (routeName : String) (status : Int) (clientIP userAgent : String)
    (duration : Int) : Option OperationLog :=
  if !Strings.HasPrefix path "/admin/api/" then none
  else if method != "PUT" && method != "DELETE" && method != "POST" then none
  else
    let userID := match ctxClaims with
      | some claims => claims.UserID
      | none => 0
    let username := match ctxClaims with
      | some claims => claims.Username
      | none => ""
    let requestBody := OperationLogMiddleware.requestBody bodyBytes
    let responseBody := OperationLogMiddleware.responseBody written
    let formattedRequest := formatJSON lib requestBody
    let formattedResponse := formatJSON lib responseBody
    some
      { UserID := userID
        Username := username
        Method := method
        Path := path
        RouteName := routeName
        Request := formattedRequest
        Response := formattedResponse
        StatusCode := status
        IP := clientIP
        UserAgent := userAgent
        Duration := duration }

/-- The end of a compact JSON array of numerals 1: `n` further elements ",1" and the
closing bracket. -/
def onesTail : Nat → List UInt8
  | 0 => [93]
  | n + 1 => 44 :: 49 :: onesTail n

/-- The compact JSON array `[1,1,...,1]` of `n + 1` numerals, in bytes. -/
def onesArray (n : Nat) : List UInt8 := 91 :: 49 :: onesTail n

/-- The end of the indented array: `n` further elements, each after a comma on a line of
its own behind two blanks, then a line break and the closing bracket. -/
def indentedTail : Nat → List UInt8
  | 0 => [10, 93]
  | n + 1 => 44 :: 10 :: 32 :: 32 :: 49 :: indentedTail n

/-- The array of `n + 1` numerals 1 as `json.MarshalIndent(v, "", "  ")` writes it. -/
def indentedOnes (n : Nat) : List UInt8 := 91 :: 10 :: 32 :: 32 :: 49 :: indentedTail n

/-- The decoder of the examples on the rest of a compact array of numerals 1. -/
def parseOnesTail : List UInt8 → Option Nat
  | [] => none
  | [c] => if c = 93 then some 0 else none
  | c :: d :: rest =>
    if c = 44 ∧ d = 49 then (parseOnesTail rest).map (· + 1) else none

/-- The behaviour of `encoding/json` on the documents of the examples: a compact array of
`n + 1` numerals 1 decodes to a slice of that many numbers (kept here as `n`), which
`MarshalIndent` writes as `indentedOnes n`.  On every other document this stand-in
reports a decoding error. -/
def exampleJSONLib : JSONLib Nat where
  Unmarshal := fun data =>
    match data with
    | c :: d :: rest => if c = 91 ∧ d = 49 then parseOnesTail rest else none
    | _ => none
  MarshalIndent := fun n => some (indentedOnes n)

/-! ### A JWT library for the examples that signs every claim set

The token is the secret followed by the fields of the claims, numbers written in unary
and strings behind their length; it stands in for the signed JSON of the real library. -/

namespace Codec

def encNat (n : Nat) : List Char := List.replicate n 'x' ++ [';']

def decNat : List Char → Option (Nat × List Char)
  | [] => none
  | c :: rest =>
    if c == ';' then some (0, rest)
    else if c == 'x' then (decNat rest).map (fun r => (r.1 + 1, r.2))
    else none

def encStr (s : String) : List Char := encNat s.data.length ++ s.data

def decStr (l : List Char) : Option (String × List Char) :=
  match decNat l with
  | some (n, rest) =>
    if n ≤ rest.length then some (String.mk (rest.take n), rest.drop n) else none
  | none => none

def encNats : List Nat → List Char
  | [] => []
  | n :: rest => encNat n ++ encNats rest

def decNats : Nat → List Char → Option (List Nat × List Char)
  | 0, l => some ([], l)
  | k + 1, l =>
    match decNat l with
    | some (n, rest) => (decNats k rest).map (fun r => (n :: r.1, r.2))
    | none => none

def encList (l : List Nat) : List Char := encNat l.length ++ encNats l

def decList (l : List Char) : Option (List Nat × List Char) :=
  match decNat l with
  | some (k, rest) => decNats k rest
  | none => none

def encInt (i : Int) : List Char := (if i < 0 then 'm' else 'p') :: encNat i.natAbs

def decInt : List Char → Option (Int × List Char)
  | [] => none
  | c :: rest =>
    match decNat rest with
    | some (n, rest) => if c == 'm' then some (-(n : Int), rest) else some ((n : Int), rest)
    | none => none

def encBool (b : Bool) : List Char := [if b then 't' else 'f']

def decBool : List Char → Option (Bool × List Char)
  | [] => none
  | c :: rest => some (c == 't', rest)

def encOpt : Option Nat → List Char
  | none => ['n']
  | some n => 's' :: encNat n

def decOpt : List Char → Option (Option Nat × List Char)
  | [] => none
  | c :: rest =>
    if c == 's' then (decNat rest).map (fun r => (some r.1, r.2)) else some (none, rest)

def encClaims (c : Claims) : List Char :=
  encNat c.UserID ++ (encStr c.Username ++ (encStr c.Nickname ++ (encInt c.Type_ ++
    (encBool c.IsSuperAdmin ++ (encList c.RoleIDs ++ (encStr c.ID ++ (encStr c.Issuer ++
      (encOpt c.IssuedAt ++ encOpt c.ExpiresAt))))))))

def decClaims (l : List Char) : Option (Claims × List Char) :=
  match decNat l with
  | none => none
  | some (userID, l) =>
  match decStr l with
  | none => none
  | some (username, l) =>
  match decStr l with
  | none => none
  | some (nickname, l) =>
  match decInt l with
  | none => none
  | some (type_, l) =>
  match decBool l with
  | none => none
  | some (isSuperAdmin, l) =>
  match decList l with
  | none => none
  | some (roleIDs, l) =>
  match decStr l with
  | none => none
  | some (id, l) =>
  match decStr l with
  | none => none
  | some (issuer, l) =>
  match decOpt l with
  | none => none
  | some (issuedAt, l) =>
  match decOpt l with
  | none => none
  | some (expiresAt, l) =>
    some ({ UserID := userID, Username := username, Nickname := nickname, Type_ := type_,
            IsSuperAdmin := isSuperAdmin, RoleIDs := roleIDs, ID := id, Issuer := issuer,
            IssuedAt := issuedAt, ExpiresAt := expiresAt }, l)

end Codec

/-- A stand-in for the JWT library that signs every claim set under every secret, and
verifies a token when it was signed under the same secret and has not expired. -/
def codecJWT : JWT where
  SignedString := fun secret claims =>
    .ok (String.mk (Codec.encStr secret ++ Codec.encClaims claims))
  ParseWithClaims := fun secret now token =>
    match Codec.decStr token.data with
    | none => .error "token is malformed"
    | some (key, rest) =>
      if key == secret then
        match Codec.decClaims rest with
        | some (claims, []) =>
          match claims.ExpiresAt with
          | some exp => if now < exp then .ok (claims, true) else .error "token is expired"
          | none => .ok (claims, true)
        | _ => .error "token is malformed"
      else .error "signature is invalid"

/-! ## Go strings as byte sequences

A Go string is a sequence of bytes that need not be valid UTF-8, and a request path
delivers whatever bytes the client sent.  The functions below work on the bytes, as the
Go functions do; `strings.EqualFold` and the `regexp` package read the bytes as runes,
each byte of an invalid sequence being the rune U+FFFD. -/

namespace Utf8

/-- Go `utf8.RuneError`, the rune U+FFFD. -/
def RuneError : Char := Char.ofNat 0xFFFD

/-- One continuation position of `utf8.DecodeRuneInString`: when the next byte lies in
the range from `lo` to `hi`, its low six bits and the bytes after it. -/
def contAt (lo hi : Nat) : List UInt8 → Option (Nat × List UInt8)
  | [] => none
  | b :: rest => if lo ≤ b.toNat ∧ b.toNat ≤ hi then some (b.toNat % 64, rest) else none

/-- Go `utf8.DecodeRuneInString` on the non-empty string `s0 :: rest`: the rune, its
width in bytes, and the bytes after it.  A leading byte below 0x80 is the rune itself;
the leading bytes 0xC2..0xDF, 0xE0..0xEF and 0xF0..0xF4 start sequences of two, three
and four bytes whose second byte must lie in the accept range of the leading byte and
whose further bytes must lie in 0x80..0xBF; every other case, a string too short
included, is the rune U+FFFD of width 1. -/
def decodeStep (s0 : UInt8) (rest : List UInt8) : Char × Nat × List UInt8 :=
  if s0.toNat < 0x80 then (Char.ofNat s0.toNat, 1, rest)
  else if 0xC2 ≤ s0.toNat ∧ s0.toNat ≤ 0xDF then
    match contAt 0x80 0xBF rest with
    | some (x1, r1) => (Char.ofNat (s0.toNat % 32 * 64 + x1), 2, r1)
    | none => (RuneError, 1, rest)
  else if 0xE0 ≤ s0.toNat ∧ s0.toNat ≤ 0xEF then
    match contAt (if s0.toNat = 0xE0 then 0xA0 else 0x80)
        (if s0.toNat = 0xED then 0x9F else 0xBF) rest with
    | some (x1, r1) =>
      match contAt 0x80 0xBF r1 with
      | some (x2, r2) => (Char.ofNat (s0.toNat % 16 * 4096 + x1 * 64 + x2), 3, r2)
      | none => (RuneError, 1, rest)
    | none => (RuneError, 1, rest)
  else if 0xF0 ≤ s0.toNat ∧ s0.toNat ≤ 0xF4 then
    match contAt (if s0.toNat = 0xF0 then 0x90 else 0x80)
        (if s0.toNat = 0xF4 then 0x8F else 0xBF) rest with
    | some (x1, r1) =>
      match contAt 0x80 0xBF r1 with
      | some (x2, r2) =>
        match contAt 0x80 0xBF r2 with
        | some (x3, r3) =>
          (Char.ofNat (s0.toNat % 8 * 262144 + x1 * 4096 + x2 * 64 + x3), 4, r3)
        | none => (RuneError, 1, rest)
      | none => (RuneError, 1, rest)
    | none => (RuneError, 1, rest)
  else (RuneError, 1, rest)

/-- Go `utf8.DecodeRuneInString(s)`: the first rune of `s` and its width. -/
def DecodeRuneInString : List UInt8 → Char × Nat
  | [] => (RuneError, 0)
  | s0 :: rest => ((decodeStep s0 rest).1, (decodeStep s0 rest).2.1)

/-- The runes of a string with their widths, as `for _, r := range s` meets them; the
first argument bounds the number of runes and is the length of the string in `runes`. -/
def runesFuel : Nat → List UInt8 → List (Char × Nat)
  | 0, _ => []
  | _ + 1, [] => []
  | fuel + 1, s0 :: rest =>
    ((decodeStep s0 rest).1, (decodeStep s0 rest).2.1) ::
      runesFuel fuel (decodeStep s0 rest).2.2

/-- The runes of a string with their widths. -/
def runes (s : List UInt8) : List (Char × Nat) := runesFuel s.length s

/-- The runes of a string, each byte of an invalid sequence read as U+FFFD. -/
def decode (s : List UInt8) : List Char := (runes s).map (fun rw => rw.1)

/-- Go `utf8.ValidString(s)`: no rune of the string is the U+FFFD of width 1 that stands
for an invalid byte. -/
def Valid (s : List UInt8) : Bool :=
  (runes s).all (fun rw => !(rw.1 == RuneError && rw.2 == 1))

/-- The UTF-8 encoding of a rune, what Go writes for `string(r)`. -/
def EncodeRune (c : Char) : List UInt8 :=
  if c.toNat < 0x80 then [UInt8.ofNat c.toNat]
  else if c.toNat < 0x800 then
    [UInt8.ofNat (0xC0 + c.toNat / 64), UInt8.ofNat (0x80 + c.toNat % 64)]
  else if c.toNat < 0x10000 then
    [UInt8.ofNat (0xE0 + c.toNat / 4096), UInt8.ofNat (0x80 + c.toNat / 64 % 64),
      UInt8.ofNat (0x80 + c.toNat % 64)]
  else
    [UInt8.ofNat (0xF0 + c.toNat / 262144), UInt8.ofNat (0x80 + c.toNat / 4096 % 64),
      UInt8.ofNat (0x80 + c.toNat / 64 % 64), UInt8.ofNat (0x80 + c.toNat % 64)]

/-- The bytes of a string of valid runes: the Go string a Lean string stands for. -/
def encode : List Char → List UInt8
  | [] => []
  | c :: rest => EncodeRune c ++ encode rest

end Utf8

namespace Bytes

/-- The bytes of a Go string literal. -/
def ofString (s : String) : List UInt8 := Utf8.encode s.data

/-- Go `strings.HasPrefix(s, p)`. -/
def HasPrefix (s p : List UInt8) : Bool := p.isPrefixOf s

/-- Go `strings.HasSuffix(s, suffix)`. -/
def HasSuffix (s suffix : List UInt8) : Bool := suffix.isSuffixOf s

/-- Go `strings.TrimSuffix(s, suffix)`. -/
def TrimSuffix (s suffix : List UInt8) : List UInt8 :=
  if HasSuffix s suffix then s.take (s.length - suffix.length) else s

/-- Go `strings.EqualFold(s, t)`: the two strings are read rune by rune, an invalid byte
as U+FFFD, and compared under simple case folding; `fold` is the folding table, as in
`Strings.EqualFold`. -/
def EqualFold (fold : Char → Char) (s t : List UInt8) : Bool :=
  (Utf8.decode s).map fold == (Utf8.decode t).map fold

/-- The function `special` of `regexp`: the byte is one of the ASCII characters that
`QuoteMeta` escapes. -/
def special (b : UInt8) : Bool := b.toNat < 0x80 && Regexp.special (Char.ofNat b.toNat)

/-- Go `regexp.QuoteMeta`, which loops over the bytes of the string. -/
def QuoteMeta : List UInt8 → List UInt8
  | [] => []
  | b :: rest => if special b then 92 :: b :: QuoteMeta rest else b :: QuoteMeta rest

/-- The bytes of the replacement text "[^/]+". -/
def paramClass : List UInt8 := [91, 94, 47, 93, 43]

/-- The call `regexp.MustCompile(":\\\\w+").ReplaceAllString(pattern, "[^/]+")` on
bytes: the expression is made of the ASCII characters colon (58), backslash (92) and
`w` (119), and an ASCII byte is always a rune of its own, so a match is a run of these
bytes; see `Regexp.replaceAllParams`. -/
def replaceAllParams : Bool → List UInt8 → List UInt8
  | _, [] => []
  | skipping, c :: b :: w :: rest =>
    if skipping && c == 119 then replaceAllParams true (b :: w :: rest)
    else if c == 58 && b == 92 && w == 119 then paramClass ++ replaceAllParams true rest
    else c :: replaceAllParams false (b :: w :: rest)
  | skipping, c :: rest =>
    if skipping && c == 119 then replaceAllParams true rest
    else c :: replaceAllParams false rest

/-- Go `regexp.Compile(pattern)`: the parser reads the pattern rune by rune and reports
an error (invalid UTF-8) at an invalid byte; a valid pattern is parsed as its runes.  The
size limits of the parser, which lie far above the 255 characters of a stored permission
path, are not modelled. -/
def Compile (pattern : List UInt8) : Option (List Regexp.Atom) :=
  if Utf8.Valid pattern then Regexp.Compile (Utf8.decode pattern) else none

/-- Go `(*Regexp).MatchString(s)`: the expression is matched against the runes of `s`,
each byte of an invalid sequence being U+FFFD. -/
def MatchString (re : List Regexp.Atom) (s : List UInt8) : Bool :=
  Regexp.MatchString re (Utf8.decode s)

/-- The function `matchPermission(permPath, permMethod, reqPath, reqMethod)` of
`middleware/permission.go`, on Go strings as bytes. -/
def matchPermission (fold : Char → Char)
    (permPath permMethod reqPath reqMethod : List UInt8) : Bool :=
  if !EqualFold fold permMethod reqMethod then false
  else if permPath == reqPath then true
  else if HasSuffix permPath [47, 42] &&
      HasPrefix reqPath (TrimSuffix permPath [47, 42] ++ [47]) then true
  else
    let pattern := QuoteMeta permPath
    let pattern := replaceAllParams false pattern
    match Compile (94 :: pattern ++ [36]) with
    | none => false
    | some re => if MatchString re reqPath then true else false

end Bytes

/-- The bytes of the permission path "/a" followed by the rune U+FFFD. -/
def exampleReplacementPath : List UInt8 := [47, 97, 0xEF, 0xBF, 0xBD]

/-- The bytes of a request path "/a" followed by the byte 0xFF, which is not valid
UTF-8; a client sends it as "/a%FF". -/
def exampleInvalidPath : List UInt8 := [47, 97, 0xFF]

/-- The bytes of the method "GET". -/
def exampleGET : List UInt8 := [71, 69, 84]

/-- The bytes of the request path "/a", the byte 0xFF, "/*"; a client sends it as
"/a%FF/*". -/
def exampleInvalidWildcardPath : List UInt8 := [47, 97, 0xFF, 47, 42]

/-! ## Lemmas on the regular-expression stage -/

namespace Regexp

theorem special_ne_w {c : Char} (h : special c = true) : c ≠ 'w' := by
  rintro rfl
  revert h
  decide

theorem special_ne_colon {c : Char} (h : special c = true) : c ≠ ':' := by
  rintro rfl
  revert h
  decide

theorem QuoteMeta_not_backslash_w (p rest : List Char) :
    QuoteMeta p ≠ '\\' :: 'w' :: rest := by
  cases p with
  | nil => simp [QuoteMeta]
  | cons c p =>
    unfold QuoteMeta
    split
    · rename_i h
      intro heq
      simp only [List.cons.injEq] at heq
      exact special_ne_w h heq.2.1
    · rename_i h
      intro heq
      simp only [List.cons.injEq] at heq
      rw [heq.1] at h
      exact h (by decide)

theorem replaceAllParams_cons_of_ne {x : Char} (hx : x ≠ ':') (l : List Char) :
    replaceAllParams false (x :: l) = x :: replaceAllParams false l := by
  match l with
  | [] => simp [replaceAllParams]
  | [b] => simp [replaceAllParams]
  | b :: w :: rest => simp [replaceAllParams, hx]

theorem replaceAllParams_cons_QuoteMeta (x : Char) (p : List Char) :
    replaceAllParams false (x :: QuoteMeta p) = x :: replaceAllParams false (QuoteMeta p) := by
  have h := QuoteMeta_not_backslash_w p
  generalize QuoteMeta p = l at h
  match l, h with
  | [], _ => simp [replaceAllParams]
  | [b], _ => simp [replaceAllParams]
  | b :: w :: rest, h =>
    have hbw : ¬ (b = '\\' ∧ w = 'w') := by
      rintro ⟨rfl, rfl⟩
      exact h rest rfl
    simp only [replaceAllParams, Bool.false_and, Bool.false_eq_true, if_false]
    have : (x == ':' && b == '\\' && w == 'w') = false := by
      simp only [Bool.and_eq_false_imp, Bool.and_eq_true, beq_iff_eq, beq_eq_false_iff_ne]
      rintro ⟨_, hb⟩ hw
      exact hbw ⟨hb, hw⟩
    simp [this]

/-- The substitution of `matchPermission` never fires on quoted text: the expression
needs a colon, a backslash and a `w` in a row, and in `QuoteMeta` output a backslash is
always followed by a special character. -/
theorem replaceAllParams_QuoteMeta (p : List Char) :
    replaceAllParams false (QuoteMeta p) = QuoteMeta p := by
  induction p with
  | nil => simp [QuoteMeta, replaceAllParams]
  | cons c p ih =>
    unfold QuoteMeta
    split
    · rename_i h
      rw [replaceAllParams_cons_of_ne (by decide), replaceAllParams_cons_QuoteMeta, ih]
    · rw [replaceAllParams_cons_QuoteMeta, ih]

theorem special_escapable {c : Char} (h : special c = true) :
    (c.toNat < 128 && !isalnum c) = true := by
  simp only [special, Bool.or_eq_true, beq_iff_eq] at h
  rcases h with (((((((((((((h | h) | h) | h) | h) | h) | h) | h) | h) | h) | h) | h) | h) | h) <;>
    subst h <;> decide

theorem parseAnchoredBody_QuoteMeta (p : List Char) :
    parseAnchoredBody .item (QuoteMeta p ++ ['$']) = some (p.map Atom.lit) := by
  induction p with
  | nil => decide
  | cons c p ih =>
    unfold QuoteMeta
    split
    · rename_i h
      have he := special_escapable h
      rw [List.cons_append, List.cons_append]
      simp [parseAnchoredBody, he, ih]
    · rename_i h
      have h1 : c ≠ '$' := by rintro rfl; exact h (by decide)
      have h2 : c ≠ '\\' := by rintro rfl; exact h (by decide)
      have h3 : c ≠ '[' := by rintro rfl; exact h (by decide)
      rw [List.cons_append]
      simp [parseAnchoredBody, h1, h2, h3, h, ih]

/-- The expression compiled from a quoted path is the path, character by character. -/
theorem Compile_QuoteMeta (p : List Char) :
    Compile ('^' :: replaceAllParams false (QuoteMeta p) ++ ['$']) = some (p.map Atom.lit) := by
  rw [replaceAllParams_QuoteMeta]
  simp [Compile, parseAnchoredBody_QuoteMeta]

theorem MatchString_lits (p r : List Char) :
    MatchString (p.map Atom.lit) r = decide (p = r) := by
  induction p generalizing r with
  | nil => cases r <;> simp [MatchString]
  | cons c p ih =>
    cases r with
    | nil => simp [MatchString]
    | cons x r =>
      simp only [List.map_cons, MatchString, ih, List.cons.injEq, Bool.decide_and]
      by_cases h : c = x <;> simp [h]

end Regexp

open Strings in
/-- The regular-expression stage of `matchPermission` accepts nothing that the equality
test before it has not accepted already. -/
theorem matchPermission_eq (fold : Char → Char) (P m R m2 : String) :
    matchPermission fold P m R m2 =
      (EqualFold fold m m2 &&
        (P == R || (HasSuffix P "/*" && HasPrefix R (TrimSuffix P "/*" ++ "/")))) := by
  unfold matchPermission
  by_cases hm : EqualFold fold m m2 = true
  · by_cases hp : P = R
    · simp [hm, hp]
    · by_cases hw : (HasSuffix P "/*" && HasPrefix R (TrimSuffix P "/*" ++ "/")) = true
      · simp [hm, hp, hw]
      · have hd : P.data ≠ R.data := fun h => hp (String.ext h)
        simp only [hm, hw, Regexp.Compile_QuoteMeta, Regexp.MatchString_lits]
        simp [hd, hp]
  · simp [hm]

/-! ## Lemmas on the string helpers -/

namespace Strings

theorem EqualFold_symm (fold : Char → Char) (s t : String) :
    EqualFold fold s t = EqualFold fold t s := by
  unfold EqualFold
  by_cases h : s.data.map fold = t.data.map fold
  · simp [h]
  · have h2 : ¬ t.data.map fold = s.data.map fold := fun e => h e.symm
    simp [h, h2]

theorem EqualFold_congr_left (fold : Char → Char) {s n : String} (t : String)
    (h : EqualFold fold s n = true) : EqualFold fold n t = EqualFold fold s t := by
  unfold EqualFold at *
  have h2 : s.data.map fold = n.data.map fold := by simpa using h
  rw [h2]

theorem EqualFold_congr_right (fold : Char → Char) {t n : String} (s : String)
    (h : EqualFold fold t n = true) : EqualFold fold s n = EqualFold fold s t := by
  unfold EqualFold at *
  have h2 : t.data.map fold = n.data.map fold := by simpa using h
  rw [h2]

theorem HasSuffix_append (q suffix : String) : HasSuffix (q ++ suffix) suffix = true := by
  unfold HasSuffix
  rw [ List.isSuffixOf_iff_suffix, String.data_append]
  exact List.suffix_append _ _

theorem TrimSuffix_append (q suffix : String) : TrimSuffix (q ++ suffix) suffix = q := by
  unfold TrimSuffix
  rw [if_pos (HasSuffix_append q suffix)]
  apply String.ext
  simp [String.data_append]

theorem HasPrefix_iff (s p : String) : HasPrefix s p = true ↔ p.data <+: s.data := by
  unfold HasPrefix
  exact List.isPrefixOf_iff_prefix

theorem HasPrefix_append (q t : String) : HasPrefix (q ++ t) q = true := by
  rw [HasPrefix_iff, String.data_append]
  exact List.prefix_append _ _

theorem not_HasPrefix_longer (q c : String) (hc : c ≠ "") : HasPrefix q (q ++ c) = false := by
  rw [Bool.eq_false_iff]
  intro h
  rw [HasPrefix_iff, String.data_append] at h
  have hlen := h.length_le
  simp only [List.length_append] at hlen
  have : c.data ≠ [] := fun e => hc (String.ext e)
  have : 0 < c.data.length := List.length_pos.mpr this
  omega

end Strings

/-! ## The claims on `matchPermission` -/

open Strings

/-- C1 (code defect): the two path-parameter rows of `TestMatchPermission`, which the
claim expects to match, are rejected by `matchPermission`: the expression written in the
raw string is a colon, a literal backslash and `w+`, so `:id` is never rewritten to
`[^/]+` and only the literal path is accepted. -/
theorem C1_path_parameter_rejected :
    (specSegmentRule "/admin/api/roles/:id/permissions" "/admin/api/roles/1/permissions" = true ∧
      matchPermission foldASCII "/admin/api/roles/:id/permissions" "GET"
        "/admin/api/roles/1/permissions" "GET" = false) ∧
    (specSegmentRule "/admin/api/users/:id" "/admin/api/users/1" = true ∧
      matchPermission foldASCII "/admin/api/users/:id" "GET" "/admin/api/users/1" "GET" =
        false) := by
  decide

/-- C8: a permission path equal to the request path matches, whatever the string is,
whenever the two methods are equal under case folding. -/
theorem C8_exact_path_matches (fold : Char → Char) (P m m2 : String)
    (hm : EqualFold fold m m2 = true) : matchPermission fold P m P m2 = true := by
  simp [matchPermission, hm]

/-- Witness of C8: the empty path, a path with a parameter and a path ending in "/*". -/
theorem C8_exact_path_matches_witness :
    matchPermission foldASCII "" "GET" "" "get" = true ∧
      matchPermission foldASCII "/roles/:id" "GET" "/roles/:id" "GET" = true ∧
      matchPermission foldASCII "/users/*" "post" "/users/*" "POST" = true :=
  ⟨C8_exact_path_matches foldASCII "" "GET" "get" (by decide),
    C8_exact_path_matches foldASCII "/roles/:id" "GET" "GET" (by decide),
    C8_exact_path_matches foldASCII "/users/*" "post" "POST" (by decide)⟩

/-- C9: `matchPermission` is false whenever the two methods are not equal under case
folding, and replacing either method by a string equal to it under case folding does
not change the result. -/
theorem C9_method_case_insensitive (fold : Char → Char) (P R m m2 : String) :
    (EqualFold fold m m2 = false → matchPermission fold P m R m2 = false) ∧
      (∀ n : String, EqualFold fold m n = true →
        matchPermission fold P n R m2 = matchPermission fold P m R m2) ∧
      (∀ n : String, EqualFold fold m2 n = true →
        matchPermission fold P m R n = matchPermission fold P m R m2) := by
  refine ⟨?_, ?_, ?_⟩
  · intro h
    simp [matchPermission, h]
  · intro n h
    rw [matchPermission_eq, matchPermission_eq, EqualFold_congr_left fold m2 h]
  · intro n h
    rw [matchPermission_eq, matchPermission_eq, EqualFold_congr_right fold m h]

/-- Witness of C9: "GET" against "POST" never matches, and "get" may stand for "GET"
on either side. -/
theorem C9_method_case_insensitive_witness :
    matchPermission foldASCII "/admin/api/users" "GET" "/admin/api/users" "POST" = false ∧
      matchPermission foldASCII "/admin/api/users" "get" "/admin/api/users" "GET" =
        matchPermission foldASCII "/admin/api/users" "GET" "/admin/api/users" "GET" ∧
      matchPermission foldASCII "/admin/api/users" "GET" "/admin/api/users" "get" =
        matchPermission foldASCII "/admin/api/users" "GET" "/admin/api/users" "GET" :=
  ⟨(C9_method_case_insensitive foldASCII "/admin/api/users" "/admin/api/users" "GET"
      "POST").1 (by decide),
    (C9_method_case_insensitive foldASCII "/admin/api/users" "/admin/api/users" "GET"
      "GET").2.1 "get" (by decide),
    (C9_method_case_insensitive foldASCII "/admin/api/users" "/admin/api/users" "GET"
      "GET").2.2 "get" (by decide)⟩

/-- C10: when the permission path does not end in "/*" and the request path has
another number of '/'-separated segments, `matchPermission` is false for all methods. -/
theorem C10_segment_count_mismatch (fold : Char → Char) (P m R m2 : String)
    (hw : HasSuffix P "/*" = false)
    (hseg : (Split P.data '/').length ≠ (Split R.data '/').length) :
    matchPermission fold P m R m2 = false := by
  have hne : P ≠ R := by
    rintro rfl
    exact hseg rfl
  rw [matchPermission_eq, hw]
  simp [hne]

/-- Witness of C10: the three examples of the claim. -/
theorem C10_segment_count_mismatch_witness :
    matchPermission foldASCII "/admin/api/roles/:id" "GET" "/admin/api/roles/1/extra" "GET" =
        false ∧
      matchPermission foldASCII "/roles/:id/permissions" "GET" "/roles/7/permissions/extra"
        "GET" = false ∧
      matchPermission foldASCII "/roles/:id/permissions" "GET" "/roles/7/8/permissions"
        "GET" = false :=
  ⟨C10_segment_count_mismatch foldASCII "/admin/api/roles/:id" "GET"
      "/admin/api/roles/1/extra" "GET" (by decide) (by decide),
    C10_segment_count_mismatch foldASCII "/roles/:id/permissions" "GET"
      "/roles/7/permissions/extra" "GET" (by decide) (by decide),
    C10_segment_count_mismatch foldASCII "/roles/:id/permissions" "GET"
      "/roles/7/8/permissions" "GET" (by decide) (by decide)⟩

/-! ## The claims on `PermissionMiddleware` -/

/-- C2: for claims that are present and not super-admin, with `L` the resolved
permissions (the result of the service, or the empty list without any service call when
the role set is empty), the next handler runs exactly when some permission of `L`
matches the request; otherwise the handler answers Forbidden (code 403,
"没有权限访问此资源") and aborts. -/
theorem C2_allow_iff_some_permission_matches (fold : Char → Char)
    (svc : List Nat → Except GoError (List Permission)) (claims : Claims) (req : Request)
    (L : List Permission) (hsa : claims.IsSuperAdmin = false)
    (hL : (claims.RoleIDs = [] ∧ L = []) ∨ (claims.RoleIDs ≠ [] ∧ svc claims.RoleIDs = .ok L)) :
    (Effect.next ∈ PermissionMiddleware fold svc (some claims) req ↔
        ∃ perm ∈ L, matchPermission fold perm.Path perm.Method req.Path req.Method = true) ∧
      ((¬ ∃ perm ∈ L, matchPermission fold perm.Path perm.Method req.Path req.Method = true) →
        PermissionMiddleware fold svc (some claims) req =
          (if claims.RoleIDs = [] then [] else [.callGetPermissionsByRoleIDs claims.RoleIDs]) ++
            [.json StatusOK CodeForbidden "没有权限访问此资源", .abort]) ∧
      (claims.RoleIDs = [] →
        ∀ ids, Effect.callGetPermissionsByRoleIDs ids ∉
          PermissionMiddleware fold svc (some claims) req) := by
  by_cases hany : L.any (fun perm => matchPermission fold perm.Path perm.Method req.Path
      req.Method) = true
  · have hex : ∃ perm ∈ L,
        matchPermission fold perm.Path perm.Method req.Path req.Method = true := by
      simpa [List.any_eq_true] using hany
    rcases hL with ⟨hr, hl⟩ | ⟨hr, hs⟩
    · subst hl
      simp at hany
    · have hlen : claims.RoleIDs.length > 0 := List.length_pos.mpr hr
      have hout : PermissionMiddleware fold svc (some claims) req =
          [.callGetPermissionsByRoleIDs claims.RoleIDs, .next] := by
        simp [PermissionMiddleware, hsa, hlen, hs, hany]
      rw [hout]
      exact ⟨⟨fun _ => hex, fun _ => by simp⟩, fun h => absurd hex h, fun h => absurd h hr⟩
  · have hnex : ¬ ∃ perm ∈ L,
        matchPermission fold perm.Path perm.Method req.Path req.Method = true := by
      simpa [List.any_eq_true] using hany
    have hany2 : L.any (fun perm => matchPermission fold perm.Path perm.Method req.Path
        req.Method) = false := by simpa using hany
    rcases hL with ⟨hr, hl⟩ | ⟨hr, hs⟩
    · have hout : PermissionMiddleware fold svc (some claims) req =
          [.json StatusOK CodeForbidden "没有权限访问此资源", .abort] := by
        simp [PermissionMiddleware, hsa, hr, Responder.RespondError, Responder.Error,
          ForbiddenMsg, NewBizError]
      rw [hout]
      refine ⟨⟨fun h => by simp at h, fun h => absurd h hnex⟩, fun _ => by simp [hr], ?_⟩
      intro _ ids
      simp
    · have hlen : claims.RoleIDs.length > 0 := List.length_pos.mpr hr
      have hout : PermissionMiddleware fold svc (some claims) req =
          [.callGetPermissionsByRoleIDs claims.RoleIDs,
            .json StatusOK CodeForbidden "没有权限访问此资源", .abort] := by
        simp [PermissionMiddleware, hsa, hlen, hs, hany2, Responder.RespondError,
          Responder.Error, ForbiddenMsg, NewBizError]
      rw [hout]
      exact ⟨⟨fun h => by simp at h, fun h => absurd h hnex⟩, fun _ => by simp [hr],
        fun h => absurd h hr⟩

/-- Witness of C2: a role holding (GET, /admin/api/users) allows GET /admin/api/users,
is denied DELETE /admin/api/users with Forbidden, and an empty role set is denied with
Forbidden. -/
theorem C2_allow_iff_some_permission_matches_witness :
    Effect.next ∈ PermissionMiddleware foldASCII examplePermissionService
        (some { RoleIDs := [1] }) { Method := "GET", Path := "/admin/api/users" } ∧
      PermissionMiddleware foldASCII examplePermissionService
        (some { RoleIDs := [1] }) { Method := "DELETE", Path := "/admin/api/users" } =
          [.callGetPermissionsByRoleIDs [1],
            .json StatusOK CodeForbidden "没有权限访问此资源", .abort] ∧
      PermissionMiddleware foldASCII examplePermissionService
        (some { RoleIDs := [] }) { Method := "GET", Path := "/admin/api/users" } =
          [.json StatusOK CodeForbidden "没有权限访问此资源", .abort] :=
  ⟨(C2_allow_iff_some_permission_matches foldASCII examplePermissionService
      { RoleIDs := [1] } { Method := "GET", Path := "/admin/api/users" }
      [{ Path := "/admin/api/users", Method := "GET" }] rfl (Or.inr ⟨by decide, rfl⟩)).1.mpr
      ⟨_, List.mem_singleton.mpr rfl, by decide⟩,
    (C2_allow_iff_some_permission_matches foldASCII examplePermissionService
      { RoleIDs := [1] } { Method := "DELETE", Path := "/admin/api/users" }
      [{ Path := "/admin/api/users", Method := "GET" }] rfl (Or.inr ⟨by decide, rfl⟩)).2.1
      (by decide),
    (C2_allow_iff_some_permission_matches foldASCII examplePermissionService
      { RoleIDs := [] } { Method := "GET", Path := "/admin/api/users" }
      [] rfl (Or.inl ⟨rfl, rfl⟩)).2.1 (by simp)⟩

/-- C4: when the claims in the context are super-admin, the handler does nothing but
run the next handler, whatever the method, the path, the role set and the permission
service are; in particular the permission service is not called. -/
theorem C4_super_admin_bypass (fold : Char → Char)
    (svc : List Nat → Except GoError (List Permission)) (claims : Claims) (req : Request)
    (hsa : claims.IsSuperAdmin = true) :
    PermissionMiddleware fold svc (some claims) req = [.next] ∧
      ∀ ids, Effect.callGetPermissionsByRoleIDs ids ∉
        PermissionMiddleware fold svc (some claims) req := by
  have hout : PermissionMiddleware fold svc (some claims) req = [.next] := by
    simp [PermissionMiddleware, hsa]
  rw [hout]
  exact ⟨rfl, fun ids => by simp⟩

/-- Witness of C4: a super-admin with an empty role set, and one whose permission
service would fail. -/
theorem C4_super_admin_bypass_witness :
    PermissionMiddleware foldASCII examplePermissionService
        (some { IsSuperAdmin := true, RoleIDs := [] })
        { Method := "DELETE", Path := "/admin/api/anything" } = [.next] ∧
      PermissionMiddleware foldASCII (fun _ => .error (.other "db error"))
        (some { IsSuperAdmin := true, RoleIDs := [1] })
        { Method := "GET", Path := "/admin/api/users" } = [.next] :=
  ⟨(C4_super_admin_bypass foldASCII examplePermissionService
      { IsSuperAdmin := true, RoleIDs := [] }
      { Method := "DELETE", Path := "/admin/api/anything" } rfl).1,
    (C4_super_admin_bypass foldASCII (fun _ => .error (.other "db error"))
      { IsSuperAdmin := true, RoleIDs := [1] }
      { Method := "GET", Path := "/admin/api/users" } rfl).1⟩

/-! ## The claims on `AuthMiddleware` and the token version -/

/-- What `redirectToLogin` does with status 401 for an API client. -/
theorem redirectToLogin_api (req : Request) (msg : String)
    (h : Contains req.Accept "text/html" = false) :
    AuthMiddleware.redirectToLogin req msg StatusUnauthorized =
      [.json StatusOK CodeUnauthorized msg, .abort] := by
  simp [AuthMiddleware.redirectToLogin, h, StatusUnauthorized, StatusForbidden,
    Responder.RespondError, Responder.Error, UnauthorizedMsg, NewBizError]

/-- What `redirectToLogin` does for a client that accepts HTML. -/
theorem redirectToLogin_html (req : Request) (msg : String) (code : Nat)
    (h : Contains req.Accept "text/html" = true) :
    AuthMiddleware.redirectToLogin req msg code =
      [.setCookie "token" "" (-1) "/" "" false true, .redirect StatusFound "/login", .abort] := by
  simp [AuthMiddleware.redirectToLogin, h]

/-- The handler of `AuthMiddleware` once the token has verified, its marker has parsed
and the user lookup has returned a user. -/
theorem AuthMiddleware_after_lookup (ParseToken : String → Except String Claims)
    (svc : Nat → Except GoError (Option User)) (req : Request) (claims : Claims)
    (uid t : Nat) (user : User)
    (htok : AuthMiddleware.token req ≠ "")
    (hparse : ParseToken (AuthMiddleware.token req) = .ok claims)
    (hver : GetTokenVersion claims = .ok (uid, t))
    (huser : svc claims.UserID = .ok (some user)) :
    AuthMiddleware ParseToken svc req =
      .callGetUserForAuth claims.UserID ::
        (if t < user.TokenVersion then
          AuthMiddleware.redirectToLogin req "Token已失效" StatusUnauthorized
        else if user.Status == 0 then
          AuthMiddleware.redirectToLogin req "用户已被禁用" StatusForbidden
        else
          [.setUser { user with
              ID := claims.UserID
              Username := claims.Username
              Nickname := claims.Nickname
              Type_ := claims.Type_
              Roles := claims.RoleIDs.map (fun roleID => ({ ID := roleID } : Role)) },
            .setClaims claims, .next]) := by
  simp only [AuthMiddleware, hparse, hver, huser]
  simp [htok]

/-- C3 (counterexample): a browser (Accept holding "text/html") presenting a verified
token of version 0 for an enabled user whose stored version is 1 gets no 401 body: the
cookie is cleared and the request is redirected to /login. -/
theorem C3_counterexample_html_redirect :
    exampleParseToken (AuthMiddleware.token exampleHtmlRequest) =
        .ok { UserID := 1, Username := "u", ID := "1:0" } ∧
      GetTokenVersion { UserID := 1, Username := "u", ID := "1:0" } = .ok (1, 0) ∧
      AuthMiddleware exampleParseToken
          (fun _ => .ok (some { ID := 1, Status := 1, TokenVersion := 1 }))
          exampleHtmlRequest =
        [.callGetUserForAuth 1, .setCookie "token" "" (-1) "/" "" false true,
          .redirect StatusFound "/login", .abort] ∧
      Effect.json StatusOK CodeUnauthorized "Token已失效" ∉
        AuthMiddleware exampleParseToken
          (fun _ => .ok (some { ID := 1, Status := 1, TokenVersion := 1 }))
          exampleHtmlRequest := by
  decide

/-- C3 (amended): for a token that verifies and whose marker parses to version `t`, and
a lookup returning an enabled user with stored version `V`: when `t < V` the next handler
does not run, an API client (Accept without "text/html") gets Unauthorized (code 401,
"Token已失效") and a client accepting HTML gets its token cookie cleared and a redirect
to /login; when `t ≥ V` the user and the claims are placed in the context and the next
handler runs. -/
theorem C3_token_version_gate (ParseToken : String → Except String Claims)
    (svc : Nat → Except GoError (Option User)) (req : Request) (claims : Claims)
    (uid t : Nat) (user : User)
    (htok : AuthMiddleware.token req ≠ "")
    (hparse : ParseToken (AuthMiddleware.token req) = .ok claims)
    (hver : GetTokenVersion claims = .ok (uid, t))
    (huser : svc claims.UserID = .ok (some user))
    (henabled : user.Status ≠ 0) :
    (t < user.TokenVersion → Contains req.Accept "text/html" = false →
        AuthMiddleware ParseToken svc req =
          [.callGetUserForAuth claims.UserID,
            .json StatusOK CodeUnauthorized "Token已失效", .abort]) ∧
      (t < user.TokenVersion → Contains req.Accept "text/html" = true →
        AuthMiddleware ParseToken svc req =
          [.callGetUserForAuth claims.UserID,
            .setCookie "token" "" (-1) "/" "" false true,
            .redirect StatusFound "/login", .abort]) ∧
      (user.TokenVersion ≤ t →
        AuthMiddleware ParseToken svc req =
          [.callGetUserForAuth claims.UserID,
            .setUser { user with
              ID := claims.UserID
              Username := claims.Username
              Nickname := claims.Nickname
              Type_ := claims.Type_
              Roles := claims.RoleIDs.map (fun roleID => ({ ID := roleID } : Role)) },
            .setClaims claims, .next]) := by
  rw [AuthMiddleware_after_lookup ParseToken svc req claims uid t user htok hparse hver huser]
  refine ⟨?_, ?_, ?_⟩
  · intro hlt hacc
    rw [if_pos hlt, redirectToLogin_api req _ hacc]
  · intro hlt hacc
    rw [if_pos hlt, redirectToLogin_html req _ _ hacc]
  · intro hge
    have hs : (user.Status == 0) = false := by simpa using henabled
    rw [if_neg (Nat.not_lt.mpr hge), hs]
    simp

/-- Witness of C3 (amended): the token of version 0 against stored version 1 is
answered 401 "Token已失效" for an API client, and admitted against stored version 0. -/
theorem C3_token_version_gate_witness :
    AuthMiddleware exampleParseToken
        (fun _ => .ok (some { ID := 1, Status := 1, TokenVersion := 1 })) exampleApiRequest =
        [.callGetUserForAuth 1, .json StatusOK CodeUnauthorized "Token已失效", .abort] ∧
      Effect.next ∈ AuthMiddleware exampleParseToken
        (fun _ => .ok (some { ID := 1, Status := 1, TokenVersion := 0 })) exampleApiRequest :=
  ⟨(C3_token_version_gate exampleParseToken
      (fun _ => .ok (some { ID := 1, Status := 1, TokenVersion := 1 })) exampleApiRequest
      { UserID := 1, Username := "u", ID := "1:0" } 1 0
      { ID := 1, Status := 1, TokenVersion := 1 }
      (by decide) (by decide) (by decide) rfl (by decide)).1 (by decide) (by decide),
    by
      rw [(C3_token_version_gate exampleParseToken
        (fun _ => .ok (some { ID := 1, Status := 1, TokenVersion := 0 })) exampleApiRequest
        { UserID := 1, Username := "u", ID := "1:0" } 1 0
        { ID := 1, Status := 1, TokenVersion := 0 }
        (by decide) (by decide) (by decide) rfl (by decide)).2.2 (by decide)]
      simp⟩

/-- C6 (code defect): on a store holding user 1 at token version 0,
`UserService.ResetPassword` and `UserService.UpdateUser` with a non-empty password both
succeed and replace the stored hash, yet leave the stored token version at 0, so the
token issued at version 0 is still admitted afterwards; `AuthService.ChangePassword`
on the same store raises the version to 1. -/
theorem C6_admin_password_change_keeps_token_version :
    ((UserService.ResetPassword exampleBcrypt "a1b2c3" exampleDB 1).1 = ("a1b2c3", none) ∧
      (UserService.ResetPassword exampleBcrypt "a1b2c3" exampleDB 1).2.users.map
        (fun u => (u.Password, u.TokenVersion)) = [("hash:a1b2c3", 0)] ∧
      Effect.next ∈ AuthMiddleware exampleParseToken
        (userServiceOf (UserService.ResetPassword exampleBcrypt "a1b2c3" exampleDB 1).2)
        exampleApiRequest) ∧
    ((UserService.UpdateUser exampleBcrypt exampleDB 1 "" "newsecret" "" none).1 = none ∧
      (UserService.UpdateUser exampleBcrypt exampleDB 1 "" "newsecret" "" none).2.users.map
        (fun u => (u.Password, u.TokenVersion)) = [("hash:newsecret", 0)] ∧
      Effect.next ∈ AuthMiddleware exampleParseToken
        (userServiceOf (UserService.UpdateUser exampleBcrypt exampleDB 1 "" "newsecret" ""
          none).2)
        exampleApiRequest) ∧
    ((AuthService.ChangePassword exampleBcrypt exampleDB 1 "secret" "newsecret").1 = none ∧
      (AuthService.ChangePassword exampleBcrypt exampleDB 1 "secret" "newsecret").2.users.map
        (fun u => (u.Password, u.TokenVersion)) = [("hash:newsecret", 1)]) := by
  decide

/-! ## Logout and the token version -/

theorem ParseUint_lt {s : List Char} {bitSize n : Nat} (h : ParseUint s bitSize = some n) :
    n < 2 ^ bitSize := by
  unfold ParseUint at h
  split at h
  · exact absurd h (by simp)
  · split at h
    · simp only at h
      split at h
      · rename_i hlt
        cases h
        exact hlt
      · exact absurd h (by simp)
    · exact absurd h (by simp)

/-- A token version read from a marker fits in 32 bits. -/
theorem GetTokenVersion_lt {claims : Claims} {uid t : Nat}
    (h : GetTokenVersion claims = .ok (uid, t)) : t < 2 ^ 32 := by
  unfold GetTokenVersion at h
  split at h
  · cases h
  · split at h
    · split at h
      · cases h
      · split at h
        · cases h
        · rename_i tv htv
          cases h
          exact ParseUint_lt htv
    · cases h

theorem DB.statement_users (db : DB) : db.statement.2.users = db.users := by
  unfold DB.statement
  split <;> rfl

/-- Saving a live row makes it the row that a lookup by its id finds. -/
theorem find_after_save (l : List User) (user : User) (hlive : user.DeletedAt = none)
    (hany : l.any (fun u => u.ID == user.ID) = true) :
    (l.map (fun u => if u.ID == user.ID then user else u)).find?
      (fun u => u.ID == user.ID && u.DeletedAt.isNone) = some user := by
  induction l with
  | nil => simp at hany
  | cons x l ih =>
    by_cases hx : x.ID = user.ID
    · simp [hx, hlive]
    · have hany2 : l.any (fun u => u.ID == user.ID) = true := by
        simpa [hx] using hany
      have hb : (x.ID == user.ID) = false := by simpa using hx
      rw [List.map_cons, hb]
      simp only [Bool.false_eq_true, if_false]
      rw [List.find?_cons_of_neg _ (by simp [hb])]
      exact ih hany2

/-- A lookup of the live row `userID` in the store, the query of `DB.FirstUser`. -/
theorem Logout_success (db : DB) (userID : Nat)
    (hok : (AuthService.Logout db userID).1 = none) :
    ∃ u : User, db.users.find? (fun u => u.ID == userID && u.DeletedAt.isNone) = some u ∧
      (AuthService.Logout db userID).2.users.find?
          (fun u => u.ID == userID && u.DeletedAt.isNone) =
        some { u with TokenVersion := uintIncr u.TokenVersion } := by
  have hu1 := DB.statement_users db
  rcases h1 : db.statement with ⟨f1, db1⟩
  rw [h1] at hu1
  simp only at hu1
  have hu2 := DB.statement_users db1
  rcases h2 : db1.statement with ⟨f2, db2⟩
  rw [h2] at hu2
  simp only at hu2
  simp only [AuthService.Logout, DB.FirstUser, DB.SaveUser, h1] at hok ⊢
  cases f1
  · simp only [Bool.false_eq_true, if_false] at hok ⊢
    rw [hu1] at hok ⊢
    rcases hfind : db.users.find? (fun u => u.ID == userID && u.DeletedAt.isNone) with _ | u
    · simp [hfind] at hok
    · simp only [hfind, h2] at hok ⊢
      have hp := List.find?_some hfind
      simp only [Bool.and_eq_true, beq_iff_eq, Option.isNone_iff_eq_none] at hp
      have hmem := List.mem_of_find?_eq_some hfind
      have hany : db.users.any (fun x => x.ID == u.ID) = true :=
        List.any_eq_true.mpr ⟨u, hmem, by simp⟩
      cases f2
      · rw [hu2, hu1] at hok ⊢
        simp only [Bool.false_eq_true, if_false, hany, if_true]
        refine ⟨u, rfl, ?_⟩
        have hsave := find_after_save db.users { u with TokenVersion := uintIncr u.TokenVersion }
          hp.2 hany
        rw [← hp.1]
        exact hsave
      · simp at hok
  · simp at hok

/-- The handler of `AuthMiddleware` once the token has verified and its marker has
parsed, when the user lookup fails. -/
theorem AuthMiddleware_lookup_error (ParseToken : String → Except String Claims)
    (svc : Nat → Except GoError (Option User)) (req : Request) (claims : Claims)
    (uid t : Nat) (err : GoError)
    (htok : AuthMiddleware.token req ≠ "")
    (hparse : ParseToken (AuthMiddleware.token req) = .ok claims)
    (hver : GetTokenVersion claims = .ok (uid, t))
    (huser : svc claims.UserID = .error err) :
    AuthMiddleware ParseToken svc req =
      .callGetUserForAuth claims.UserID ::
        AuthMiddleware.redirectToLogin req "用户不存在" StatusUnauthorized := by
  simp only [AuthMiddleware, hparse, hver, huser]
  simp [htok]

theorem next_not_mem_redirectToLogin (req : Request) (msg : String) (code : Nat) :
    Effect.next ∉ AuthMiddleware.redirectToLogin req msg code := by
  unfold AuthMiddleware.redirectToLogin
  split
  · simp
  · split <;> simp [Responder.RespondError, Responder.Error, ForbiddenMsg, UnauthorizedMsg,
      NewBizError]

/-- What the user service answers on a store in which the live row `userID` is `row`. -/
theorem userServiceOf_cases (db : DB) (userID : Nat) (row : User)
    (hfind : db.users.find? (fun u => u.ID == userID && u.DeletedAt.isNone) = some row) :
    (∃ err, userServiceOf db userID = .error err) ∨
      userServiceOf db userID =
        .ok (some { ID := row.ID, Username := row.Username, Nickname := row.Nickname,
                    Type_ := row.Type_, Status := row.Status,
                    TokenVersion := row.TokenVersion }) := by
  have hu := DB.statement_users db
  rcases h1 : db.statement with ⟨f1, db1⟩
  rw [h1] at hu
  simp only at hu
  cases f1
  · right
    simp [userServiceOf, UserService.GetUserForAuth, DB.FirstUser, h1, hu, hfind]
  · left
    exact ⟨.other "database error", by
      simp [userServiceOf, UserService.GetUserForAuth, DB.FirstUser, h1]⟩

/-- C5 (counterexample): after a successful logout of user 1 at version 0, a browser
presenting the token of version 0 gets no Unauthorized response but a redirect to
/login; and a logout at the largest `uint` version leaves the stored version at 0, not
at `V + 1`. -/
theorem C5_counterexample_redirect_and_wrap :
    ((AuthService.Logout exampleDB 1).1 = none ∧
      AuthMiddleware exampleParseToken (userServiceOf (AuthService.Logout exampleDB 1).2)
          exampleHtmlRequest =
        [.callGetUserForAuth 1, .setCookie "token" "" (-1) "/" "" false true,
          .redirect StatusFound "/login", .abort]) ∧
    ((AuthService.Logout exampleDBMax 1).1 = none ∧
      exampleDBMax.users.map (fun u => u.TokenVersion) = [2 ^ 64 - 1] ∧
      (AuthService.Logout exampleDBMax 1).2.users.map (fun u => u.TokenVersion) = [0]) := by
  decide

/-- C5 (amended): a successful `AuthService.Logout` of an existing user at stored version
`V` leaves the stored version at `(V + 1) % 2 ^ 64`, which is `V + 1` for
`V < 2 ^ 64 - 1` (0 becomes 1); afterwards, for every verified token of that user whose
marker holds version `V`, `AuthMiddleware` does not run the next handler: it ends in
`redirectToLogin` with status 401 and the message "Token已失效" (or "用户不存在" when the
lookup itself fails), which is the Unauthorized response (code 401) for a client whose
Accept header has no "text/html", and a redirect to /login otherwise. -/
theorem C5_logout_revokes_earlier_tokens (db : DB) (userID : Nat)
    (hok : (AuthService.Logout db userID).1 = none) :
    ∃ u : User,
      db.users.find? (fun u => u.ID == userID && u.DeletedAt.isNone) = some u ∧
      (AuthService.Logout db userID).2.users.find?
          (fun u => u.ID == userID && u.DeletedAt.isNone) =
        some { u with TokenVersion := (u.TokenVersion + 1) % 2 ^ 64 } ∧
      (u.TokenVersion < 2 ^ 64 - 1 → (u.TokenVersion + 1) % 2 ^ 64 = u.TokenVersion + 1) ∧
      ∀ (ParseToken : String → Except String Claims) (req : Request) (claims : Claims)
        (uid : Nat),
        AuthMiddleware.token req ≠ "" →
        ParseToken (AuthMiddleware.token req) = .ok claims →
        claims.UserID = userID →
        GetTokenVersion claims = .ok (uid, u.TokenVersion) →
        ∃ msg : String, (msg = "Token已失效" ∨ msg = "用户不存在") ∧
          AuthMiddleware ParseToken (userServiceOf (AuthService.Logout db userID).2) req =
            .callGetUserForAuth userID ::
              AuthMiddleware.redirectToLogin req msg StatusUnauthorized ∧
          Effect.next ∉
            AuthMiddleware ParseToken (userServiceOf (AuthService.Logout db userID).2) req ∧
          (Contains req.Accept "text/html" = false →
            AuthMiddleware ParseToken (userServiceOf (AuthService.Logout db userID).2) req =
              [.callGetUserForAuth userID, .json StatusOK CodeUnauthorized msg, .abort]) := by
  obtain ⟨u, hfind, hfind2⟩ := Logout_success db userID hok
  refine ⟨u, hfind, hfind2, ?_, ?_⟩
  · intro hlt
    exact Nat.mod_eq_of_lt (by omega)
  · intro ParseToken req claims uid htok hparse hid hver
    have h32 : u.TokenVersion < 2 ^ 32 := GetTokenVersion_lt hver
    have hincr : uintIncr u.TokenVersion = u.TokenVersion + 1 := by
      unfold uintIncr
      exact Nat.mod_eq_of_lt (by omega)
    have key : ∃ msg : String, (msg = "Token已失效" ∨ msg = "用户不存在") ∧
        AuthMiddleware ParseToken (userServiceOf (AuthService.Logout db userID).2) req =
          .callGetUserForAuth userID ::
            AuthMiddleware.redirectToLogin req msg StatusUnauthorized := by
      rcases userServiceOf_cases _ userID _ hfind2 with ⟨err, herr⟩ | hsvc
      · refine ⟨"用户不存在", Or.inr rfl, ?_⟩
        rw [← hid] at herr ⊢
        exact AuthMiddleware_lookup_error ParseToken _ req claims uid u.TokenVersion err htok
          hparse hver herr
      · refine ⟨"Token已失效", Or.inl rfl, ?_⟩
        rw [← hid] at hsvc ⊢
        rw [AuthMiddleware_after_lookup ParseToken _ req claims uid u.TokenVersion _ htok hparse
          hver hsvc]
        have hlt : u.TokenVersion < uintIncr u.TokenVersion := by omega
        simp only [hlt, if_true]
    obtain ⟨msg, hmsg, hout⟩ := key
    refine ⟨msg, hmsg, hout, ?_, ?_⟩
    · rw [hout]
      simp [next_not_mem_redirectToLogin]
    · intro hacc
      rw [hout, redirectToLogin_api req msg hacc]

/-- Witness of C5 (amended): user 1 logs out at version 0; the stored version becomes 1
and the token issued at version 0 is answered 401 "Token已失效" for an API client. -/
theorem C5_logout_revokes_earlier_tokens_witness :
    (AuthService.Logout exampleDB 1).1 = none ∧
      (AuthService.Logout exampleDB 1).2.users.map (fun u => u.TokenVersion) = [1] ∧
      Effect.next ∉ AuthMiddleware exampleParseToken
        (userServiceOf (AuthService.Logout exampleDB 1).2) exampleApiRequest := by
  refine ⟨by decide, by decide, ?_⟩
  obtain ⟨u, hfind, _, _, hdeny⟩ := C5_logout_revokes_earlier_tokens exampleDB 1 (by decide)
  have hu : some u = some exampleUser := by
    rw [← hfind]
    decide
  cases hu
  obtain ⟨msg, _, _, hnext, _⟩ := hdeny exampleParseToken exampleApiRequest
    { UserID := 1, Username := "u", ID := "1:0" } 1 (by decide) (by decide) rfl (by decide)
  exact hnext

/-! ## The decision chain of `AuthMiddleware` -/

/-- The handler of `AuthMiddleware` for an API client (Accept without "text/html"),
with every call of `redirectToLogin` replaced by the response it writes. -/
theorem AuthMiddleware_api (ParseToken : String → Except String Claims)
    (svc : Nat → Except GoError (Option User)) (req : Request)
    (hacc : Contains req.Accept "text/html" = false) :
    AuthMiddleware ParseToken svc req =
      if AuthMiddleware.token req = "" then
        [.json StatusOK CodeUnauthorized "未提供认证Token", .abort]
      else
        match ParseToken (AuthMiddleware.token req) with
        | .error _ => [.json StatusOK CodeUnauthorized "Token无效或已过期", .abort]
        | .ok claims =>
          match GetTokenVersion claims with
          | .error _ => [.json StatusOK CodeUnauthorized "Token格式错误", .abort]
          | .ok (_, t) =>
            match svc claims.UserID with
            | .error _ =>
              [.callGetUserForAuth claims.UserID,
                .json StatusOK CodeUnauthorized "用户不存在", .abort]
            | .ok none =>
              [.callGetUserForAuth claims.UserID,
                .json StatusOK CodeUnauthorized "用户不存在", .abort]
            | .ok (some user) =>
              if t < user.TokenVersion then
                [.callGetUserForAuth claims.UserID,
                  .json StatusOK CodeUnauthorized "Token已失效", .abort]
              else if user.Status = 0 then
                [.callGetUserForAuth claims.UserID,
                  .json StatusOK CodeForbidden "用户已被禁用", .abort]
              else
                [.callGetUserForAuth claims.UserID,
                  .setUser { user with
                    ID := claims.UserID
                    Username := claims.Username
                    Nickname := claims.Nickname
                    Type_ := claims.Type_
                    Roles := claims.RoleIDs.map (fun roleID => ({ ID := roleID } : Role)) },
                  .setClaims claims, .next] := by
  have hf : ∀ msg, AuthMiddleware.redirectToLogin req msg StatusForbidden =
      [.json StatusOK CodeForbidden msg, .abort] := by
    intro msg
    simp [AuthMiddleware.redirectToLogin, hacc, Responder.RespondError, Responder.Error,
      ForbiddenMsg, NewBizError]
  unfold AuthMiddleware
  simp only [redirectToLogin_api req _ hacc, hf]
  by_cases htok : AuthMiddleware.token req = ""
  · simp [htok]
  · simp only [htok, if_false, beq_iff_eq]
    rcases ParseToken (AuthMiddleware.token req) with e | claims
    · rfl
    · simp only
      rcases GetTokenVersion claims with e | ⟨uid, t⟩
      · rfl
      · simp only
        rcases svc claims.UserID with e | (_ | user)
        · rfl
        · rfl
        · simp only
          by_cases hlt : t < user.TokenVersion
          · simp [hlt]
          · by_cases hs : user.Status = 0
            · simp [hlt, hs]
            · simp [hlt, hs]

/-- C11: for a client whose Accept header has no "text/html", `AuthMiddleware` ends in
the first outcome that applies, in this order: no token, 401 "未提供认证Token";
`ParseToken` fails, 401 "Token无效或已过期"; `GetTokenVersion` fails, 401 "Token格式错误";
the lookup fails or finds no user, 401 "用户不存在"; marker version below the stored one,
401 "Token已失效"; stored status 0, 403 "用户已被禁用"; otherwise the next handler runs.
A deny is one response followed by an abort, without the next handler; the 403 is
written only for a disabled user whose token is current, and a disabled user with a
stale token gets the 401. -/
theorem C11_auth_chain (ParseToken : String → Except String Claims)
    (svc : Nat → Except GoError (Option User)) (req : Request)
    (hacc : Contains req.Accept "text/html" = false) :
    (AuthMiddleware.token req = "" →
        AuthMiddleware ParseToken svc req =
          [.json StatusOK CodeUnauthorized "未提供认证Token", .abort]) ∧
      (AuthMiddleware.token req ≠ "" → ∀ e, ParseToken (AuthMiddleware.token req) = .error e →
        AuthMiddleware ParseToken svc req =
          [.json StatusOK CodeUnauthorized "Token无效或已过期", .abort]) ∧
      (AuthMiddleware.token req ≠ "" →
        ∀ claims, ParseToken (AuthMiddleware.token req) = .ok claims →
          (∀ e, GetTokenVersion claims = .error e →
            AuthMiddleware ParseToken svc req =
              [.json StatusOK CodeUnauthorized "Token格式错误", .abort]) ∧
          (∀ uid t, GetTokenVersion claims = .ok (uid, t) →
            ((svc claims.UserID = .ok none ∨ ∃ e, svc claims.UserID = .error e) →
              AuthMiddleware ParseToken svc req =
                [.callGetUserForAuth claims.UserID,
                  .json StatusOK CodeUnauthorized "用户不存在", .abort]) ∧
            (∀ user, svc claims.UserID = .ok (some user) →
              (t < user.TokenVersion →
                AuthMiddleware ParseToken svc req =
                  [.callGetUserForAuth claims.UserID,
                    .json StatusOK CodeUnauthorized "Token已失效", .abort]) ∧
              (user.TokenVersion ≤ t → user.Status = 0 →
                AuthMiddleware ParseToken svc req =
                  [.callGetUserForAuth claims.UserID,
                    .json StatusOK CodeForbidden "用户已被禁用", .abort]) ∧
              (user.TokenVersion ≤ t → user.Status ≠ 0 →
                AuthMiddleware ParseToken svc req =
                  [.callGetUserForAuth claims.UserID,
                    .setUser { user with
                      ID := claims.UserID
                      Username := claims.Username
                      Nickname := claims.Nickname
                      Type_ := claims.Type_
                      Roles := claims.RoleIDs.map (fun roleID => ({ ID := roleID } : Role)) },
                    .setClaims claims, .next])))) ∧
      (Effect.next ∈ AuthMiddleware ParseToken svc req ∨
        ∃ code msg, AuthMiddleware ParseToken svc req = [.json StatusOK code msg, .abort] ∨
          ∃ uid, AuthMiddleware ParseToken svc req =
            [.callGetUserForAuth uid, .json StatusOK code msg, .abort]) ∧
      (Effect.next ∈ AuthMiddleware ParseToken svc req →
        Effect.abort ∉ AuthMiddleware ParseToken svc req ∧
          ∀ st code msg, Effect.json st code msg ∉ AuthMiddleware ParseToken svc req) ∧
      (∀ st msg, Effect.json st CodeForbidden msg ∈ AuthMiddleware ParseToken svc req →
        ∃ claims uid t user, AuthMiddleware.token req ≠ "" ∧
          ParseToken (AuthMiddleware.token req) = .ok claims ∧
          GetTokenVersion claims = .ok (uid, t) ∧
          svc claims.UserID = .ok (some user) ∧ user.TokenVersion ≤ t ∧ user.Status = 0) := by
  rw [AuthMiddleware_api ParseToken svc req hacc]
  by_cases htok : AuthMiddleware.token req = ""
  · simp [htok, CodeForbidden, CodeUnauthorized]
  · simp only [htok, if_false]
    rcases hp : ParseToken (AuthMiddleware.token req) with e | claims
    · simp [CodeForbidden, CodeUnauthorized]
    · rcases hv : GetTokenVersion claims with e | ⟨uid, t⟩
      · simp [hv, CodeForbidden, CodeUnauthorized]
      · rcases hu : svc claims.UserID with e | (_ | user)
        · simp [hv, hu, CodeForbidden, CodeUnauthorized]
        · simp [hv, hu, CodeForbidden, CodeUnauthorized]
        · by_cases hlt : t < user.TokenVersion
          · have hnle : ¬ user.TokenVersion ≤ t := Nat.not_le.mpr hlt
            simp [hv, hu, hlt, hnle, CodeForbidden, CodeUnauthorized]
          · have hle : user.TokenVersion ≤ t := Nat.not_lt.mp hlt
            by_cases hs : user.Status = 0
            · simp [hv, hu, hlt, hle, hs, CodeForbidden, CodeUnauthorized]
              exact ⟨htok, uid, t, ⟨rfl, rfl⟩, hle⟩
            · simp [hv, hu, hlt, hle, hs, CodeForbidden, CodeUnauthorized]

/-- Witness of C11: for an API client a disabled user with a stale token is answered
401 "Token已失效", a disabled user with a current token 403 "用户已被禁用", and a request
without a token 401 "未提供认证Token". -/
theorem C11_auth_chain_witness :
    AuthMiddleware exampleParseToken
        (fun _ => .ok (some { ID := 1, Status := 0, TokenVersion := 1 })) exampleApiRequest =
        [.callGetUserForAuth 1, .json StatusOK CodeUnauthorized "Token已失效", .abort] ∧
      AuthMiddleware exampleParseToken
        (fun _ => .ok (some { ID := 1, Status := 0, TokenVersion := 0 })) exampleApiRequest =
        [.callGetUserForAuth 1, .json StatusOK CodeForbidden "用户已被禁用", .abort] ∧
      AuthMiddleware exampleParseToken
        (fun _ => .ok (some { ID := 1, Status := 1, TokenVersion := 0 }))
        { Accept := "application/json" } =
        [.json StatusOK CodeUnauthorized "未提供认证Token", .abort] :=
  ⟨((((C11_auth_chain exampleParseToken
      (fun _ => .ok (some { ID := 1, Status := 0, TokenVersion := 1 })) exampleApiRequest
      (by decide)).2.2.1 (by decide) { UserID := 1, Username := "u", ID := "1:0" }
      (by decide)).2 1 0 (by decide)).2 { ID := 1, Status := 0, TokenVersion := 1 } rfl).1
      (by decide),
    ((((C11_auth_chain exampleParseToken
      (fun _ => .ok (some { ID := 1, Status := 0, TokenVersion := 0 })) exampleApiRequest
      (by decide)).2.2.1 (by decide) { UserID := 1, Username := "u", ID := "1:0" }
      (by decide)).2 1 0 (by decide)).2 { ID := 1, Status := 0, TokenVersion := 0 } rfl).2.1
      (by decide) (by decide),
    (C11_auth_chain exampleParseToken
      (fun _ => .ok (some { ID := 1, Status := 1, TokenVersion := 0 }))
      { Accept := "application/json" } (by decide)).1 (by decide)⟩

/-! ## The lookup failure of `PermissionMiddleware` -/

/-- C12: when the claims are not super-admin, the role set is not empty and
`GetPermissionsByRoleIDs` returns an error, `PermissionMiddleware` answers code 500
"查询权限失败" and aborts, without the next handler and without the 403
"没有权限访问此资源"; and a response of code 500 is written in no other situation. -/
theorem C12_lookup_failure_is_internal_error (fold : Char → Char)
    (svc : List Nat → Except GoError (List Permission)) (ctxClaims : Option Claims)
    (req : Request) :
    (∀ claims err, ctxClaims = some claims → claims.IsSuperAdmin = false →
        claims.RoleIDs ≠ [] → svc claims.RoleIDs = .error err →
        PermissionMiddleware fold svc ctxClaims req =
            [.callGetPermissionsByRoleIDs claims.RoleIDs,
              .json StatusOK CodeInternalError "查询权限失败", .abort] ∧
          Effect.next ∉ PermissionMiddleware fold svc ctxClaims req ∧
          Effect.json StatusOK CodeForbidden "没有权限访问此资源" ∉
            PermissionMiddleware fold svc ctxClaims req) ∧
      (∀ st msg, Effect.json st CodeInternalError msg ∈
          PermissionMiddleware fold svc ctxClaims req →
        ∃ claims err, ctxClaims = some claims ∧ claims.IsSuperAdmin = false ∧
          claims.RoleIDs ≠ [] ∧ svc claims.RoleIDs = .error err) := by
  constructor
  · intro claims err hc hsa hr hs
    have hlen : claims.RoleIDs.length > 0 := List.length_pos.mpr hr
    have hout : PermissionMiddleware fold svc ctxClaims req =
        [.callGetPermissionsByRoleIDs claims.RoleIDs,
          .json StatusOK CodeInternalError "查询权限失败", .abort] := by
      simp [PermissionMiddleware, hc, hsa, hlen, hs, Responder.RespondError, Responder.Error,
        InternalErrorMsg, NewBizError]
    rw [hout]
    simp [CodeInternalError, CodeForbidden]
  · intro st msg hmem
    rcases ctxClaims with _ | claims
    · simp [PermissionMiddleware, Responder.RespondError, Responder.Error, UnauthorizedMsg,
        NewBizError, CodeInternalError, CodeUnauthorized] at hmem
    · by_cases hsa : claims.IsSuperAdmin = true
      · simp [PermissionMiddleware, hsa] at hmem
      · have hsa2 : claims.IsSuperAdmin = false := by simpa using hsa
        by_cases hr : claims.RoleIDs = []
        · simp [PermissionMiddleware, hsa2, hr, Responder.RespondError, Responder.Error,
            ForbiddenMsg, NewBizError, CodeInternalError, CodeForbidden] at hmem
        · have hlen : claims.RoleIDs.length > 0 := List.length_pos.mpr hr
          rcases hs : svc claims.RoleIDs with err | perms
          · exact ⟨claims, err, rfl, hsa2, hr, hs⟩
          · exfalso
            by_cases hany : perms.any (fun perm =>
                matchPermission fold perm.Path perm.Method req.Path req.Method) = true
            · simp [PermissionMiddleware, hsa2, hlen, hs, hany] at hmem
            · have hany2 : perms.any (fun perm =>
                  matchPermission fold perm.Path perm.Method req.Path req.Method) = false := by
                simpa using hany
              simp [PermissionMiddleware, hsa2, hlen, hs, hany2, Responder.RespondError,
                Responder.Error, ForbiddenMsg, NewBizError, CodeInternalError,
                CodeForbidden] at hmem

/-- Witness of C12: a role set [1] whose lookup fails is answered 500, not 403. -/
theorem C12_lookup_failure_is_internal_error_witness :
    PermissionMiddleware foldASCII (fun _ => .error (.other "db error"))
        (some { RoleIDs := [1] }) { Method := "GET", Path := "/admin/api/users" } =
      [.callGetPermissionsByRoleIDs [1],
        .json StatusOK CodeInternalError "查询权限失败", .abort] :=
  ((C12_lookup_failure_is_internal_error foldASCII (fun _ => .error (.other "db error"))
      (some { RoleIDs := [1] }) { Method := "GET", Path := "/admin/api/users" }).1
      { RoleIDs := [1] } (.other "db error") rfl rfl (by decide) rfl).1

/-! ## `GetTokenVersion` and the marker -/

theorem ParseUint_specIsDecimal {s : List Char} {bitSize n : Nat}
    (h : ParseUint s bitSize = some n) : specIsDecimal s = true := by
  unfold ParseUint at h
  unfold specIsDecimal
  split at h
  · exact absurd h (by simp)
  · rename_i hne
    split at h
    · rename_i hall
      simp only [Bool.and_eq_true, Bool.not_eq_true']
      exact ⟨by simpa using hne, hall⟩
    · exact absurd h (by simp)

/-- C13: `GetTokenVersion` returns an error, with the values 0 and 0, whenever the
marker `claims.ID` is empty, does not split on ':' into exactly two parts, or has a part
that is not a decimal non-negative integer. -/
theorem C13_malformed_marker_rejected (claims : Claims)
    (h : claims.ID = "" ∨ (Split claims.ID.data ':').length ≠ 2 ∨
      ∃ part ∈ Split claims.ID.data ':', specIsDecimal part = false) :
    ∃ err, GetTokenVersion claims = .error err ∧
      GetTokenVersion.returned claims = (0, 0, some err) := by
  have key : ∃ err, GetTokenVersion claims = .error err := by
    unfold GetTokenVersion
    by_cases hid : claims.ID = ""
    · exact ⟨"token中缺少jti字段", by simp [hid]⟩
    · have hid2 : (claims.ID == "") = false := by simpa using hid
      simp only [hid2, Bool.false_eq_true, if_false]
      rcases hsplit : Split claims.ID.data ':' with _ | ⟨p0, _ | ⟨p1, _ | ⟨p2, rest⟩⟩⟩
      · exact ⟨_, rfl⟩
      · exact ⟨_, rfl⟩
      · simp only
        rcases h with h | h | ⟨part, hmem, hdec⟩
        · exact absurd h hid
        · rw [hsplit] at h
          exact absurd rfl h
        · rw [hsplit] at hmem
          rcases hp0 : ParseUint p0 32 with _ | userID
          · exact ⟨_, rfl⟩
          · rcases hp1 : ParseUint p1 32 with _ | tokenVersion
            · exact ⟨_, rfl⟩
            · exfalso
              have h0 := ParseUint_specIsDecimal hp0
              have h1 := ParseUint_specIsDecimal hp1
              simp only [List.mem_cons, List.mem_singleton, List.not_mem_nil, or_false] at hmem
              rcases hmem with rfl | rfl
              · rw [h0] at hdec
                exact Bool.noConfusion hdec
              · rw [h1] at hdec
                exact Bool.noConfusion hdec
      · exact ⟨_, rfl⟩
  obtain ⟨err, herr⟩ := key
  exact ⟨err, herr, by simp [GetTokenVersion.returned, herr]⟩

/-- Witness of C13: the malformed markers named by the claim, and the empty marker. -/
theorem C13_malformed_marker_rejected_witness :
    (∃ err, GetTokenVersion { ID := "" } = .error err ∧
      GetTokenVersion.returned { ID := "" } = (0, 0, some err)) ∧
    (∃ err, GetTokenVersion { ID := "only-one-part" } = .error err ∧
      GetTokenVersion.returned { ID := "only-one-part" } = (0, 0, some err)) ∧
    (∃ err, GetTokenVersion { ID := "1:2:3" } = .error err ∧
      GetTokenVersion.returned { ID := "1:2:3" } = (0, 0, some err)) ∧
    (∃ err, GetTokenVersion { ID := "abc:1" } = .error err ∧
      GetTokenVersion.returned { ID := "abc:1" } = (0, 0, some err)) ∧
    (∃ err, GetTokenVersion { ID := "1:xyz" } = .error err ∧
      GetTokenVersion.returned { ID := "1:xyz" } = (0, 0, some err)) ∧
    (∃ err, GetTokenVersion { ID := "-1:2" } = .error err ∧
      GetTokenVersion.returned { ID := "-1:2" } = (0, 0, some err)) ∧
    (∃ err, GetTokenVersion { ID := ":5" } = .error err ∧
      GetTokenVersion.returned { ID := ":5" } = (0, 0, some err)) :=
  ⟨C13_malformed_marker_rejected { ID := "" } (Or.inl rfl),
    C13_malformed_marker_rejected { ID := "only-one-part" } (Or.inr (Or.inl (by decide))),
    C13_malformed_marker_rejected { ID := "1:2:3" } (Or.inr (Or.inl (by decide))),
    C13_malformed_marker_rejected { ID := "abc:1" }
      (Or.inr (Or.inr ⟨"abc".data, by decide, by decide⟩)),
    C13_malformed_marker_rejected { ID := "1:xyz" }
      (Or.inr (Or.inr ⟨"xyz".data, by decide, by decide⟩)),
    C13_malformed_marker_rejected { ID := "-1:2" }
      (Or.inr (Or.inr ⟨"-1".data, by decide, by decide⟩)),
    C13_malformed_marker_rejected { ID := ":5" }
      (Or.inr (Or.inr ⟨"".data, by decide, by decide⟩))⟩

theorem digitChar_facts (k : Nat) (hk : k < 10) :
    ('0' ≤ Nat.digitChar k ∧ Nat.digitChar k ≤ '9') ∧
      (Nat.digitChar k).toNat - '0'.toNat = k := by
  interval_cases k <;> decide

/-- The decimal digits that `%d` prints for `n`, in front of an accumulator: a non-empty
run of digits whose value is `n`. -/
theorem toDigitsCore_spec (fuel : Nat) :
    ∀ (n : Nat) (ds : List Char), n < fuel →
      ∃ l : List Char, Nat.toDigitsCore 10 fuel n ds = l ++ ds ∧ l ≠ [] ∧
        (∀ c ∈ l, '0' ≤ c ∧ c ≤ '9') ∧
        l.foldl (fun acc c => acc * 10 + (c.toNat - '0'.toNat)) 0 = n := by
  induction fuel with
  | zero => intro n ds h; omega
  | succ fuel ih =>
    intro n ds hn
    have hd := digitChar_facts (n % 10) (Nat.mod_lt _ (by decide))
    unfold Nat.toDigitsCore
    by_cases h0 : n / 10 = 0
    · simp only [h0, if_true]
      refine ⟨[Nat.digitChar (n % 10)], rfl, by simp, ?_, ?_⟩
      · intro c hc
        rw [List.mem_singleton] at hc
        rw [hc]
        exact hd.1
      · simp only [List.foldl_cons, List.foldl_nil, Nat.zero_mul, Nat.zero_add]
        rw [hd.2]
        omega
    · simp only [h0, if_false]
      have hlt : n / 10 < fuel := by omega
      obtain ⟨l, hl, _, hdig, hval⟩ := ih (n / 10) (Nat.digitChar (n % 10) :: ds) hlt
      refine ⟨l ++ [Nat.digitChar (n % 10)], ?_, by simp, ?_, ?_⟩
      · rw [hl]
        simp
      · intro c hc
        rw [List.mem_append, List.mem_singleton] at hc
        rcases hc with hc | hc
        · exact hdig c hc
        · rw [hc]
          exact hd.1
      · rw [List.foldl_append, hval]
        simp only [List.foldl_cons, List.foldl_nil]
        rw [hd.2]
        omega

theorem toDigits_spec (n : Nat) :
    Nat.toDigits 10 n ≠ [] ∧ (∀ c ∈ Nat.toDigits 10 n, '0' ≤ c ∧ c ≤ '9') ∧
      (Nat.toDigits 10 n).foldl (fun acc c => acc * 10 + (c.toNat - '0'.toNat)) 0 = n := by
  obtain ⟨l, hl, hne, hdig, hval⟩ := toDigitsCore_spec (n + 1) n [] (Nat.lt_succ_self n)
  unfold Nat.toDigits
  rw [hl, List.append_nil]
  exact ⟨hne, hdig, hval⟩

/-- Reading back what `%d` printed: the number when it fits the bit size, an error
otherwise. -/
theorem ParseUint_toDigits (n bitSize : Nat) :
    ParseUint (Nat.toDigits 10 n) bitSize = if n < 2 ^ bitSize then some n else none := by
  obtain ⟨hne, hdig, hval⟩ := toDigits_spec n
  unfold ParseUint
  have h1 : (Nat.toDigits 10 n).isEmpty = false := by
    cases h : Nat.toDigits 10 n with
    | nil => exact absurd h hne
    | cons c l => rfl
  have h2 : (Nat.toDigits 10 n).all (fun c => decide ('0' ≤ c) && decide (c ≤ '9')) = true := by
    rw [List.all_eq_true]
    intro c hc
    have := hdig c hc
    simp [this.1, this.2]
  simp only [h1, h2, hval, Bool.false_eq_true, if_false, if_true]

theorem Split_of_not_mem (b : List Char) (sep : Char) (h : sep ∉ b) : Split b sep = [b] := by
  induction b with
  | nil => rfl
  | cons c b ih =>
    have hc : (c == sep) = false := by
      simpa using fun hc : c = sep => h (by simp [hc])
    have hb : sep ∉ b := fun hb => h (List.mem_cons_of_mem _ hb)
    rw [Split, hc]
    simp only [Bool.false_eq_true, if_false]
    rw [ih hb]

theorem Split_append_sep (a b : List Char) (sep : Char) (h : sep ∉ a) :
    Split (a ++ sep :: b) sep = a :: Split b sep := by
  induction a with
  | nil => simp [Split]
  | cons c a ih =>
    have hc : (c == sep) = false := by
      simpa using fun hc : c = sep => h (by simp [hc])
    have ha : sep ∉ a := fun ha => h (List.mem_cons_of_mem _ ha)
    rw [List.cons_append, Split, hc]
    simp only [Bool.false_eq_true, if_false]
    rw [ih ha]

theorem colon_not_mem_toDigits (n : Nat) : ':' ∉ Nat.toDigits 10 n := by
  intro h
  have := ((toDigits_spec n).2.1 ':' h).2
  exact absurd this (by decide)

/-- What `GetTokenVersion` makes of the marker that `GenerateToken` builds for a user id
and a token version: the two numbers when both are below 2^32, an error otherwise. -/
theorem GetTokenVersion_tokenMarker (userID tokenVersion : Nat) :
    GetTokenVersion { ID := tokenMarker userID tokenVersion } =
      if userID < 2 ^ 32 then
        if tokenVersion < 2 ^ 32 then .ok (userID, tokenVersion)
        else .error "无法解析token中的token_version"
      else .error "无法解析token中的user_id" := by
  have hdata : (tokenMarker userID tokenVersion).data =
      Nat.toDigits 10 userID ++ ':' :: Nat.toDigits 10 tokenVersion := by
    unfold tokenMarker
    rw [String.data_append, String.data_append]
    simp
  have hne : (tokenMarker userID tokenVersion == "") = false := by
    rw [beq_eq_false_iff_ne]
    intro h
    have h2 := congrArg String.data h
    rw [hdata] at h2
    simp at h2
  unfold GetTokenVersion
  simp only [hne, Bool.false_eq_true, if_false, hdata]
  rw [Split_append_sep _ _ _ (colon_not_mem_toDigits userID),
    Split_of_not_mem _ _ (colon_not_mem_toDigits tokenVersion)]
  simp only [ParseUint_toDigits]
  by_cases hu : userID < 2 ^ 32
  · by_cases hv : tokenVersion < 2 ^ 32
    · simp only [hu, hv, if_true]
    · simp only [hu, hv, if_true, if_false]
  · simp only [hu, if_false]

/-- C14 (code defect): the marker of user 4294967296 at token version 0, which
`GenerateToken` builds without complaint, is rejected by `GetTokenVersion`, and so is
the marker of user 1 at token version 4294967296: both parts are parsed with
`strconv.ParseUint(.., 10, 32)` although they are Go `uint` values.  The marker "42:5"
of the test is read back as (42, 5). -/
theorem C14_marker_above_32_bits_rejected :
    (tokenMarker 4294967296 0 = "4294967296:0" ∧
      GetTokenVersion { ID := tokenMarker 4294967296 0 } =
        .error "无法解析token中的user_id") ∧
    (tokenMarker 1 4294967296 = "1:4294967296" ∧
      GetTokenVersion { ID := tokenMarker 1 4294967296 } =
        .error "无法解析token中的token_version") ∧
    (tokenMarker 42 5 = "42:5" ∧ GetTokenVersion { ID := tokenMarker 42 5 } = .ok (42, 5)) := by
  decide

/-! ## `GenerateToken` and `ParseToken` -/

theorem Codec.decNat_encNat (n : Nat) (rest : List Char) :
    Codec.decNat (Codec.encNat n ++ rest) = some (n, rest) := by
  induction n with
  | zero => simp [Codec.encNat, Codec.decNat]
  | succ n ih =>
    have h : Codec.encNat (n + 1) ++ rest = 'x' :: (Codec.encNat n ++ rest) := by
      simp [Codec.encNat, List.replicate_succ]
    rw [h, Codec.decNat, ih]
    simp

theorem Codec.decStr_encStr (s : String) (rest : List Char) :
    Codec.decStr (Codec.encStr s ++ rest) = some (s, rest) := by
  unfold Codec.decStr Codec.encStr
  rw [List.append_assoc, Codec.decNat_encNat]
  simp

theorem Codec.decNats_encNats (l : List Nat) (rest : List Char) :
    Codec.decNats l.length (Codec.encNats l ++ rest) = some (l, rest) := by
  induction l with
  | nil => simp [Codec.decNats, Codec.encNats]
  | cons n l ih =>
    rw [List.length_cons, Codec.decNats, Codec.encNats, List.append_assoc,
      Codec.decNat_encNat]
    simp [ih]

theorem Codec.decList_encList (l : List Nat) (rest : List Char) :
    Codec.decList (Codec.encList l ++ rest) = some (l, rest) := by
  unfold Codec.decList Codec.encList
  rw [List.append_assoc, Codec.decNat_encNat]
  exact Codec.decNats_encNats l rest

theorem Codec.decInt_encInt (i : Int) (rest : List Char) :
    Codec.decInt (Codec.encInt i ++ rest) = some (i, rest) := by
  unfold Codec.encInt
  rw [List.cons_append, Codec.decInt, Codec.decNat_encNat]
  by_cases h : i < 0
  · simp only [h, if_true, beq_self_eq_true, Option.some.injEq, Prod.mk.injEq, and_true]
    omega
  · have hm : (('p' : Char) == 'm') = false := by decide
    simp only [h, if_false, hm, Bool.false_eq_true, Option.some.injEq, Prod.mk.injEq,
      and_true]
    omega

theorem Codec.decBool_encBool (b : Bool) (rest : List Char) :
    Codec.decBool (Codec.encBool b ++ rest) = some (b, rest) := by
  cases b <;> simp [Codec.encBool, Codec.decBool]

theorem Codec.decOpt_encOpt (o : Option Nat) (rest : List Char) :
    Codec.decOpt (Codec.encOpt o ++ rest) = some (o, rest) := by
  cases o with
  | none => simp [Codec.encOpt, Codec.decOpt]
  | some n =>
    rw [Codec.encOpt, List.cons_append, Codec.decOpt, Codec.decNat_encNat]
    simp

theorem Codec.decClaims_encClaims (c : Claims) (rest : List Char) :
    Codec.decClaims (Codec.encClaims c ++ rest) = some (c, rest) := by
  unfold Codec.decClaims Codec.encClaims
  simp only [List.append_assoc, Codec.decNat_encNat, Codec.decStr_encStr,
    Codec.decInt_encInt, Codec.decBool_encBool, Codec.decList_encList, Codec.decOpt_encOpt]

/-- The library of the examples never fails to sign. -/
theorem codecJWT_signs (secret : String) (claims : Claims) :
    ∃ tok, codecJWT.SignedString secret claims = .ok tok :=
  ⟨_, rfl⟩

/-- The library of the examples verifies, before their expiry, the tokens it signed
under the same secret, and hands back the signed claims. -/
theorem codecJWT_round_trip (secret : String) (later : Nat) (claims : Claims) (tok : String)
    (hs : codecJWT.SignedString secret claims = .ok tok)
    (hexp : ∀ exp, claims.ExpiresAt = some exp → later < exp) :
    codecJWT.ParseWithClaims secret later tok = .ok (claims, true) := by
  simp only [codecJWT, Except.ok.injEq] at hs
  subst hs
  simp only [codecJWT, Codec.decStr_encStr, beq_self_eq_true, if_true]
  have h := Codec.decClaims_encClaims claims []
  rw [List.append_nil] at h
  rw [h]
  simp only []
  rcases he : claims.ExpiresAt with _ | exp
  · simp only []
  · simp only [hexp exp he, if_true]

/-- C15: for all inputs, under an unchanged secret and before expiry (`later` is less
than 24 hours after `now`), `GenerateToken` returns a token and `ParseToken` applied to
it succeeds and returns claims whose UserID, Username, Nickname, Type, IsSuperAdmin and
RoleIDs are the inputs, whose ID is the marker "userID:tokenVersion", whose Issuer is
"gadmin" and whose ExpiresAt is 24 hours after IssuedAt.  The JWT library is taken with
its contract: signing under the secret never fails, and a token it signed under the
secret is handed back, with `Valid` set, as the signed claims as long as it has not
expired. -/
theorem C15_token_round_trip (jwt : JWT) (secret : String) (now later : Nat)
    (userID : Nat) (username nickname : String) (userType : Int) (isSuperAdmin : Bool)
    (roleIDs : List Nat) (tokenVersion : Nat)
    (hlater : later < now + 24 * 3600)
    (hsigns : ∀ claims, ∃ tok, jwt.SignedString secret claims = .ok tok)
    (hlib : ∀ claims tok, jwt.SignedString secret claims = .ok tok →
      (∀ exp, claims.ExpiresAt = some exp → later < exp) →
      jwt.ParseWithClaims secret later tok = .ok (claims, true)) :
    ∃ token claims,
      GenerateToken jwt secret now userID username nickname userType isSuperAdmin
        roleIDs tokenVersion = .ok token ∧
      ParseToken jwt secret later token = .ok claims ∧
      claims.UserID = userID ∧ claims.Username = username ∧ claims.Nickname = nickname ∧
      claims.Type_ = userType ∧ claims.IsSuperAdmin = isSuperAdmin ∧
      claims.RoleIDs = roleIDs ∧ claims.ID = tokenMarker userID tokenVersion ∧
      claims.Issuer = "gadmin" ∧
      ∃ issued expires, claims.IssuedAt = some issued ∧ claims.ExpiresAt = some expires ∧
        expires = issued + 24 * 3600 := by
  obtain ⟨token, hsign⟩ := hsigns
    { UserID := userID, Username := username, Nickname := nickname, Type_ := userType,
      IsSuperAdmin := isSuperAdmin, RoleIDs := roleIDs, ExpiresAt := some (now + 24 * 3600),
      IssuedAt := some now, Issuer := "gadmin", ID := tokenMarker userID tokenVersion }
  have hparse := hlib _ token hsign (by
    intro exp hexp
    simp only [Option.some.injEq] at hexp
    omega)
  refine ⟨token,
    { UserID := userID, Username := username, Nickname := nickname, Type_ := userType,
      IsSuperAdmin := isSuperAdmin, RoleIDs := roleIDs, ExpiresAt := some (now + 24 * 3600),
      IssuedAt := some now, Issuer := "gadmin", ID := tokenMarker userID tokenVersion },
    ?_, ?_, rfl, rfl, rfl, rfl, rfl, rfl, rfl, rfl, now, now + 24 * 3600, rfl, rfl, rfl⟩
  · unfold GenerateToken
    exact hsign
  · simp [ParseToken, hparse]

/-- Witness of C15: the call of the round-trip test, user 1 at version 3 with roles 1
and 2, signed at time 1000 and parsed at time 2000 by a library that signs every claim
set. -/
theorem C15_token_round_trip_witness :
    ∃ token claims,
      GenerateToken codecJWT "s" 1000 1 "user1" "用户1" 0 false [1, 2] 3 = .ok token ∧
      ParseToken codecJWT "s" 2000 token = .ok claims ∧
      claims.UserID = 1 ∧ claims.Username = "user1" ∧ claims.Nickname = "用户1" ∧
      claims.Type_ = 0 ∧ claims.IsSuperAdmin = false ∧
      claims.RoleIDs = [1, 2] ∧ claims.ID = tokenMarker 1 3 ∧
      claims.Issuer = "gadmin" ∧
      ∃ issued expires, claims.IssuedAt = some issued ∧ claims.ExpiresAt = some expires ∧
        expires = issued + 24 * 3600 :=
  C15_token_round_trip codecJWT "s" 1000 2000 1 "user1" "用户1" 0 false [1, 2] 3
    (by decide) (codecJWT_signs "s") (codecJWT_round_trip "s" 2000)

/-- C16: when the JWT library rejects a token string (it returns an error, as it does
for a string that is not a signed token, a token signed under another secret or an
expired token, or it returns a token that is not `Valid`), `ParseToken` returns an error
and no claims, and `AuthMiddleware` ends in `redirectToLogin` with the status
`http.StatusUnauthorized`, for every client and user service: the next handler never
runs, no user is looked up, every JSON body written carries code 401 and never another
code; a client whose Accept header has no "text/html" gets exactly that body
("Token无效或已过期", or "未提供认证Token" for the empty string), a client accepting HTML
gets its cookie cleared and the redirect to /login. -/
theorem C16_rejected_token_is_unauthorized (jwt : JWT) (secret : String) (now : Nat)
    (token : String)
    (hrej : (∃ err, jwt.ParseWithClaims secret now token = .error err) ∨
      ∃ claims, jwt.ParseWithClaims secret now token = .ok (claims, false)) :
    (∃ err, ParseToken jwt secret now token = .error err) ∧
      ∀ (svc : Nat → Except GoError (Option User)) (req : Request),
        AuthMiddleware.token req = token →
        AuthMiddleware (ParseToken jwt secret now) svc req =
            AuthMiddleware.redirectToLogin req
              (if token = "" then "未提供认证Token" else "Token无效或已过期")
              StatusUnauthorized ∧
          (∀ status code msg,
            Effect.json status code msg ∈ AuthMiddleware (ParseToken jwt secret now) svc req →
              status = StatusOK ∧ code = CodeUnauthorized) ∧
          (∀ userID, Effect.callGetUserForAuth userID ∉
            AuthMiddleware (ParseToken jwt secret now) svc req) ∧
          (Contains req.Accept "text/html" = false →
            AuthMiddleware (ParseToken jwt secret now) svc req =
              [.json StatusOK CodeUnauthorized
                (if token = "" then "未提供认证Token" else "Token无效或已过期"), .abort]) ∧
          (Contains req.Accept "text/html" = true →
            AuthMiddleware (ParseToken jwt secret now) svc req =
              [.setCookie "token" "" (-1) "/" "" false true, .redirect StatusFound "/login",
                .abort]) ∧
          Effect.next ∉ AuthMiddleware (ParseToken jwt secret now) svc req := by
  have herr : ∃ err, ParseToken jwt secret now token = .error err := by
    rcases hrej with ⟨err, h⟩ | ⟨claims, h⟩
    · exact ⟨err, by simp [ParseToken, h]⟩
    · exact ⟨"invalid token", by simp [ParseToken, h]⟩
  refine ⟨herr, ?_⟩
  obtain ⟨err, herr⟩ := herr
  intro svc req htok
  have hout : AuthMiddleware (ParseToken jwt secret now) svc req =
      AuthMiddleware.redirectToLogin req
        (if token = "" then "未提供认证Token" else "Token无效或已过期") StatusUnauthorized := by
    unfold AuthMiddleware
    by_cases he : token = ""
    · simp [htok, he]
    · simp [htok, he, herr]
  rw [hout]
  refine ⟨rfl, ?_, ?_, fun hacc => redirectToLogin_api req _ hacc,
    fun hacc => redirectToLogin_html req _ _ hacc, next_not_mem_redirectToLogin req _ _⟩
  · intro status code msg hmem
    by_cases hacc : Contains req.Accept "text/html" = true
    · rw [redirectToLogin_html req _ _ hacc] at hmem
      simp at hmem
    · rw [redirectToLogin_api req _ (by simpa using hacc)] at hmem
      simp only [List.mem_cons, Effect.json.injEq, reduceCtorEq, List.mem_singleton,
        or_false, List.not_mem_nil] at hmem
      exact ⟨hmem.1, hmem.2.1⟩
  · intro userID hmem
    by_cases hacc : Contains req.Accept "text/html" = true
    · rw [redirectToLogin_html req _ _ hacc] at hmem
      simp at hmem
    · rw [redirectToLogin_api req _ (by simpa using hacc)] at hmem
      simp at hmem

/-- Witness of C16: the string "invalid-token", which the library of the examples
rejects, presented by an API client and by a browser. -/
theorem C16_rejected_token_is_unauthorized_witness :
    AuthMiddleware (ParseToken exampleJWT "s" 2000) (userServiceOf exampleDB)
        { Authorization := "Bearer invalid-token", Accept := "application/json" } =
      [.json StatusOK CodeUnauthorized "Token无效或已过期", .abort] ∧
    AuthMiddleware (ParseToken exampleJWT "s" 2000) (userServiceOf exampleDB)
        { Authorization := "Bearer invalid-token", Accept := "text/html" } =
      AuthMiddleware.redirectToLogin
        { Authorization := "Bearer invalid-token", Accept := "text/html" }
        "Token无效或已过期" StatusUnauthorized :=
  ⟨((C16_rejected_token_is_unauthorized exampleJWT "s" 2000 "invalid-token"
      (Or.inl ⟨"token is malformed, forged or expired", by decide⟩)).2
      (userServiceOf exampleDB)
      { Authorization := "Bearer invalid-token", Accept := "application/json" }
      (by decide)).2.2.2.1 (by decide),
    ((C16_rejected_token_is_unauthorized exampleJWT "s" 2000 "invalid-token"
      (Or.inl ⟨"token is malformed, forged or expired", by decide⟩)).2
      (userServiceOf exampleDB)
      { Authorization := "Bearer invalid-token", Accept := "text/html" }
      (by decide)).1⟩

/-! ## The route permission registry -/

theorem RouteMap.get?_set_self (m : RouteMap) (key : String) (info : RoutePermissionInfo) :
    (m.set key info).get? key = some info := by
  unfold RouteMap.set RouteMap.get?
  split
  · rename_i hany
    induction m with
    | nil => simp at hany
    | cons e m ih =>
      by_cases he : e.1 = key
      · simp [he]
      · have hany2 : m.any (fun entry => entry.1 == key) = true := by simpa [he] using hany
        have hb : (e.1 == key) = false := by simpa using he
        rw [List.map_cons, hb]
        simp only [Bool.false_eq_true, if_false]
        rw [List.find?_cons_of_neg _ (by simp [hb])]
        exact ih hany2
  · rename_i hany
    have hnone : m.find? (fun entry => entry.1 == key) = none := by
      rw [List.find?_eq_none]
      intro e he hk
      exact hany (List.any_eq_true.mpr ⟨e, he, hk⟩)
    simp [List.find?_append, hnone]

theorem RouteMap.set_of_any (m : RouteMap) (key : String) (info : RoutePermissionInfo)
    (h : m.any (fun entry => entry.1 == key) = true) :
    m.set key info = m.map (fun entry => if entry.1 == key then (key, info) else entry) := by
  unfold RouteMap.set
  rw [if_pos h]

theorem RouteMap.set_of_not_any (m : RouteMap) (key : String) (info : RoutePermissionInfo)
    (h : ¬ m.any (fun entry => entry.1 == key) = true) :
    m.set key info = m ++ [(key, info)] := by
  unfold RouteMap.set
  rw [if_neg h]

theorem RouteMap.find?_map_other (m : RouteMap) (key other : String)
    (info : RoutePermissionInfo) (h : other ≠ key) :
    (m.map (fun entry => if entry.1 == key then (key, info) else entry)).find?
        (fun entry => entry.1 == other) =
      m.find? (fun entry => entry.1 == other) := by
  have ho2 : (key == other) = false := by
    simpa using fun h2 : key = other => h h2.symm
  induction m with
  | nil => rfl
  | cons e m ih =>
    rw [List.map_cons]
    by_cases he : e.1 = key
    · have hb : (e.1 == key) = true := by simpa using he
      have ho : (e.1 == other) = false := by
        rw [he]
        exact ho2
      rw [hb, if_pos rfl, List.find?_cons_of_neg _ (by simp [ho2]),
        List.find?_cons_of_neg _ (by simp [ho]), ih]
    · have hb : (e.1 == key) = false := by simpa using he
      rw [hb]
      simp only [Bool.false_eq_true, if_false]
      by_cases ho : e.1 = other
      · have hob : (e.1 == other) = true := by simpa using ho
        simp only [List.find?_cons, hob]
      · rw [List.find?_cons_of_neg _ (by simpa using ho),
          List.find?_cons_of_neg _ (by simpa using ho), ih]

theorem RouteMap.get?_set_of_ne (m : RouteMap) (key other : String)
    (info : RoutePermissionInfo) (h : other ≠ key) :
    (m.set key info).get? other = m.get? other := by
  by_cases hany : m.any (fun entry => entry.1 == key) = true
  · rw [RouteMap.set_of_any m key info hany]
    unfold RouteMap.get?
    rw [RouteMap.find?_map_other m key other info h]
  · rw [RouteMap.set_of_not_any m key info hany]
    unfold RouteMap.get?
    have ho2 : ¬ key = other := fun h2 => h h2.symm
    rw [List.find?_append]
    rcases hf : m.find? (fun entry => entry.1 == other) with _ | e
    · simp [ho2]
    · simp [hf]

theorem RouteMap.set_set_self (m : RouteMap) (key : String) (info : RoutePermissionInfo) :
    (m.set key info).set key info = m.set key info := by
  have hany : (m.set key info).any (fun entry => entry.1 == key) = true := by
    by_cases h : m.any (fun entry => entry.1 == key) = true
    · rw [RouteMap.set_of_any m key info h]
      rw [List.any_eq_true] at h ⊢
      obtain ⟨e, he, hk⟩ := h
      exact ⟨(key, info), List.mem_map.mpr ⟨e, he, by simp [hk]⟩, by simp⟩
    · rw [RouteMap.set_of_not_any m key info h]
      simp
  rw [RouteMap.set_of_any (m.set key info) key info hany]
  by_cases h : m.any (fun entry => entry.1 == key) = true
  · rw [RouteMap.set_of_any m key info h, List.map_map]
    apply List.map_congr_left
    intro e _
    by_cases he : e.1 = key <;> simp [he]
  · rw [RouteMap.set_of_not_any m key info h]
    have hm : m.map (fun entry => if entry.1 == key then (key, info) else entry) = m := by
      conv_rhs => rw [← List.map_id m]
      apply List.map_congr_left
      intro e he
      have : ¬ e.1 = key := fun hk => h (List.any_eq_true.mpr ⟨e, he, by simp [hk]⟩)
      simp [this]
    rw [List.map_append, hm]
    simp

/-- C17: after `RegisterRoutePermission(m, p, n, g)`, `GetRoutePermission(m', p)` returns
exactly `{Name: n, Group: g}` for every `m'` with the same upper-casing as `m`, whatever
the map held before (an earlier registration under the key is overwritten, and repeating
the registration leaves the map as it is); the entries under other keys are unchanged. -/
theorem C17_register_then_get (upper fold : Char → Char) (m : RouteMap)
    (iteration : List (String × RoutePermissionInfo)) (method method2 path n g : String)
    (hcase : ToUpper upper method2 = ToUpper upper method) :
    GetRoutePermission upper fold (RegisterRoutePermission upper m method path n g) iteration
        method2 path = { Name := n, Group := g } ∧
      (∀ n0 g0, GetRoutePermission upper fold
        (RegisterRoutePermission upper (RegisterRoutePermission upper m method path n0 g0)
          method path n g) iteration method2 path = { Name := n, Group := g }) ∧
      RegisterRoutePermission upper (RegisterRoutePermission upper m method path n g)
        method path n g = RegisterRoutePermission upper m method path n g ∧
      ∀ key, key ≠ getRouteKey upper method path →
        (RegisterRoutePermission upper m method path n g).get? key = m.get? key := by
  have hkey : getRouteKey upper method2 path = getRouteKey upper method path := by
    unfold getRouteKey
    rw [hcase]
  have hget : ∀ m0 : RouteMap, GetRoutePermission upper fold
      (RegisterRoutePermission upper m0 method path n g) iteration method2 path =
      { Name := n, Group := g } := by
    intro m0
    unfold GetRoutePermission RegisterRoutePermission
    simp only [hkey, RouteMap.get?_set_self]
  refine ⟨hget m, fun n0 g0 => hget _, ?_, ?_⟩
  · unfold RegisterRoutePermission
    exact RouteMap.set_set_self m _ _
  · intro key hne
    unfold RegisterRoutePermission
    exact RouteMap.get?_set_of_ne m _ key _ hne

/-- Witness of C17: "get /admin/api/roles" is registered and looked up as "GET". -/
theorem C17_register_then_get_witness :
    GetRoutePermission upperASCII foldASCII
        (RegisterRoutePermission upperASCII [] "get" "/admin/api/roles" "角色列表" "角色管理") []
        "GET" "/admin/api/roles" = { Name := "角色列表", Group := "角色管理" } :=
  (C17_register_then_get upperASCII foldASCII [] [] "get" "GET" "/admin/api/roles"
    "角色列表" "角色管理" (by decide)).1

/-- C18: when the key of the upper-cased method and the path is itself in the map with
descriptor `d`, `GetRoutePermission(method, path)` returns `d`, whatever the other
entries are and in whatever order the map would be visited. -/
theorem C18_exact_match_wins (upper fold : Char → Char) (m : RouteMap)
    (iteration : List (String × RoutePermissionInfo)) (method path : String)
    (d : RoutePermissionInfo) (h : m.get? (getRouteKey upper method path) = some d) :
    GetRoutePermission upper fold m iteration method path = d := by
  unfold GetRoutePermission
  simp only [h]

/-- Witness of C18: with the pattern "/a/:x" registered first and the literal "/a/1"
second, the lookup of "/a/1" returns the literal entry, also when the pattern is
visited first. -/
theorem C18_exact_match_wins_witness :
    matchRoutePath "/a/:x" "/a/1" = true ∧
      GetRoutePermission upperASCII foldASCII
        [("GET:/a/:x", { Name := "pattern", Group := "g" }),
          ("GET:/a/1", { Name := "exact", Group := "g" })]
        [("GET:/a/:x", { Name := "pattern", Group := "g" }),
          ("GET:/a/1", { Name := "exact", Group := "g" })]
        "get" "/a/1" = { Name := "exact", Group := "g" } :=
  ⟨by decide,
    C18_exact_match_wins upperASCII foldASCII
      [("GET:/a/:x", { Name := "pattern", Group := "g" }),
        ("GET:/a/1", { Name := "exact", Group := "g" })]
      [("GET:/a/:x", { Name := "pattern", Group := "g" }),
        ("GET:/a/1", { Name := "exact", Group := "g" })]
      "get" "/a/1" { Name := "exact", Group := "g" } (by decide)⟩

/-- The loop of `GetRoutePermission` returns the descriptor of the first entry, in the
order of the visit, that passes its test, and the empty descriptor when none does. -/
theorem GetRoutePermission.scan_eq (fold : Char → Char) (method path : String)
    (l : List (String × RoutePermissionInfo)) :
    GetRoutePermission.scan fold method path l =
      match l.find? (GetRoutePermission.accepts fold method path) with
      | some entry => entry.2
      | none => {} := by
  induction l with
  | nil => rfl
  | cons e l ih =>
    obtain ⟨routeKey, info⟩ := e
    unfold GetRoutePermission.scan
    rw [List.find?_cons]
    unfold GetRoutePermission.accepts
    split
    · rename_i part0 part1 hsplit
      simp only [hsplit]
      by_cases hm : EqualFold fold (String.mk part0) method = true
      · by_cases hp : matchRoutePath (String.mk part1) path = true
        · simp [hm, hp]
        · have hp2 : matchRoutePath (String.mk part1) path = false := by simpa using hp
          simp only [hm, hp2, Bool.not_true, Bool.false_eq_true, if_false, Bool.and_false]
          exact ih
      · have hm2 : EqualFold fold (String.mk part0) method = false := by simpa using hm
        simp only [hm2, Bool.not_false, if_true, Bool.false_and]
        exact ih
    · rename_i hsplit
      have hne : ∀ part0 part1, Strings.SplitN routeKey.data ':' 2 = [part0, part1] → False :=
        hsplit
      have hacc : (match Strings.SplitN routeKey.data ':' 2 with
          | [part0, part1] =>
            EqualFold fold (String.mk part0) method && matchRoutePath (String.mk part1) path
          | _ => false) = false := by
        split
        · rename_i part0 part1 h2
          exact absurd h2 (fun h3 => hne part0 part1 h3)
        · rfl
      simp only [hacc]
      exact ih

theorem matchRouteParts_self (l : List (List Char)) : matchRouteParts l l = true := by
  induction l with
  | nil => rfl
  | cons r l ih =>
    unfold matchRouteParts
    split
    · exact ih
    · simp [ih]

theorem matchRoutePath_self (path : String) : matchRoutePath path path = true := by
  unfold matchRoutePath
  simp [matchRouteParts_self]

/-- The test of the loop is the qualification the specification words. -/
theorem accepts_eq_specQualifies (fold : Char → Char) (method path : String)
    (entry : String × RoutePermissionInfo) :
    GetRoutePermission.accepts fold method path entry = specQualifies fold method path entry := by
  unfold GetRoutePermission.accepts specQualifies
  split
  · rename_i part0 part1 hsplit
    congr 1
    by_cases hp : String.mk part1 = path
    · simp [hp, matchRoutePath_self]
    · simp [hp]
  · rfl

theorem SplitN_two_of_not_mem (a b : List Char) (h : ':' ∉ a) :
    Strings.SplitN (a ++ ':' :: b) ':' 2 = [a, b] := by
  induction a with
  | nil => simp [Strings.SplitN]
  | cons c a ih =>
    have hc : c ≠ ':' := fun hc => h (by simp [hc])
    have ha : ':' ∉ a := fun ha => h (List.mem_cons_of_mem _ ha)
    have hb : (c == ':') = false := by simpa using hc
    rw [List.cons_append, Strings.SplitN, hb]
    simp only [Bool.false_eq_true, if_false]
    rw [ih ha]

theorem getRouteKey_data (upper : Char → Char) (method path : String) :
    (getRouteKey upper method path).data =
      (ToUpper upper method).data ++ ':' :: path.data := by
  unfold getRouteKey
  rw [String.data_append, String.data_append]
  simp

theorem EqualFold_ToUpper (upper fold : Char → Char) (s : String)
    (hfold : ∀ c ∈ s.data, fold (upper c) = fold c) :
    EqualFold fold (ToUpper upper s) s = true := by
  unfold EqualFold Strings.ToUpper
  simp only [List.map_map, beq_iff_eq]
  exact List.map_congr_left (fun c hc => hfold c hc)

theorem RouteMap.get?_some_mem (m : RouteMap) (key : String) (d : RoutePermissionInfo)
    (h : m.get? key = some d) : ∃ entry ∈ m, entry.1 = key ∧ entry.2 = d := by
  unfold RouteMap.get? at h
  rcases hf : m.find? (fun entry => entry.1 == key) with _ | e
  · rw [hf] at h
    cases h
  · rw [hf] at h
    have hk := List.find?_some hf
    exact ⟨e, List.mem_of_find?_eq_some hf, by simpa using hk, by simpa using h⟩

/-- An entry found under the key of a lookup qualifies for that lookup, when the
upper-cased method holds no ':' and upper-casing keeps the characters of the method
inside their folding class. -/
theorem exact_entry_qualifies (upper fold : Char → Char) (method path : String)
    (entry : String × RoutePermissionInfo)
    (hcolon : ':' ∉ (ToUpper upper method).data)
    (hfold : ∀ c ∈ method.data, fold (upper c) = fold c)
    (hkey : entry.1 = getRouteKey upper method path) :
    specQualifies fold method path entry = true := by
  unfold specQualifies
  rw [hkey, getRouteKey_data, SplitN_two_of_not_mem _ _ hcolon]
  simp only [Bool.and_eq_true, Bool.or_eq_true, beq_iff_eq]
  exact ⟨EqualFold_ToUpper upper fold method hfold, Or.inl trivial⟩

theorem HasPrefix_colon_iff (r : List Char) :
    HasPrefix (String.mk r) ":" = true ↔ r.head? = some ':' := by
  unfold HasPrefix
  cases r with
  | nil => simp [List.isPrefixOf]
  | cons c r =>
    have h : List.isPrefixOf (":" : String).data (String.mk (c :: r)).data = (':' == c) := by
      show (':' == c && List.isPrefixOf [] r) = (':' == c)
      rw [show List.isPrefixOf ([] : List Char) r = true from by cases r <;> rfl, Bool.and_true]
    rw [h, List.head?_cons, beq_iff_eq, Option.some.injEq]
    exact eq_comm

/-- The loop of `matchRoutePath` on lists of equal length accepts exactly when every
route part starts with ':' or equals the part it faces. -/
theorem matchRouteParts_iff (rs acts : List (List Char)) (hlen : rs.length = acts.length) :
    matchRouteParts rs acts = true ↔
      ∀ i : Nat, ∀ h1 : i < rs.length, ∀ h2 : i < acts.length,
        (rs.get ⟨i, h1⟩).head? = some ':' ∨ rs.get ⟨i, h1⟩ = acts.get ⟨i, h2⟩ := by
  induction rs generalizing acts with
  | nil =>
    cases acts with
    | nil => simp [matchRouteParts]
    | cons a acts => simp at hlen
  | cons r rs ih =>
    cases acts with
    | nil => simp at hlen
    | cons a acts =>
      have hlen2 : rs.length = acts.length := by simpa using hlen
      have hstep : matchRouteParts (r :: rs) (a :: acts) = true ↔
          (r.head? = some ':' ∨ r = a) ∧ matchRouteParts rs acts = true := by
        rw [matchRouteParts.eq_1]
        by_cases hp : HasPrefix (String.mk r) ":" = true
        · have hh := (HasPrefix_colon_iff r).mp hp
          simp [hp, hh]
        · have hh : ¬ r.head? = some ':' := fun h => hp ((HasPrefix_colon_iff r).mpr h)
          by_cases hra : r = a
          · simp [hp, hra]
          · simp [hp, hra, hh]
      rw [hstep, ih acts hlen2]
      constructor
      · rintro ⟨h0, hrest⟩ i h1 h2
        cases i with
        | zero => exact h0
        | succ i =>
          exact hrest i (Nat.lt_of_succ_lt_succ h1) (Nat.lt_of_succ_lt_succ h2)
      · intro h
        refine ⟨h 0 (Nat.succ_pos _) (Nat.succ_pos _), ?_⟩
        intro i h1 h2
        exact h (i + 1) (Nat.succ_lt_succ h1) (Nat.succ_lt_succ h2)

/-- The function `matchRoutePath` is the route rule of the specification. -/
theorem matchRoutePath_iff_spec (pattern path : String) :
    matchRoutePath pattern path = true ↔ specRouteRule pattern path := by
  unfold matchRoutePath specRouteRule
  by_cases hlen : (Split pattern.data '/').length = (Split path.data '/').length
  · have hb : ((Split pattern.data '/').length != (Split path.data '/').length) = false := by
      simpa using hlen
    show (if ((Split pattern.data '/').length != (Split path.data '/').length) = true then false
      else matchRouteParts (Split pattern.data '/') (Split path.data '/')) = true ↔ _
    rw [hb, if_neg (by simp), matchRouteParts_iff _ _ hlen]
    exact ⟨fun h => ⟨hlen, h⟩, fun h => h.2⟩
  · have hb : ((Split pattern.data '/').length != (Split path.data '/').length) = true := by
      simpa using hlen
    simp [hb, hlen]

/-- The result of `GetRoutePermission` when the exact key is absent: the descriptor of
the first entry of the visit that passes the test of the loop. -/
theorem GetRoutePermission_of_miss (upper fold : Char → Char) (m : RouteMap)
    (iteration : List (String × RoutePermissionInfo)) (method path : String)
    (hmiss : m.get? (getRouteKey upper method path) = none) :
    GetRoutePermission upper fold m iteration method path =
      match iteration.find? (GetRoutePermission.accepts fold method path) with
      | some entry => entry.2
      | none => {} := by
  unfold GetRoutePermission
  simp only [hmiss]
  exact GetRoutePermission.scan_eq fold method path iteration

/-- C19 (counterexample): with "/a/:x" registered first and "/a/:y" second, a lookup of
"/a/1" whose map iteration visits the second entry first returns the descriptor of the
second registration, while an iteration in registration order returns the first: the
result is neither the first registered nor the same on every call. -/
theorem C19_counterexample_iteration_order :
    exampleRouteMap =
        [("GET:/a/:x", { Name := "first", Group := "g" }),
          ("GET:/a/:y", { Name := "second", Group := "g" })] ∧
      exampleRouteMap.get? (getRouteKey upperASCII "GET" "/a/1") = none ∧
      exampleRouteMap.reverse.Perm exampleRouteMap ∧
      GetRoutePermission upperASCII foldASCII exampleRouteMap exampleRouteMap.reverse
        "GET" "/a/1" = { Name := "second", Group := "g" } ∧
      GetRoutePermission upperASCII foldASCII exampleRouteMap exampleRouteMap
        "GET" "/a/1" = { Name := "first", Group := "g" } :=
  ⟨by decide, by decide, List.reverse_perm _, by decide, by decide⟩

/-- C19 (amended): when no exact key exists for (method, path) and some registered
entries match the path, `GetRoutePermission` returns the descriptor of the matching
entry that the iteration over the map visits first; Go does not fix that order, so the
entry need not be the one registered first nor the same on every call, and the result
is determined only when all matching entries carry the same descriptor. -/
theorem C19_first_visited_match (upper fold : Char → Char) (m : RouteMap)
    (iteration : List (String × RoutePermissionInfo)) (method path : String)
    (hmiss : m.get? (getRouteKey upper method path) = none)
    (hperm : iteration.Perm m)
    (hex : ∃ entry ∈ m, GetRoutePermission.accepts fold method path entry = true) :
    (∃ before entry after, iteration = before ++ entry :: after ∧
        (∀ e ∈ before, GetRoutePermission.accepts fold method path e = false) ∧
        GetRoutePermission.accepts fold method path entry = true ∧ entry ∈ m ∧
        GetRoutePermission upper fold m iteration method path = entry.2) ∧
      ∀ d, (∀ e ∈ m, GetRoutePermission.accepts fold method path e = true → e.2 = d) →
        GetRoutePermission upper fold m iteration method path = d := by
  rw [GetRoutePermission_of_miss upper fold m iteration method path hmiss]
  obtain ⟨e0, he0, hacc0⟩ := hex
  rcases hf : iteration.find? (GetRoutePermission.accepts fold method path) with _ | entry
  · rw [List.find?_eq_none] at hf
    exact absurd hacc0 (hf e0 (hperm.mem_iff.mpr he0))
  · have hsome := List.find?_eq_some.mp hf
    obtain ⟨hacc, before, after, hiter, hbefore⟩ := hsome
    have hmem : entry ∈ m := hperm.mem_iff.mp (by rw [hiter]; simp)
    refine ⟨⟨before, entry, after, hiter, ?_, hacc, hmem, rfl⟩, ?_⟩
    · intro e he
      simpa using hbefore e he
    · intro d hd
      exact hd entry hmem hacc

/-- Witness of C19 (amended): the lookup of "/a/1" in the map of the two patterns, with
the map visited in reverse order. -/
theorem C19_first_visited_match_witness :
    GetRoutePermission upperASCII foldASCII
        [("GET:/a/:x", { Name := "same", Group := "g" }),
          ("GET:/a/:y", { Name := "same", Group := "g" })]
        [("GET:/a/:y", { Name := "same", Group := "g" }),
          ("GET:/a/:x", { Name := "same", Group := "g" })]
        "GET" "/a/1" = { Name := "same", Group := "g" } :=
  (C19_first_visited_match upperASCII foldASCII
      [("GET:/a/:x", { Name := "same", Group := "g" }),
        ("GET:/a/:y", { Name := "same", Group := "g" })]
      [("GET:/a/:y", { Name := "same", Group := "g" }),
        ("GET:/a/:x", { Name := "same", Group := "g" })]
      "GET" "/a/1" (by decide) (List.Perm.swap _ _ _)
      ⟨("GET:/a/:x", { Name := "same", Group := "g" }), by simp, by decide⟩).2
      { Name := "same", Group := "g" } (by
        intro e he _
        simp only [List.mem_cons, List.mem_singleton, List.not_mem_nil, or_false] at he
        rcases he with rfl | rfl <;> rfl)

/-- The ASCII tables of the examples agree: upper-casing a character does not change
its folding. -/
theorem foldASCII_upperASCII (c : Char) : foldASCII (upperASCII c) = foldASCII c := by
  unfold foldASCII upperASCII
  by_cases h : c.toNat ≥ 97 ∧ c.toNat ≤ 122
  · have hc : c = Char.ofNat c.toNat := (Char.ofNat_toNat c).symm
    obtain ⟨n, hn⟩ : ∃ n, c.toNat = n := ⟨_, rfl⟩
    rw [hn] at h hc
    obtain ⟨h1, h2⟩ := h
    subst hc
    clear hn
    interval_cases n <;> rfl
  · have hu : c.toUpper = c := by
      unfold Char.toUpper
      simp only [h, if_false]
    rw [hu]

theorem upperASCII_eq_colon (c : Char) (h : upperASCII c = ':') : c = ':' := by
  unfold upperASCII at h
  by_cases hr : c.toNat ≥ 97 ∧ c.toNat ≤ 122
  · exfalso
    have hc : c = Char.ofNat c.toNat := (Char.ofNat_toNat c).symm
    obtain ⟨n, hn⟩ : ∃ n, c.toNat = n := ⟨_, rfl⟩
    rw [hn] at hr hc
    obtain ⟨h1, h2⟩ := hr
    subst hc
    clear hn
    revert h
    interval_cases n <;> decide
  · have hu : c.toUpper = c := by
      unfold Char.toUpper
      simp only [hr, if_false]
    rw [hu] at h
    exact h

theorem colon_not_mem_ToUpper (upper : Char → Char) (s : String)
    (hupper : ∀ c, c.toNat < 128 → c ≠ ':' → upper c ≠ ':')
    (hs : ∀ c ∈ s.data, c.toNat < 128 ∧ c ≠ ':') :
    ':' ∉ (ToUpper upper s).data := by
  unfold Strings.ToUpper
  simp only [List.mem_map, not_exists, not_and]
  intro c hc
  exact hupper c (hs c hc).1 (hs c hc).2

/-- An entry registered under the method `M` and the pattern `pattern`, `M` made of
ASCII characters other than ':', qualifies for a lookup exactly when `M` equals the
looked-up method ignoring case and the pattern is the path or matches it. -/
theorem specQualifies_registered (upper fold : Char → Char) (method path M pattern : String)
    (entry : String × RoutePermissionInfo)
    (hfold : ∀ c, c.toNat < 128 → fold (upper c) = fold c)
    (hupper : ∀ c, c.toNat < 128 → c ≠ ':' → upper c ≠ ':')
    (hM : ∀ c ∈ M.data, c.toNat < 128 ∧ c ≠ ':')
    (hkey : entry.1 = getRouteKey upper M pattern) :
    specQualifies fold method path entry = true ↔
      EqualFold fold M method = true ∧
        (pattern = path ∨ matchRoutePath pattern path = true) := by
  unfold specQualifies
  rw [hkey, getRouteKey_data, SplitN_two_of_not_mem _ _ (colon_not_mem_ToUpper upper M hupper hM)]
  have hup : EqualFold fold (ToUpper upper M) M = true :=
    EqualFold_ToUpper upper fold M (fun c hc => hfold c (hM c hc).1)
  have hcongr : EqualFold fold (ToUpper upper M) method = EqualFold fold M method :=
    (EqualFold_congr_left fold method hup).symm
  simp only [Bool.and_eq_true, Bool.or_eq_true, beq_iff_eq]
  rw [show (String.mk (ToUpper upper M).data) = ToUpper upper M from rfl,
    show (String.mk pattern.data) = pattern from rfl, hcongr]

/-- C20: for a looked-up method made of ASCII characters other than ':', as every HTTP
method is, and case tables that on ASCII characters behave as those of Go (upper-casing
stays inside the folding class and yields ':' from ':' only), in whatever order the map
is visited: `GetRoutePermission` returns either the empty descriptor, no entry
qualifying, or the descriptor of a registered entry that qualifies; an entry registered
as (`M`, `pattern`), `M` made of ASCII characters other than ':', qualifies exactly when
`M` equals the method ignoring case and `pattern` is the path or `matchRoutePath` accepts
the two; `matchRoutePath` holds exactly when pattern and path have the same number of
'/'-separated segments and every pattern segment starts with ':' or equals the facing
segment; when no entry qualifies the result is the empty descriptor; when exactly one
entry qualifies the result is its descriptor. -/
theorem C20_lookup_semantics (upper fold : Char → Char) (m : RouteMap)
    (iteration : List (String × RoutePermissionInfo)) (method path : String)
    (hfold : ∀ c, c.toNat < 128 → fold (upper c) = fold c)
    (hupper : ∀ c, c.toNat < 128 → c ≠ ':' → upper c ≠ ':')
    (hmethod : ∀ c ∈ method.data, c.toNat < 128 ∧ c ≠ ':')
    (hperm : iteration.Perm m) :
    ((GetRoutePermission upper fold m iteration method path = {} ∧
          ∀ entry ∈ m, specQualifies fold method path entry = false) ∨
        ∃ entry ∈ m, specQualifies fold method path entry = true ∧
          GetRoutePermission upper fold m iteration method path = entry.2) ∧
      (∀ (entry : String × RoutePermissionInfo) (M pattern : String),
        entry.1 = getRouteKey upper M pattern →
        (∀ c ∈ M.data, c.toNat < 128 ∧ c ≠ ':') →
        (specQualifies fold method path entry = true ↔
          EqualFold fold M method = true ∧
            (pattern = path ∨ matchRoutePath pattern path = true))) ∧
      (∀ pattern actual : String,
        matchRoutePath pattern actual = true ↔ specRouteRule pattern actual) ∧
      ((∀ entry ∈ m, specQualifies fold method path entry = false) →
        GetRoutePermission upper fold m iteration method path = {}) ∧
      (∀ entry ∈ m, specQualifies fold method path entry = true →
        (∀ e ∈ m, specQualifies fold method path e = true → e = entry) →
        GetRoutePermission upper fold m iteration method path = entry.2) := by
  have hcolon : ':' ∉ (ToUpper upper method).data :=
    colon_not_mem_ToUpper upper method hupper hmethod
  have key : GetRoutePermission upper fold m iteration method path = {} ∧
        (∀ entry ∈ m, specQualifies fold method path entry = false) ∨
      ∃ entry ∈ m, specQualifies fold method path entry = true ∧
        GetRoutePermission upper fold m iteration method path = entry.2 := by
    rcases hget : m.get? (getRouteKey upper method path) with _ | d
    · rw [GetRoutePermission_of_miss upper fold m iteration method path hget]
      rcases hf : iteration.find? (GetRoutePermission.accepts fold method path) with _ | entry
      · left
        refine ⟨rfl, ?_⟩
        intro entry he
        rw [List.find?_eq_none] at hf
        have := hf entry (hperm.mem_iff.mpr he)
        rw [← accepts_eq_specQualifies]
        simpa using this
      · right
        have hacc := List.find?_some hf
        rw [accepts_eq_specQualifies] at hacc
        exact ⟨entry, hperm.mem_iff.mp (List.mem_of_find?_eq_some hf), hacc, rfl⟩
    · right
      obtain ⟨entry, hmem, hk, hd⟩ := RouteMap.get?_some_mem m _ d hget
      refine ⟨entry, hmem, exact_entry_qualifies upper fold method path entry hcolon
        (fun c hc => hfold c (hmethod c hc).1) hk, ?_⟩
      unfold GetRoutePermission
      simp only [hget, hd]
  refine ⟨key, ?_, matchRoutePath_iff_spec, ?_, ?_⟩
  · intro entry M pattern hkey hM
    exact specQualifies_registered upper fold method path M pattern entry hfold hupper hM hkey
  · intro hnone
    rcases key with ⟨h, _⟩ | ⟨entry, hmem, hq, _⟩
    · exact h
    · rw [hnone entry hmem] at hq
      exact absurd hq (by simp)
  · intro entry hmem hq huniq
    rcases key with ⟨_, hnone⟩ | ⟨e, he, heq, hres⟩
    · rw [hnone entry hmem] at hq
      exact absurd hq (by simp)
    · rw [hres, huniq e he heq]

/-- Witness of C20: the lookups of the route tests in the map of their registrations: a
parameter match, an unknown path, another method and a path with one segment too
many. -/
theorem C20_lookup_semantics_witness :
    GetRoutePermission upperASCII foldASCII exampleTestMap exampleTestMap
        "GET" "/admin/api/roles/1" = { Name := "角色详情", Group := "角色管理" } ∧
      GetRoutePermission upperASCII foldASCII exampleTestMap exampleTestMap
        "GET" "/admin/api/unknown" = {} ∧
      GetRoutePermission upperASCII foldASCII exampleTestMap exampleTestMap
        "POST" "/admin/api/users" = {} ∧
      GetRoutePermission upperASCII foldASCII exampleTestMap exampleTestMap
        "GET" "/admin/api/roles/1/extra" = {} :=
  ⟨by decide,
    (C20_lookup_semantics upperASCII foldASCII exampleTestMap exampleTestMap
      "GET" "/admin/api/unknown" (fun c _ => foldASCII_upperASCII c)
      (fun c _ hne h => hne (upperASCII_eq_colon c h)) (by decide)
      (List.Perm.refl _)).2.2.2.1 (by decide),
    by decide, by decide⟩

/-! ## C25: the unified error body -/

theorem As_iff_specIsOrWraps (err : GoError) (b : BizError) :
    err.As = some b ↔ specIsOrWraps err b := by
  induction err with
  | biz e =>
    constructor
    · intro h
      simp only [GoError.As, Option.some.injEq] at h
      subst h
      exact .is e
    · intro h
      cases h
      rfl
  | recordNotFound =>
    constructor
    · intro h
      simp [GoError.As] at h
    · intro h
      cases h
  | other text =>
    constructor
    · intro h
      simp [GoError.As] at h
    · intro h
      cases h
  | wrap text inner ih =>
    constructor
    · intro h
      exact .wraps text inner b (ih.mp h)
    · intro h
      cases h with
      | wraps _ _ _ h2 => exact ih.mpr h2

/-- C25: for every error `Responder.RespondError` sends the client exactly one JSON body,
with HTTP status 200; when the error is or wraps a `*BizError` the body carries that
error's code and message and nothing is logged; for every other error the body is code
500 with the fixed message "服务器内部错误" and the error's own text only goes to the log. -/
theorem C25_respond_error_body (err : GoError) :
    (∀ b, specIsOrWraps err b →
        Responder.RespondError err = [.json 200 b.Code b.Msg]) ∧
      ((¬ ∃ b, specIsOrWraps err b) →
        Responder.RespondError err =
          [.logError ("internal error: " ++ err.Error), .json 200 500 "服务器内部错误"]) ∧
      ∃ code msg, clientBodies (Responder.RespondError err) = [(200, code, msg)] ∧
        ((¬ ∃ b, specIsOrWraps err b) → code = 500 ∧ msg = "服务器内部错误") := by
  rcases h : err.As with _ | b
  · have hno : ¬ ∃ b, specIsOrWraps err b := by
      rintro ⟨b, hb⟩
      rw [← As_iff_specIsOrWraps, h] at hb
      cases hb
    refine ⟨fun b hb => absurd ⟨b, hb⟩ hno, fun _ => ?_, 500, "服务器内部错误", ?_, fun _ => ⟨rfl, rfl⟩⟩
    · simp [Responder.RespondError, h, Responder.Error, StatusOK, CodeInternalError]
    · simp [Responder.RespondError, h, Responder.Error, StatusOK, CodeInternalError,
        clientBodies]
  · have hb := (As_iff_specIsOrWraps err b).mp h
    refine ⟨fun b2 hb2 => ?_, fun hno => absurd ⟨b, hb⟩ hno, b.Code, b.Msg, ?_,
      fun hno => absurd ⟨b, hb⟩ hno⟩
    · rw [← As_iff_specIsOrWraps, h] at hb2
      cases hb2
      simp [Responder.RespondError, h, Responder.Error, StatusOK]
    · simp [Responder.RespondError, h, Responder.Error, StatusOK, clientBodies]

/-- Witness of C25: a wrapped "not found" business error answers with code 404 and the
business message, and a storage error answers with code 500 and the fixed message. -/
theorem C25_respond_error_body_witness :
    Responder.RespondError exampleWrappedError = [.json 200 404 "用户不存在"] ∧
      Responder.RespondError (.other "dial tcp 10.0.0.5:3306: connection refused") =
        [.logError "internal error: dial tcp 10.0.0.5:3306: connection refused",
          .json 200 500 "服务器内部错误"] :=
  ⟨(C25_respond_error_body exampleWrappedError).1 ⟨404, "用户不存在"⟩
      (.wraps _ _ _ (.is _)),
    (C25_respond_error_body (.other "dial tcp 10.0.0.5:3306: connection refused")).2.1
      (by rintro ⟨b, hb⟩; cases hb)⟩

/-! ## C26: where the token is taken from -/

theorem SplitN_two_append (sep : Char) (a b : List Char) (h : sep ∉ a) :
    Strings.SplitN (a ++ sep :: b) sep 2 = [a, b] := by
  induction a with
  | nil => simp [Strings.SplitN]
  | cons c a ih =>
    have hc : c ≠ sep := fun hc => h (by simp [hc])
    have ha : sep ∉ a := fun ha => h (List.mem_cons_of_mem _ ha)
    have hb : (c == sep) = false := by simpa using hc
    rw [List.cons_append, Strings.SplitN, hb]
    simp only [Bool.false_eq_true, if_false]
    rw [ih ha]

theorem SplitN_two_cases (sep : Char) (s : List Char) :
    Strings.SplitN s sep 2 = [s] ∨
      ∃ a b, s = a ++ sep :: b ∧ Strings.SplitN s sep 2 = [a, b] := by
  induction s with
  | nil => left; simp [Strings.SplitN]
  | cons c s ih =>
    by_cases hc : c = sep
    · right
      refine ⟨[], s, by simp [hc], ?_⟩
      simp [Strings.SplitN, hc]
    · have hb : (c == sep) = false := by simpa using hc
      rcases ih with h1 | ⟨a, b, hs, h2⟩
      · left
        rw [Strings.SplitN, hb]
        simp [h1]
      · right
        refine ⟨c :: a, b, by simp [hs], ?_⟩
        rw [Strings.SplitN, hb]
        simp [h2]

theorem bearer_stage (header : String) :
    (if header != "" then
        match Strings.SplitN header.data ' ' 2 with
        | [part0, part1] => if String.mk part0 == "Bearer" then String.mk part1 else ""
        | _ => ""
      else "") = (specBearerToken header).getD "" := by
  unfold specBearerToken
  by_cases hp : HasPrefix header "Bearer " = true
  · obtain ⟨b, hb⟩ := (HasPrefix_iff _ _).mp hp
    have hd : header.data = "Bearer".data ++ ' ' :: b := by rw [← hb]; rfl
    have hne : (header != "") = true := by
      have : header ≠ "" := fun e => by rw [e] at hd; simp at hd
      simpa using this
    have hsplit := SplitN_two_append ' ' "Bearer".data b (by decide)
    rw [← hd] at hsplit
    have hdrop : header.data.drop 7 = b := by rw [hd]; rfl
    rw [hsplit, hp, hdrop, hne]
    by_cases hbe : b = []
    · subst hbe
      simp
    · simp [hbe]
  · have hp2 : HasPrefix header "Bearer " = false := by simpa using hp
    rw [hp2]
    simp only [Bool.false_eq_true, if_false, Option.getD_none]
    split
    · rcases SplitN_two_cases ' ' header.data with h1 | ⟨a, b, hs, h2⟩
      · rw [h1]
      · rw [h2]
        simp only
        split
        · rename_i ha
          exfalso
          have ha2 : a = "Bearer".data := by
            have := eq_of_beq ha
            exact congrArg String.data this
          apply hp
          rw [HasPrefix_iff, hs, ha2]
          exact ⟨b, rfl⟩
        · rfl
    · rfl

/-- C26: the token `AuthMiddleware` works with is the one the precedence rule names: the
rest of the `Authorization` header after "Bearer " when that rest is not empty, otherwise
a present and non-empty "token" cookie, otherwise the "token" query parameter; in
particular a header "Bearer " followed by a non-empty rest always wins over the cookie. -/
theorem C26_token_precedence (req : Request) :
    AuthMiddleware.token req = specToken req ∧
      (∀ rest : String, rest ≠ "" → req.Authorization = "Bearer " ++ rest →
        AuthMiddleware.token req = rest) := by
  have main : AuthMiddleware.token req = specToken req := by
    unfold AuthMiddleware.token specToken
    simp only []
    rw [bearer_stage]
    rcases hs : specBearerToken req.Authorization with _ | t
    · simp only [Option.getD_none]
      rcases req.Cookie with _ | c
      · simp
      · by_cases hc : c = ""
        · simp [hc]
        · simp [hc]
    · have ht : t ≠ "" := by
        unfold specBearerToken at hs
        split at hs
        · split at hs
          · cases hs
          · rename_i hne
            cases hs
            intro e
            exact hne (congrArg String.data e)
        · cases hs
      simp [ht]
  refine ⟨main, ?_⟩
  intro rest hrest hauth
  rw [main]
  unfold specToken specBearerToken
  have hp : HasPrefix req.Authorization "Bearer " = true := by
    rw [hauth]
    exact HasPrefix_append _ _
  have hd : req.Authorization.data.drop 7 = rest.data := by
    rw [hauth, String.data_append]
    rfl
  have hne : rest.data ≠ [] := fun e => hrest (String.ext e)
  simp [hp, hd, hne]

/-- Witness of C26: with a Bearer header, a cookie and a query parameter the header
token is used; with the scheme "Basic" the cookie is used. -/
theorem C26_token_precedence_witness :
    AuthMiddleware.token exampleTokenRequest = "header-token" ∧
      AuthMiddleware.token { exampleTokenRequest with Authorization := "Basic abc" } =
        "cookie-token" :=
  ⟨(C26_token_precedence exampleTokenRequest).2 "header-token" (by decide) (by decide),
    by decide⟩

/-! ## C30: the subject id of the marker -/

theorem map_redirectToLogin (f : Effect → Effect) (req : Request) (msg : String) (code : Nat)
    (hf : ∀ e, e.isSetClaims = false → f e = e) :
    (AuthMiddleware.redirectToLogin req msg code).map f =
      AuthMiddleware.redirectToLogin req msg code := by
  unfold AuthMiddleware.redirectToLogin
  split
  · simp [hf, Effect.isSetClaims]
  · split <;>
      simp [Responder.RespondError, Responder.Error, ForbiddenMsg, UnauthorizedMsg,
        NewBizError, hf, Effect.isSetClaims]

theorem redirectToLogin_congr (req1 req2 : Request) (msg : String) (code : Nat)
    (hacc : req1.Accept = req2.Accept) :
    AuthMiddleware.redirectToLogin req2 msg code =
      AuthMiddleware.redirectToLogin req1 msg code := by
  unfold AuthMiddleware.redirectToLogin
  rw [hacc]

/-- C30 (counterexample): two verified claim sets that differ only in the first
component of the marker ("1:0" and "7:0"), presented to the same store, pass
authentication alike, yet the handler runs are not the same: the value stored under
"claims" carries the marker of the claim set presented. -/
theorem C30_counterexample_claims_value :
    exampleMarkerParseToken "token-a" = .ok { UserID := 1, Username := "u", ID := "1:0" } ∧
      exampleMarkerParseToken "token-b" =
        .ok { ({ UserID := 1, Username := "u", ID := "1:0" } : Claims) with ID := "7:0" } ∧
      GetTokenVersion { UserID := 1, Username := "u", ID := "1:0" } = .ok (1, 0) ∧
      GetTokenVersion { UserID := 1, Username := "u", ID := "7:0" } = .ok (7, 0) ∧
      AuthMiddleware exampleMarkerParseToken (userServiceOf exampleDB)
          (exampleQueryRequest "token-a") ≠
        AuthMiddleware exampleMarkerParseToken (userServiceOf exampleDB)
          (exampleQueryRequest "token-b") ∧
      Effect.setClaims { UserID := 1, Username := "u", ID := "7:0" } ∈
        AuthMiddleware exampleMarkerParseToken (userServiceOf exampleDB)
          (exampleQueryRequest "token-b") ∧
      Effect.setClaims { UserID := 1, Username := "u", ID := "7:0" } ∉
        AuthMiddleware exampleMarkerParseToken (userServiceOf exampleDB)
          (exampleQueryRequest "token-a") := by
  decide

/-- C30 (amended): for two verified claim sets that differ at most in the marker `ID`,
whose markers parse with the same token version, presented by clients with the same
`Accept` header to the same user service, `AuthMiddleware` runs alike: the second run is
the first one with the value stored under "claims" replaced by the second claim set, so
everything else (the lookup, the response, the value stored under "user", the
continuation) is the same; and the only lookup made is by `claims.UserID`, whatever user
ids `u1`, `u2` the markers name. -/
theorem C30_marker_subject_ignored (P : String → Except String Claims)
    (svc : Nat → Except GoError (Option User)) (req1 req2 : Request) (c : Claims)
    (id2 : String) (u1 u2 v : Nat)
    (hacc : req1.Accept = req2.Accept)
    (ht1 : AuthMiddleware.token req1 ≠ "") (ht2 : AuthMiddleware.token req2 ≠ "")
    (hp1 : P (AuthMiddleware.token req1) = .ok c)
    (hp2 : P (AuthMiddleware.token req2) = .ok { c with ID := id2 })
    (hv1 : GetTokenVersion c = .ok (u1, v))
    (hv2 : GetTokenVersion { c with ID := id2 } = .ok (u2, v)) :
    AuthMiddleware P svc req2 =
        (AuthMiddleware P svc req1).map
          (fun e => if e.isSetClaims then .setClaims { c with ID := id2 } else e) ∧
      (AuthMiddleware P svc req2).filter (fun e => !e.isSetClaims) =
        (AuthMiddleware P svc req1).filter (fun e => !e.isSetClaims) ∧
      (∀ uid, Effect.callGetUserForAuth uid ∈ AuthMiddleware P svc req1 → uid = c.UserID) ∧
      (∀ uid, Effect.callGetUserForAuth uid ∈ AuthMiddleware P svc req2 → uid = c.UserID) := by
  have hf : ∀ e : Effect, e.isSetClaims = false →
      (fun e : Effect => if e.isSetClaims then Effect.setClaims { c with ID := id2 } else e) e
        = e := by
    intro e he
    simp [he]
  have hr : ∀ msg code, AuthMiddleware.redirectToLogin req2 msg code =
      AuthMiddleware.redirectToLogin req1 msg code :=
    fun msg code => redirectToLogin_congr req1 req2 msg code hacc
  have hfilter : ∀ msg code,
      (AuthMiddleware.redirectToLogin req1 msg code).filter (fun e => !e.isSetClaims) =
        AuthMiddleware.redirectToLogin req1 msg code := by
    intro msg code
    unfold AuthMiddleware.redirectToLogin
    split
    · simp [Effect.isSetClaims]
    · split <;>
        simp [Responder.RespondError, Responder.Error, ForbiddenMsg, UnauthorizedMsg,
          NewBizError, Effect.isSetClaims]
  have hcall : ∀ msg code uid,
      Effect.callGetUserForAuth uid ∉ AuthMiddleware.redirectToLogin req1 msg code := by
    intro msg code uid
    unfold AuthMiddleware.redirectToLogin
    split
    · simp
    · split <;>
        simp [Responder.RespondError, Responder.Error, ForbiddenMsg, UnauthorizedMsg,
          NewBizError]
  rcases hu : svc c.UserID with err | _ | user
  · have h1 := AuthMiddleware_lookup_error P svc req1 c u1 v err ht1 hp1 hv1 hu
    have h2 := AuthMiddleware_lookup_error P svc req2 { c with ID := id2 } u2 v err ht2 hp2 hv2 hu
    rw [h1, h2, hr]
    refine ⟨?_, rfl, ?_, ?_⟩
    · rw [List.map_cons, map_redirectToLogin _ _ _ _ hf]
      simp [Effect.isSetClaims]
    · intro uid hmem
      rcases List.mem_cons.mp hmem with h | h
      · cases h; rfl
      · exact absurd h (hcall _ _ _)
    · intro uid hmem
      rcases List.mem_cons.mp hmem with h | h
      · cases h; rfl
      · exact absurd h (hcall _ _ _)
  · have h1 : AuthMiddleware P svc req1 = .callGetUserForAuth c.UserID ::
        AuthMiddleware.redirectToLogin req1 "用户不存在" StatusUnauthorized := by
      simp only [AuthMiddleware, hp1, hv1, hu]
      simp [ht1]
    have h2 : AuthMiddleware P svc req2 = .callGetUserForAuth c.UserID ::
        AuthMiddleware.redirectToLogin req2 "用户不存在" StatusUnauthorized := by
      simp only [AuthMiddleware, hp2, hv2, hu]
      simp [ht2]
    rw [h1, h2, hr]
    refine ⟨?_, rfl, ?_, ?_⟩
    · rw [List.map_cons, map_redirectToLogin _ _ _ _ hf]
      simp [Effect.isSetClaims]
    · intro uid hmem
      rcases List.mem_cons.mp hmem with h | h
      · cases h; rfl
      · exact absurd h (hcall _ _ _)
    · intro uid hmem
      rcases List.mem_cons.mp hmem with h | h
      · cases h; rfl
      · exact absurd h (hcall _ _ _)
  · have h1 := AuthMiddleware_after_lookup P svc req1 c u1 v user ht1 hp1 hv1 hu
    have h2 := AuthMiddleware_after_lookup P svc req2 { c with ID := id2 } u2 v user ht2 hp2
      hv2 hu
    rw [h1, h2]
    simp only [hr]
    by_cases hlt : v < user.TokenVersion
    · simp only [hlt, if_true]
      refine ⟨?_, trivial, ?_, ?_⟩
      · rw [List.map_cons, map_redirectToLogin _ _ _ _ hf]
        simp [Effect.isSetClaims]
      · intro uid hmem
        rcases List.mem_cons.mp hmem with h | h
        · cases h; rfl
        · exact absurd h (hcall _ _ _)
      · intro uid hmem
        rcases List.mem_cons.mp hmem with h | h
        · cases h; rfl
        · exact absurd h (hcall _ _ _)
    · by_cases hst : (user.Status == 0) = true
      · simp only [hlt, hst, if_true, if_false]
        refine ⟨?_, trivial, ?_, ?_⟩
        · rw [List.map_cons, map_redirectToLogin _ _ _ _ hf]
          simp [Effect.isSetClaims]
        · intro uid hmem
          rcases List.mem_cons.mp hmem with h | h
          · cases h; rfl
          · exact absurd h (hcall _ _ _)
        · intro uid hmem
          rcases List.mem_cons.mp hmem with h | h
          · cases h; rfl
          · exact absurd h (hcall _ _ _)
      · simp only [hlt, hst, if_false]
        refine ⟨?_, ?_, ?_, ?_⟩
        · simp [Effect.isSetClaims]
        · simp [Effect.isSetClaims]
        · intro uid hmem
          simpa using hmem
        · intro uid hmem
          simpa using hmem

/-- Witness of C30 (amended): the claims of user 1 presented once with the marker "1:0"
and once with the marker "7:0", which names another user: both runs look up user 1. -/
theorem C30_marker_subject_ignored_witness :
    AuthMiddleware exampleMarkerParseToken (userServiceOf exampleDB)
        (exampleQueryRequest "token-b") =
      (AuthMiddleware exampleMarkerParseToken (userServiceOf exampleDB)
        (exampleQueryRequest "token-a")).map
          (fun e => if e.isSetClaims then
            .setClaims { ({ UserID := 1, Username := "u", ID := "1:0" } : Claims) with
              ID := "7:0" }
          else e) :=
  (C30_marker_subject_ignored exampleMarkerParseToken (userServiceOf exampleDB)
    (exampleQueryRequest "token-a") (exampleQueryRequest "token-b")
    { UserID := 1, Username := "u", ID := "1:0" } "7:0" 1 7 0
    (by decide) (by decide) (by decide) (by decide) (by decide) (by decide) (by decide)).1

/-! ## C21: the super-admin flag is computed at login -/

theorem Login.loop_spec (roles : List Role) (flag : Bool) (ids : List Nat) :
    roles.foldl
        (fun state role =>
          let roleIDs := state.2 ++ [role.ID]
          if role.Name == "超级管理员" then (true, roleIDs) else (state.1, roleIDs))
        (flag, ids) =
      (flag || roles.any (fun r => r.Name == "超级管理员"), ids ++ roles.map (fun r => r.ID)) := by
  induction roles generalizing flag ids with
  | nil => simp
  | cons r roles ih =>
    rw [List.foldl_cons]
    by_cases hn : (r.Name == "超级管理员") = true
    · simp only [hn, if_true]
      rw [ih]
      simp [hn]
    · simp only [hn, if_false]
      rw [ih]
      simp [hn]

theorem setClaims_not_mem_redirectToLogin (req : Request) (c : Claims) (msg : String)
    (code : Nat) : Effect.setClaims c ∉ AuthMiddleware.redirectToLogin req msg code := by
  unfold AuthMiddleware.redirectToLogin
  split
  · simp
  · split <;>
      simp [Responder.RespondError, Responder.Error, ForbiddenMsg, UnauthorizedMsg,
        NewBizError]

/-- C21: when the captcha verifies, the user query returns `user` (with its roles
loaded) and the password matches, `Login` hands the token generator the flag "some
role of the user is named 超级管理员", the ids of the loaded roles in their order and the
`TokenVersion` of the stored row, and returns what the generator returns; later requests
take the flag from the verified claims: `AuthMiddleware` stores the parsed claims as
they are, and `PermissionMiddleware` lets a request with the flag set through without
consulting any role or permission. -/
theorem C21_login_super_admin_flag (Verify : String → String → Bool) (bcrypt : Bcrypt)
    (generator : TokenGenerator) (db db2 : DB)
    (username password captchaID captchaVal : String) (user : User)
    (hcap : Verify captchaID captchaVal = true)
    (huser : db.FirstUserByUsername username = (.ok user, db2))
    (hpw : bcrypt.CompareHashAndPassword user.Password password = true) :
    (AuthService.Login Verify bcrypt generator db username password captchaID captchaVal).1 =
        (match generator user.ID user.Username user.Nickname user.Type_
            (user.Roles.any (fun r => r.Name == "超级管理员")) (user.Roles.map (fun r => r.ID))
            user.TokenVersion with
          | .error err => (none, "", some err)
          | .ok token => (some user, token, none)) ∧
      ((user.Roles.any (fun r => r.Name == "超级管理员")) = true ↔
        ∃ r ∈ user.Roles, r.Name = "超级管理员") ∧
      (∃ row ∈ db.users, row.Username = username ∧ row.DeletedAt = none ∧
        user.TokenVersion = row.TokenVersion ∧ user.ID = row.ID) ∧
      (∀ (P : String → Except String Claims) (svc : Nat → Except GoError (Option User))
          (req : Request) (c : Claims),
        Effect.setClaims c ∈ AuthMiddleware P svc req →
          P (AuthMiddleware.token req) = .ok c) ∧
      (∀ (fold : Char → Char) (psvc : List Nat → Except GoError (List Permission))
          (claims : Claims) (req : Request), claims.IsSuperAdmin = true →
        PermissionMiddleware fold psvc (some claims) req = [.next]) := by
  refine ⟨?_, ?_, ?_, ?_, ?_⟩
  · unfold AuthService.Login
    have hl : AuthService.Login.loop user.Roles =
        (user.Roles.any (fun r => r.Name == "超级管理员"), user.Roles.map (fun r => r.ID)) := by
      unfold AuthService.Login.loop
      rw [Login.loop_spec]
      simp
    simp only [hcap, huser, hpw, hl, Bool.not_true, Bool.false_eq_true, if_false]
    split <;> simp_all
  · simp
  · unfold DB.FirstUserByUsername at huser
    simp only [] at huser
    split at huser
    · cases huser
    · split at huser
      · cases huser
      · rename_i row hrow
        split at huser
        · cases huser
        · have hmem := List.mem_of_find?_eq_some hrow
          have hp := List.find?_some hrow
          simp only [Bool.and_eq_true, beq_iff_eq, Option.isNone_iff_eq_none] at hp
          simp only [Prod.mk.injEq, Except.ok.injEq] at huser
          have hmem2 : row ∈ db.users := by
            unfold DB.statement at hmem
            split at hmem <;> simpa using hmem
          refine ⟨row, hmem2, hp.1, hp.2, ?_, ?_⟩
          · rw [← huser.1]
          · rw [← huser.1]
  · intro P svc req c hmem
    have hno := setClaims_not_mem_redirectToLogin req c
    unfold AuthMiddleware at hmem
    simp only [] at hmem
    split at hmem
    · exact absurd hmem (hno _ _)
    · rcases hp : P (AuthMiddleware.token req) with e | claims
      · rw [hp] at hmem
        exact absurd hmem (hno _ _)
      · rw [hp] at hmem
        simp only [] at hmem
        rcases hv : GetTokenVersion claims with e | ⟨uid, t⟩
        · rw [hv] at hmem
          exact absurd hmem (hno _ _)
        · rw [hv] at hmem
          simp only [List.mem_cons, reduceCtorEq, false_or] at hmem
          rcases hu : svc claims.UserID with e | _ | user
          · rw [hu] at hmem
            exact absurd hmem (hno _ _)
          · rw [hu] at hmem
            exact absurd hmem (hno _ _)
          · rw [hu] at hmem
            simp only [] at hmem
            split at hmem
            · exact absurd hmem (hno _ _)
            · split at hmem
              · exact absurd hmem (hno _ _)
              · simp only [List.mem_cons, reduceCtorEq, false_or, Effect.setClaims.injEq,
                  List.mem_singleton, or_false, List.not_mem_nil] at hmem
                rw [hmem]
  · intro fold psvc claims req hsa
    simp [PermissionMiddleware, hsa]

/-- Witness of C21: the user of `exampleLoginDB` holds the roles 1 and 2, the second one
named 超级管理员; the generator is called with the flag set and with both role ids. -/
theorem C21_login_super_admin_flag_witness :
    (AuthService.Login (fun _ _ => true) exampleBcrypt exampleGenerator exampleLoginDB
        "u" "secret" "cid" "val").1 =
      (some { exampleUser with
          Roles := [{ ID := 1, Name := "编辑" }, { ID := 2, Name := "超级管理员" }] },
        "admin/2", none) :=
  (C21_login_super_admin_flag (fun _ _ => true) exampleBcrypt exampleGenerator
    exampleLoginDB exampleLoginDB "u" "secret" "cid" "val"
    { exampleUser with
      Roles := [{ ID := 1, Name := "编辑" }, { ID := 2, Name := "超级管理员" }] }
    rfl (by decide) (by decide)).1

/-! ## C28: `BatchDeletePermissions` -/

theorem BatchDeletePermissions.clear_error (perms : List Permission) (db db2 : DB)
    (err : GoError)
    (h : PermissionService.BatchDeletePermissions.clear db perms = (some err, db2)) :
    err = .other "database error" := by
  induction perms generalizing db with
  | nil => simp [PermissionService.BatchDeletePermissions.clear] at h
  | cons p rest ih =>
    unfold PermissionService.BatchDeletePermissions.clear at h
    rcases hc : db.ClearPermissionRoles p with ⟨_ | e, db3⟩
    · rw [hc] at h
      exact ih db3 h
    · rw [hc] at h
      simp only [Prod.mk.injEq, Option.some.injEq] at h
      unfold DB.ClearPermissionRoles at hc
      simp only [] at hc
      split at hc
      · simp only [Prod.mk.injEq, Option.some.injEq] at hc
        rw [← h.1, ← hc.1]
      · simp at hc

/-- C28 (failing input): in a store holding the permissions 1 and 2, the id list [1, 1]
names stored permissions only, yet `BatchDeletePermissions` fails with BadRequest
"部分权限不存在" and deletes nothing, because the number of rows found (1) is compared
with the length of the list (2); the list [1, 2] of the test succeeds.  For every store
and list, the error "权限ID列表不能为空" is returned exactly for the empty list. -/
theorem C28_duplicate_ids_rejected :
    (∀ id ∈ [1, 1], ∃ p ∈ examplePermissionDB.permissions, p.ID = id ∧ p.DeletedAt = none) ∧
      PermissionService.BatchDeletePermissions 9 examplePermissionDB [1, 1] =
        (some (BadRequestMsg "部分权限不存在"), examplePermissionDB) ∧
      PermissionService.BatchDeletePermissions 9 examplePermissionDB [1, 2] =
        (none, { permissions :=
            [{ ID := 1, DeletedAt := some 9, Path := "/b1", Method := "GET", Name := "B1" },
              { ID := 2, DeletedAt := some 9, Path := "/b2", Method := "GET", Name := "B2" }] }) ∧
      ∀ (now : Nat) (db : DB) (ids : List Nat),
        (PermissionService.BatchDeletePermissions now db ids).1 =
          some (BadRequestMsg "权限ID列表不能为空") ↔ ids = [] := by
  refine ⟨by decide, by decide, by decide, ?_⟩
  intro now db ids
  constructor
  · intro h
    by_contra hne
    have hlen : (ids.length == 0) = false := by
      cases ids with
      | nil => exact absurd rfl hne
      | cons a b => rfl
    unfold PermissionService.BatchDeletePermissions at h
    simp only [hlen, Bool.false_eq_true, if_false] at h
    split at h
    · simp [BadRequestMsg, NewBizError] at h
    · split at h
      · simp [BadRequestMsg, NewBizError] at h
      · split at h
        · simp [BadRequestMsg, NewBizError] at h
        · split at h
          · rename_i err db3 hc
            have := BatchDeletePermissions.clear_error _ _ _ _ hc
            rw [this] at h
            simp [BadRequestMsg, NewBizError] at h
          · split at h
            · simp [BadRequestMsg, NewBizError] at h
            · simp at h
  · intro h
    subst h
    rfl

/-! ## C24: `CleanOldLogs` -/

theorem filter_ge_getElem_length (S : List Nat) (hs : S.Pairwise (· > ·)) (k : Nat)
    (hk : k < S.length) :
    (S.filter (fun x => decide (S[k] ≤ x))).length = k + 1 := by
  induction S generalizing k with
  | nil => simp at hk
  | cons a T ih =>
    rw [List.pairwise_cons] at hs
    cases k with
    | zero =>
      have hT : T.filter (fun x => decide (a ≤ x)) = [] := by
        rw [List.filter_eq_nil_iff]
        intro x hx
        have := hs.1 x hx
        simp
        omega
      simp [List.filter_cons, hT]
    | succ j =>
      have hj : j < T.length := by simpa using hk
      have ha : T[j] ≤ a := by
        have := hs.1 T[j] (List.getElem_mem _)
        omega
      have := ih hs.2 j hj
      simp [List.filter_cons, ha, this]

theorem CleanOldLogs_spec (db : DB) (retain : Int) (hpos : 0 < retain)
    (hf : db.faults = []) (hlive : ∀ l ∈ db.logs, l.DeletedAt = none)
    (hnodup : (db.logs.map (fun l => l.ID)).Nodup) :
    ∃ m : Nat,
      OperationLogService.CleanOldLogs db retain =
        ((((db.logs.filter (fun l => decide (l.ID < m))).length : Int), none),
          { db with logs := db.logs.filter (fun l => !(decide (l.ID < m))) }) ∧
      (db.logs.filter (fun l => !(decide (l.ID < m)))).length =
        min db.logs.length retain.toNat := by
  have hst : db.statement = (false, db) := by
    unfold DB.statement
    rw [hf]
  have hfl : db.logs.filter (fun l => l.DeletedAt.isNone) = db.logs := by
    rw [List.filter_eq_self]
    intro l hl
    simp [hlive l hl]
  have hperm : ((db.logs.map (fun l => l.ID)).insertionSort (· ≥ ·)).Perm
      (db.logs.map (fun l => l.ID)) := List.perm_insertionSort _ _
  have hsorted : ((db.logs.map (fun l => l.ID)).insertionSort (· ≥ ·)).Sorted (· ≥ ·) :=
    List.sorted_insertionSort _ _
  have hstrict : ((db.logs.map (fun l => l.ID)).insertionSort (· ≥ ·)).Pairwise (· > ·) :=
    hsorted.gt_of_ge (hperm.nodup_iff.mpr hnodup)
  have hlen : ((db.logs.map (fun l => l.ID)).insertionSort (· ≥ ·)).length =
      db.logs.length := by
    rw [hperm.length_eq]
    simp
  refine ⟨(((db.logs.map (fun l => l.ID)).insertionSort (· ≥ ·))[(retain - 1).toNat]?).getD 0,
    ?_, ?_⟩
  · unfold OperationLogService.CleanOldLogs DB.PluckLogID
    simp only [hst, hfl, not_le.mpr hpos, if_false, Bool.false_eq_true]
  · rcases hk : ((db.logs.map (fun l => l.ID)).insertionSort (· ≥ ·))[(retain - 1).toNat]?
      with _ | m
    · have hge := List.getElem?_eq_none_iff.mp hk
      simp only [Option.getD_none, Nat.not_lt_zero, decide_False, Bool.not_false,
        List.filter_true]
      omega
    · obtain ⟨hlt, hget⟩ := List.getElem?_eq_some_iff.mp hk
      simp only [Option.getD_some]
      have h1 : (db.logs.filter (fun l => !(decide (l.ID < m)))).length =
          ((db.logs.map (fun l => l.ID)).filter (fun x => decide (m ≤ x))).length := by
        rw [List.filter_map, List.length_map]
        congr 1
        apply List.filter_congr
        intro l _
        show (!decide (l.ID < m)) = decide (m ≤ l.ID)
        by_cases h : l.ID < m
        · have h2 : ¬ m ≤ l.ID := by omega
          simp only [h, h2, decide_True, decide_False, Bool.not_true]
        · have h2 : m ≤ l.ID := by omega
          simp only [h, h2, decide_True, decide_False, Bool.not_false]
      rw [h1, ← (hperm.filter _).length_eq, ← hget, filter_ge_getElem_length _ hstrict _ hlt]
      omega

/-- C24: `CleanOldLogs(retain)` with `retain <= 0` returns (0, nil) and leaves the store
alone.  With `retain > 0`, no storage fault, and an operation-log table of `N` live rows
with distinct ids, it returns the count `max(0, N - retain)` with a nil error, and the
table afterwards consists of `min(N, retain)` of the former rows, unchanged and in their
order, every one of them with a larger id than every row that is gone; no other table
changes. -/
theorem C24_clean_old_logs (db : DB) (retain : Int) :
    (retain ≤ 0 → OperationLogService.CleanOldLogs db retain = ((0, none), db)) ∧
      (0 < retain → db.faults = [] → (∀ l ∈ db.logs, l.DeletedAt = none) →
        (db.logs.map (fun l => l.ID)).Nodup →
        (OperationLogService.CleanOldLogs db retain).1 =
            (max 0 ((db.logs.length : Int) - retain), none) ∧
          (OperationLogService.CleanOldLogs db retain).2.logs.length =
            min db.logs.length retain.toNat ∧
          (OperationLogService.CleanOldLogs db retain).2.logs.Sublist db.logs ∧
          (∀ kept ∈ (OperationLogService.CleanOldLogs db retain).2.logs,
            ∀ gone ∈ db.logs, gone ∉ (OperationLogService.CleanOldLogs db retain).2.logs →
              gone.ID < kept.ID) ∧
          (OperationLogService.CleanOldLogs db retain).2 =
            { db with logs := (OperationLogService.CleanOldLogs db retain).2.logs }) := by
  constructor
  · intro h
    simp [OperationLogService.CleanOldLogs, h]
  · intro hpos hf hlive hnodup
    obtain ⟨m, heq, hlen⟩ := CleanOldLogs_spec db retain hpos hf hlive hnodup
    rw [heq]
    refine ⟨?_, hlen, List.filter_sublist _, ?_, rfl⟩
    · have hsum : db.logs.length =
          (db.logs.filter (fun l => decide (l.ID < m))).length +
            (db.logs.filter (fun l => !(decide (l.ID < m)))).length :=
        List.length_eq_length_filter_add (fun l : OperationLog => decide (l.ID < m))
      simp only [Prod.mk.injEq, and_true]
      omega
    · intro kept hkept gone hgone hnot
      simp only [List.mem_filter, Bool.not_eq_true', decide_eq_false_iff_not, not_lt] at hkept
      simp only [List.mem_filter, hgone, true_and, Bool.not_eq_true', decide_eq_false_iff_not,
        not_lt, not_le] at hnot
      omega

/-- Witness of C24: the five rows of the test with `retain = 2`: three rows are deleted
and the rows 4 and 5 remain. -/
theorem C24_clean_old_logs_witness :
    (OperationLogService.CleanOldLogs exampleLogDB 2).1 = (3, none) ∧
      ((OperationLogService.CleanOldLogs exampleLogDB 2).2.logs.map (fun l => l.ID)) = [4, 5] ∧
      OperationLogService.CleanOldLogs exampleLogDB 0 = ((0, none), exampleLogDB) :=
  ⟨((C24_clean_old_logs exampleLogDB 2).2 (by decide) rfl (by decide) (by decide)).1,
    by decide, (C24_clean_old_logs exampleLogDB 0).1 (by decide)⟩

/-! ## C23: two increments at once -/

/-- `Logout` is its load followed by its save. -/
theorem Logout_eq_load_save (bcrypt : Bcrypt) (db : DB) (userID : Nat) :
    AuthService.Logout db userID =
      match VersionCall.load bcrypt db userID .logout with
      | (.error err, db) => (some err, db)
      | (.ok user, db) => VersionCall.save db user .logout := by
  unfold AuthService.Logout VersionCall.load VersionCall.save
  rcases db.FirstUser userID with ⟨e | u, db2⟩
  · cases e <;> rfl
  · rfl

/-- `ChangePassword` is its load followed by its save. -/
theorem ChangePassword_eq_load_save (bcrypt : Bcrypt) (db : DB) (userID : Nat)
    (oldPassword newPassword : String) :
    AuthService.ChangePassword bcrypt db userID oldPassword newPassword =
      match VersionCall.load bcrypt db userID (.changePassword oldPassword newPassword) with
      | (.error err, db) => (some err, db)
      | (.ok user, db) => VersionCall.save db user (.changePassword oldPassword newPassword) := by
  unfold AuthService.ChangePassword VersionCall.load VersionCall.save
  rcases db.FirstUser userID with ⟨e | u, db2⟩
  · cases e <;> rfl
  · simp only []
    split
    · rfl
    · split
      · rfl
      · split <;> rfl

/-- C23 (counterexample): two `Logout` calls for user 1, stored at token version 0, whose
`First` queries both run before either `Save`: both calls return nil, and the stored
token version is 1, not 2. -/
theorem C23_counterexample_lost_increment :
    storedTokenVersion exampleDB 1 = some 0 ∧
      (runTwo exampleBcrypt 1 .logout .logout [false, true, false, true]
        (.ready, .ready, exampleDB)).1 = .returned none ∧
      (runTwo exampleBcrypt 1 .logout .logout [false, true, false, true]
        (.ready, .ready, exampleDB)).2.1 = .returned none ∧
      storedTokenVersion (runTwo exampleBcrypt 1 .logout .logout [false, true, false, true]
        (.ready, .ready, exampleDB)).2.2 1 = some 1 := by
  decide

theorem VersionCall.step_returned (bcrypt : Bcrypt) (userID : Nat) (call : VersionCall)
    (err : Option GoError) (db : DB) :
    call.step bcrypt userID (.returned err) db = (.returned err, db) := rfl

theorem FirstUser_of_find (db : DB) (userID : Nat) (r : User) (hf : db.faults = [])
    (hr : db.users.find? (fun u => u.ID == userID && u.DeletedAt.isNone) = some r) :
    db.FirstUser userID = (.ok r, db) := by
  unfold DB.FirstUser DB.statement
  rw [hf]
  simp only [Bool.false_eq_true, if_false, hr]

theorem VersionCall.step_ready (bcrypt : Bcrypt) (userID : Nat) (call : VersionCall)
    (db : DB) (r : User) (hf : db.faults = [])
    (hr : db.users.find? (fun u => u.ID == userID && u.DeletedAt.isNone) = some r) :
    (∃ e, call.step bcrypt userID .ready db = (.returned (some e), db)) ∨
      ∃ u, call.step bcrypt userID .ready db = (.loaded u, db) ∧ u.ID = r.ID ∧
        u.DeletedAt = r.DeletedAt ∧ u.TokenVersion = uintIncr r.TokenVersion := by
  have hfirst := FirstUser_of_find db userID r hf hr
  cases call with
  | logout =>
    right
    exact ⟨{ r with TokenVersion := uintIncr r.TokenVersion },
      by simp only [VersionCall.step, VersionCall.load, hfirst], rfl, rfl, rfl⟩
  | changePassword oldPassword newPassword =>
    simp only [VersionCall.step, VersionCall.load, hfirst]
    by_cases hc : bcrypt.CompareHashAndPassword r.Password oldPassword = true
    · by_cases hl : newPassword.utf8ByteSize < 6
      · left
        exact ⟨BadRequestMsg "新密码长度不能少于6位",
          by simp only [hc, hl, Bool.not_true, Bool.false_eq_true, if_false, if_true]⟩
      · rcases hg : bcrypt.GenerateFromPassword newPassword with _ | hashed
        · left
          exact ⟨InternalErrorMsg "密码加密失败",
            by simp only [hc, hl, Bool.not_true, Bool.false_eq_true, if_false]⟩
        · right
          exact ⟨{ r with Password := hashed, TokenVersion := uintIncr r.TokenVersion },
            by simp only [hc, hl, Bool.not_true, Bool.false_eq_true, if_false], rfl, rfl, rfl⟩
    · left
      have hc2 : bcrypt.CompareHashAndPassword r.Password oldPassword = false := by
        simpa using hc
      exact ⟨UnauthorizedMsg "当前密码错误", by simp only [hc2, Bool.not_false, if_true]⟩

theorem VersionCall.step_loaded (bcrypt : Bcrypt) (userID : Nat) (call : VersionCall)
    (db : DB) (r u : User) (hf : db.faults = [])
    (hr : db.users.find? (fun u => u.ID == userID && u.DeletedAt.isNone) = some r)
    (hid : u.ID = r.ID) (hlive : u.DeletedAt = r.DeletedAt) :
    ∃ db2, call.step bcrypt userID (.loaded u) db = (.returned none, db2) ∧
      db2.faults = [] ∧
      db2.users.find? (fun u => u.ID == userID && u.DeletedAt.isNone) = some u := by
  have hp := List.find?_some hr
  simp only [Bool.and_eq_true, beq_iff_eq, Option.isNone_iff_eq_none] at hp
  have hmem := List.mem_of_find?_eq_some hr
  have hany : db.users.any (fun x => x.ID == u.ID) = true :=
    List.any_eq_true.mpr ⟨r, hmem, by simp [hid]⟩
  have hsave : db.SaveUser u =
      (none, { db with users := db.users.map (fun x => if x.ID == u.ID then u else x) }) := by
    unfold DB.SaveUser DB.statement
    rw [hf]
    simp only [Bool.false_eq_true, if_false, hany, if_true, hf]
  have hfind := find_after_save db.users u (by rw [hlive, hp.2]) hany
  have huid : u.ID = userID := by rw [hid, hp.1]
  rw [huid] at hfind
  refine ⟨{ db with users := db.users.map (fun x => if x.ID == u.ID then u else x) }, ?_, hf, ?_⟩
  · cases call <;> simp only [VersionCall.step, VersionCall.save, hsave]
  · rw [← hfind, huid]

theorem schedule_cases (s : List Bool) (h : s.count false = 2 ∧ s.count true = 2) :
    s = [false, false, true, true] ∨ s = [true, true, false, false] ∨
      s = [false, true, false, true] ∨ s = [false, true, true, false] ∨
      s = [true, false, false, true] ∨ s = [true, false, true, false] := by
  have hlen : s.length = 4 := by
    have := List.count_true_add_count_false s
    omega
  match s, hlen, h with
  | [a, b, c, d], _, h =>
    revert h
    revert a b c d
    decide

theorem runTwo_fst_returned (bcrypt : Bcrypt) (userID : Nat) (a b : VersionCall)
    (s : List Bool) (err : Option GoError) (sb : CallState) (db : DB) :
    (runTwo bcrypt userID a b s (.returned err, sb, db)).1 = .returned err := by
  induction s generalizing sb db with
  | nil => rfl
  | cons x s ih =>
    cases x
    · rw [runTwo, VersionCall.step_returned]
      exact ih _ _
    · rw [runTwo]
      exact ih _ _

theorem runTwo_snd_returned (bcrypt : Bcrypt) (userID : Nat) (a b : VersionCall)
    (s : List Bool) (err : Option GoError) (sa : CallState) (db : DB) :
    (runTwo bcrypt userID a b s (sa, .returned err, db)).2.1 = .returned err := by
  induction s generalizing sa db with
  | nil => rfl
  | cons x s ih =>
    cases x
    · rw [runTwo]
      exact ih _ _
    · rw [runTwo, VersionCall.step_returned]
      exact ih _ _

/-- The first call makes its `First` query: it fails for good, or it holds a row with the
stored version incremented. -/
theorem runTwo_false_ready (bcrypt : Bcrypt) (userID : Nat) (a b : VersionCall)
    (rest : List Bool) (sb : CallState) (db : DB) (r : User) (hf : db.faults = [])
    (hr : db.users.find? (fun u => u.ID == userID && u.DeletedAt.isNone) = some r) :
    (∃ e, (runTwo bcrypt userID a b (false :: rest) (.ready, sb, db)).1 =
        .returned (some e)) ∨
      ∃ u, runTwo bcrypt userID a b (false :: rest) (.ready, sb, db) =
          runTwo bcrypt userID a b rest (.loaded u, sb, db) ∧
        u.ID = r.ID ∧ u.DeletedAt = r.DeletedAt ∧
        u.TokenVersion = uintIncr r.TokenVersion := by
  rcases VersionCall.step_ready bcrypt userID a db r hf hr with ⟨e, h⟩ | ⟨u, h, hu⟩
  · left
    exact ⟨e, by rw [runTwo, h]; exact runTwo_fst_returned _ _ _ _ _ _ _ _⟩
  · right
    exact ⟨u, by rw [runTwo, h], hu⟩

theorem runTwo_true_ready (bcrypt : Bcrypt) (userID : Nat) (a b : VersionCall)
    (rest : List Bool) (sa : CallState) (db : DB) (r : User) (hf : db.faults = [])
    (hr : db.users.find? (fun u => u.ID == userID && u.DeletedAt.isNone) = some r) :
    (∃ e, (runTwo bcrypt userID a b (true :: rest) (sa, .ready, db)).2.1 =
        .returned (some e)) ∨
      ∃ u, runTwo bcrypt userID a b (true :: rest) (sa, .ready, db) =
          runTwo bcrypt userID a b rest (sa, .loaded u, db) ∧
        u.ID = r.ID ∧ u.DeletedAt = r.DeletedAt ∧
        u.TokenVersion = uintIncr r.TokenVersion := by
  rcases VersionCall.step_ready bcrypt userID b db r hf hr with ⟨e, h⟩ | ⟨u, h, hu⟩
  · left
    exact ⟨e, by rw [runTwo, h]; exact runTwo_snd_returned _ _ _ _ _ _ _ _⟩
  · right
    exact ⟨u, by rw [runTwo, h], hu⟩

/-- The first call makes its `Save`: the row it holds is the stored row afterwards. -/
theorem runTwo_false_loaded (bcrypt : Bcrypt) (userID : Nat) (a b : VersionCall)
    (rest : List Bool) (sb : CallState) (db : DB) (r u : User) (hf : db.faults = [])
    (hr : db.users.find? (fun u => u.ID == userID && u.DeletedAt.isNone) = some r)
    (hid : u.ID = r.ID) (hlive : u.DeletedAt = r.DeletedAt) :
    ∃ db2, runTwo bcrypt userID a b (false :: rest) (.loaded u, sb, db) =
        runTwo bcrypt userID a b rest (.returned none, sb, db2) ∧
      db2.faults = [] ∧
      db2.users.find? (fun u => u.ID == userID && u.DeletedAt.isNone) = some u := by
  obtain ⟨db2, h, h2⟩ := VersionCall.step_loaded bcrypt userID a db r u hf hr hid hlive
  exact ⟨db2, by rw [runTwo, h], h2⟩

theorem runTwo_true_loaded (bcrypt : Bcrypt) (userID : Nat) (a b : VersionCall)
    (rest : List Bool) (sa : CallState) (db : DB) (r u : User) (hf : db.faults = [])
    (hr : db.users.find? (fun u => u.ID == userID && u.DeletedAt.isNone) = some r)
    (hid : u.ID = r.ID) (hlive : u.DeletedAt = r.DeletedAt) :
    ∃ db2, runTwo bcrypt userID a b (true :: rest) (sa, .loaded u, db) =
        runTwo bcrypt userID a b rest (sa, .returned none, db2) ∧
      db2.faults = [] ∧
      db2.users.find? (fun u => u.ID == userID && u.DeletedAt.isNone) = some u := by
  obtain ⟨db2, h, h2⟩ := VersionCall.step_loaded bcrypt userID b db r u hf hr hid hlive
  exact ⟨db2, by rw [runTwo, h], h2⟩

/-- C23 (amended): two calls of `Logout` or `ChangePassword` for the same user, each
made of its `First` query and its `Save` statement, run under any schedule of these four
statements on a store without faults holding the user at token version `V`.  When both
calls return nil, the stored token version afterwards is `V` incremented twice if one
call made both its statements before the other began, and `V` incremented once, one
increment being lost, under each of the four schedules in which both queries come before
both saves. -/
theorem C23_increment_is_read_modify_write (bcrypt : Bcrypt) (userID : Nat)
    (a b : VersionCall) (schedule : List Bool) (db : DB) (V : Nat)
    (hfaults : db.faults = [])
    (hV : storedTokenVersion db userID = some V)
    (hsched : schedule.count false = 2 ∧ schedule.count true = 2)
    (hA : (runTwo bcrypt userID a b schedule (.ready, .ready, db)).1 = .returned none)
    (hB : (runTwo bcrypt userID a b schedule (.ready, .ready, db)).2.1 = .returned none) :
    storedTokenVersion (runTwo bcrypt userID a b schedule (.ready, .ready, db)).2.2 userID =
      some (if schedule = [false, false, true, true] ∨ schedule = [true, true, false, false]
        then uintIncr (uintIncr V) else uintIncr V) := by
  obtain ⟨r, hr, hrv⟩ : ∃ r, db.users.find?
      (fun u => u.ID == userID && u.DeletedAt.isNone) = some r ∧ r.TokenVersion = V := by
    unfold storedTokenVersion at hV
    rcases hfind : db.users.find? (fun u => u.ID == userID && u.DeletedAt.isNone) with _ | r
    · rw [hfind] at hV
      cases hV
    · rw [hfind] at hV
      exact ⟨r, hfind, by simpa using hV⟩
  rcases schedule_cases schedule hsched with h | h | h | h | h | h <;> subst h
  · rcases runTwo_false_ready bcrypt userID a b [false, true, true] .ready db r hfaults hr with
      ⟨e, he⟩ | ⟨uA, h1, hidA, hliveA, hvA⟩
    · rw [he] at hA
      cases hA
    · rw [h1] at hA hB ⊢
      obtain ⟨db2, h2, hf2, hr2⟩ :=
        runTwo_false_loaded bcrypt userID a b [true, true]
          .ready db r uA hfaults hr hidA hliveA
      rw [h2] at hA hB ⊢
      rcases runTwo_true_ready bcrypt userID a b [true] (.returned none) db2 uA hf2 hr2 with
        ⟨e, he⟩ | ⟨uB, h3, hidB, hliveB, hvB⟩
      · rw [he] at hB
        cases hB
      · rw [h3] at hA hB ⊢
        obtain ⟨db4, h4, hf4, hr4⟩ :=
          runTwo_true_loaded bcrypt userID a b [] (.returned
            none) db2 uA uB hf2 hr2 hidB hliveB
        rw [h4] at hA hB ⊢
        simp [runTwo, storedTokenVersion, hr4, hvA, hvB, hrv]
  · rcases runTwo_true_ready bcrypt userID a b [true, false, false] .ready db r hfaults hr with
      ⟨e, he⟩ | ⟨uB, h1, hidB, hliveB, hvB⟩
    · rw [he] at hB
      cases hB
    · rw [h1] at hA hB ⊢
      obtain ⟨db2, h2, hf2, hr2⟩ :=
        runTwo_true_loaded bcrypt userID a b [false, false]
          .ready db r uB hfaults hr hidB hliveB
      rw [h2] at hA hB ⊢
      rcases runTwo_false_ready bcrypt userID a b [false] (.returned none) db2 uB hf2 hr2 with
        ⟨e, he⟩ | ⟨uA, h3, hidA, hliveA, hvA⟩
      · rw [he] at hA
        cases hA
      · rw [h3] at hA hB ⊢
        obtain ⟨db4, h4, hf4, hr4⟩ :=
          runTwo_false_loaded bcrypt userID a b [] (.returned
            none) db2 uB uA hf2 hr2 hidA hliveA
        rw [h4] at hA hB ⊢
        simp [runTwo, storedTokenVersion, hr4, hvA, hvB, hrv]
  · rcases runTwo_false_ready bcrypt userID a b [true, false, true] .ready db r hfaults hr with
      ⟨e, he⟩ | ⟨uA, h1, hidA, hliveA, hvA⟩
    · rw [he] at hA
      cases hA
    · rw [h1] at hA hB ⊢
      rcases runTwo_true_ready bcrypt userID a b [false, true] (.loaded uA) db r hfaults hr with
        ⟨e, he⟩ | ⟨uB, h2, hidB, hliveB, hvB⟩
      · rw [he] at hB
        cases hB
      · rw [h2] at hA hB ⊢
        obtain ⟨db3, h3, hf3, hr3⟩ :=
          runTwo_false_loaded bcrypt userID a b [true] (.loaded
            uB) db r uA hfaults hr hidA hliveA
        rw [h3] at hA hB ⊢
        obtain ⟨db4, h4, hf4, hr4⟩ :=
          runTwo_true_loaded bcrypt userID a b [] (.returned
            none) db3 uA uB hf3 hr3 (hidB.trans hidA.symm) (hliveB.trans hliveA.symm)
        rw [h4] at hA hB ⊢
        simp [runTwo, storedTokenVersion, hr4, hvA, hvB, hrv]
  · rcases runTwo_false_ready bcrypt userID a b [true, true, false] .ready db r hfaults hr with
      ⟨e, he⟩ | ⟨uA, h1, hidA, hliveA, hvA⟩
    · rw [he] at hA
      cases hA
    · rw [h1] at hA hB ⊢
      rcases runTwo_true_ready bcrypt userID a b [true, false] (.loaded uA) db r hfaults hr with
        ⟨e, he⟩ | ⟨uB, h2, hidB, hliveB, hvB⟩
      · rw [he] at hB
        cases hB
      · rw [h2] at hA hB ⊢
        obtain ⟨db3, h3, hf3, hr3⟩ :=
          runTwo_true_loaded bcrypt userID a b [false] (.loaded
            uA) db r uB hfaults hr hidB hliveB
        rw [h3] at hA hB ⊢
        obtain ⟨db4, h4, hf4, hr4⟩ :=
          runTwo_false_loaded bcrypt userID a b [] (.returned
            none) db3 uB uA hf3 hr3 (hidA.trans hidB.symm) (hliveA.trans hliveB.symm)
        rw [h4] at hA hB ⊢
        simp [runTwo, storedTokenVersion, hr4, hvA, hvB, hrv]
  · rcases runTwo_true_ready bcrypt userID a b [false, false, true] .ready db r hfaults hr with
      ⟨e, he⟩ | ⟨uB, h1, hidB, hliveB, hvB⟩
    · rw [he] at hB
      cases hB
    · rw [h1] at hA hB ⊢
      rcases runTwo_false_ready bcrypt userID a b [false, true] (.loaded uB) db r hfaults hr with
        ⟨e, he⟩ | ⟨uA, h2, hidA, hliveA, hvA⟩
      · rw [he] at hA
        cases hA
      · rw [h2] at hA hB ⊢
        obtain ⟨db3, h3, hf3, hr3⟩ :=
          runTwo_false_loaded bcrypt userID a b [true] (.loaded
            uB) db r uA hfaults hr hidA hliveA
        rw [h3] at hA hB ⊢
        obtain ⟨db4, h4, hf4, hr4⟩ :=
          runTwo_true_loaded bcrypt userID a b [] (.returned
            none) db3 uA uB hf3 hr3 (hidB.trans hidA.symm) (hliveB.trans hliveA.symm)
        rw [h4] at hA hB ⊢
        simp [runTwo, storedTokenVersion, hr4, hvA, hvB, hrv]
  · rcases runTwo_true_ready bcrypt userID a b [false, true, false] .ready db r hfaults hr with
      ⟨e, he⟩ | ⟨uB, h1, hidB, hliveB, hvB⟩
    · rw [he] at hB
      cases hB
    · rw [h1] at hA hB ⊢
      rcases runTwo_false_ready bcrypt userID a b [true, false] (.loaded uB) db r hfaults hr with
        ⟨e, he⟩ | ⟨uA, h2, hidA, hliveA, hvA⟩
      · rw [he] at hA
        cases hA
      · rw [h2] at hA hB ⊢
        obtain ⟨db3, h3, hf3, hr3⟩ :=
          runTwo_true_loaded bcrypt userID a b [false] (.loaded
            uA) db r uB hfaults hr hidB hliveB
        rw [h3] at hA hB ⊢
        obtain ⟨db4, h4, hf4, hr4⟩ :=
          runTwo_false_loaded bcrypt userID a b [] (.returned
            none) db3 uB uA hf3 hr3 (hidA.trans hidB.symm) (hliveA.trans hliveB.symm)
        rw [h4] at hA hB ⊢
        simp [runTwo, storedTokenVersion, hr4, hvA, hvB, hrv]

/-- Witness of C23 (amended): two `Logout` calls for user 1 of `exampleDB`, one after the
other: the stored token version goes from 0 to 2. -/
theorem C23_increment_is_read_modify_write_witness :
    storedTokenVersion (runTwo exampleBcrypt 1 .logout .logout [false, false, true, true]
      (.ready, .ready, exampleDB)).2.2 1 = some (uintIncr (uintIncr 0)) :=
  C23_increment_is_read_modify_write exampleBcrypt 1 .logout .logout
    [false, false, true, true] exampleDB 0 rfl (by decide) (by decide) (by decide) (by decide)

/-! ## C27: the size of the stored request and response -/

theorem onesTail_length (n : Nat) : (onesTail n).length = 2 * n + 1 := by
  induction n with
  | zero => rfl
  | succ n ih =>
    rw [onesTail, List.length_cons, List.length_cons, ih]
    omega

theorem indentedTail_length (n : Nat) : (indentedTail n).length = 5 * n + 2 := by
  induction n with
  | zero => rfl
  | succ n ih =>
    rw [indentedTail]
    simp only [List.length_cons, ih]
    omega

theorem parseOnesTail_onesTail (n : Nat) : parseOnesTail (onesTail n) = some n := by
  induction n with
  | zero => rfl
  | succ n ih =>
    rw [onesTail, parseOnesTail, ih]
    simp

theorem formatJSON_onesArray (n : Nat) :
    formatJSON exampleJSONLib (onesArray n) = indentedOnes n := by
  unfold formatJSON onesArray exampleJSONLib
  simp [parseOnesTail_onesTail]

theorem truncatedSuffix_length : truncatedSuffix.length = 14 := by decide

theorem requestBody_length_le (bodyBytes : Option (List UInt8)) :
    (OperationLogMiddleware.requestBody bodyBytes).length ≤ maxOperationLogSize + 14 := by
  unfold OperationLogMiddleware.requestBody
  rcases bodyBytes with _ | b
  · simp
  · simp only []
    split
    · rw [List.length_append, List.length_take, truncatedSuffix_length]
      omega
    · omega

theorem responseBody_length_le (written : List UInt8) :
    (OperationLogMiddleware.responseBody written).length ≤ maxOperationLogSize + 14 := by
  unfold OperationLogMiddleware.responseBody
  split
  · rw [List.length_append, List.length_take, truncatedSuffix_length]
    omega
  · omega

theorem onesArray_length (n : Nat) : (onesArray n).length = 2 * n + 3 := by
  unfold onesArray
  simp only [List.length_cons, onesTail_length]

theorem indentedOnes_length (n : Nat) : (indentedOnes n).length = 5 * n + 7 := by
  unfold indentedOnes
  simp only [List.length_cons, indentedTail_length]

/-- The record of a POST request whose request and response bodies are the compact array
of `n + 1` numerals 1, when that array is within the size limit: both stored strings are
the indented array. -/
theorem operationLog_onesArray (n : Nat) (h : 2 * n + 3 ≤ maxOperationLogSize)
    (routeName : String) (status : Int) (clientIP userAgent : String) (duration : Int) :
    (OperationLogMiddleware.operationLog exampleJSONLib none "POST" "/admin/api/users"
        (some (onesArray n)) (onesArray n) routeName status clientIP userAgent duration).map
        (fun l => (l.Request.length, l.Response.length)) =
      some (5 * n + 7, 5 * n + 7) := by
  have h1 : HasPrefix "/admin/api/users" "/admin/api/" = true := by decide
  have h2 : (("POST" : String) != "PUT" && ("POST" : String) != "DELETE" &&
      ("POST" : String) != "POST") = false := by decide
  have h3 : ¬ (onesArray n).length > maxOperationLogSize := by
    rw [onesArray_length]
    omega
  have hreq : OperationLogMiddleware.requestBody (some (onesArray n)) = onesArray n := by
    unfold OperationLogMiddleware.requestBody
    simp only [h3, if_false]
  have hresp : OperationLogMiddleware.responseBody (onesArray n) = onesArray n := by
    unfold OperationLogMiddleware.responseBody
    simp only [h3, if_false]
  unfold OperationLogMiddleware.operationLog
  simp only [h1, h2, hreq, hresp, formatJSON_onesArray, indentedOnes_length, Bool.not_true,
    Bool.false_eq_true, if_false, Option.map_some']

/-- C27 (failing input): a POST to /admin/api/users whose body is the JSON array of 25599
numerals 1, 51199 bytes and so within the limit of 51200, is stored untruncated after
`formatJSON` has indented it: the stored `Request` has 127997 bytes, more than the limit
plus the 14 bytes of the suffix and more than the 65535 bytes of a TEXT column; the same
holds for a response body.  Before `formatJSON` runs, both strings do respect the bound
for every body. -/
theorem C27_formatted_body_exceeds_limit :
    (onesArray 25598).length = 51199 ∧ maxOperationLogSize + 14 = 51214 ∧
      (OperationLogMiddleware.operationLog exampleJSONLib none "POST" "/admin/api/users"
          (some (onesArray 25598)) (onesArray 25598) "创建用户" 200 "127.0.0.1" "curl" 3).map
          (fun l => (l.Request.length, l.Response.length)) =
        some (127997, 127997) ∧
      (∀ bodyBytes, (OperationLogMiddleware.requestBody bodyBytes).length ≤
        maxOperationLogSize + 14) ∧
      (∀ written, (OperationLogMiddleware.responseBody written).length ≤
        maxOperationLogSize + 14) :=
  ⟨onesArray_length 25598, rfl,
    operationLog_onesArray 25598 (by decide) "创建用户" 200 "127.0.0.1" "curl" 3,
    requestBody_length_le, responseBody_length_le⟩

/-! ## The regular-expression stage on byte strings -/

theorem Utf8.contAt_some {lo hi : Nat} {s : List UInt8} {x : Nat} {r : List UInt8}
    (h : Utf8.contAt lo hi s = some (x, r)) :
    ∃ b, s = b :: r ∧ lo ≤ b.toNat ∧ b.toNat ≤ hi ∧ x = b.toNat % 64 := by
  cases s with
  | nil => simp [Utf8.contAt] at h
  | cons b rest =>
    by_cases hb : lo ≤ b.toNat ∧ b.toNat ≤ hi
    · have he : Utf8.contAt lo hi (b :: rest) = some (b.toNat % 64, rest) := if_pos hb
      rw [he] at h
      simp only [Option.some.injEq, Prod.mk.injEq] at h
      exact ⟨b, by rw [h.2], hb.1, hb.2, h.1.symm⟩
    · have he : Utf8.contAt lo hi (b :: rest) = none := if_neg hb
      rw [he] at h
      cases h

theorem Utf8.contAt_length {lo hi : Nat} {s : List UInt8} {x : Nat} {r : List UInt8}
    (h : Utf8.contAt lo hi s = some (x, r)) : r.length < s.length := by
  obtain ⟨b, hs, _⟩ := Utf8.contAt_some h
  rw [hs]
  simp

theorem Utf8.decodeStep_length (s0 : UInt8) (rest : List UInt8) :
    (Utf8.decodeStep s0 rest).2.2.length ≤ rest.length := by
  unfold Utf8.decodeStep
  split
  · exact Nat.le_refl _
  · split
    · split
      · rename_i h1
        exact Nat.le_of_lt (Utf8.contAt_length h1)
      · exact Nat.le_refl _
    · split
      · split
        · rename_i h1
          split
          · rename_i h2
            have := Utf8.contAt_length h1
            have := Utf8.contAt_length h2
            simp only
            omega
          · exact Nat.le_refl _
        · exact Nat.le_refl _
      · split
        · split
          · rename_i h1
            split
            · rename_i h2
              split
              · rename_i h3
                have := Utf8.contAt_length h1
                have := Utf8.contAt_length h2
                have := Utf8.contAt_length h3
                simp only
                omega
              · exact Nat.le_refl _
            · exact Nat.le_refl _
          · exact Nat.le_refl _
        · exact Nat.le_refl _

theorem Utf8.runesFuel_eq (f1 f2 : Nat) (s : List UInt8) (h1 : s.length ≤ f1)
    (h2 : s.length ≤ f2) : Utf8.runesFuel f1 s = Utf8.runesFuel f2 s := by
  induction f1 generalizing f2 s with
  | zero =>
    have hs : s = [] := List.length_eq_zero.mp (Nat.le_zero.mp h1)
    subst hs
    cases f2 <;> rfl
  | succ f1 ih =>
    cases s with
    | nil => cases f2 <;> rfl
    | cons s0 rest =>
      cases f2 with
      | zero => simp at h2
      | succ f2 =>
        have hl := Utf8.decodeStep_length s0 rest
        simp only [List.length_cons] at h1 h2
        rw [Utf8.runesFuel, Utf8.runesFuel, ih f2 _ (by omega) (by omega)]

/-- The runes of a non-empty string: its first rune, then the runes of what follows. -/
theorem Utf8.runes_cons (s0 : UInt8) (rest : List UInt8) :
    Utf8.runes (s0 :: rest) =
      ((Utf8.decodeStep s0 rest).1, (Utf8.decodeStep s0 rest).2.1) ::
        Utf8.runes (Utf8.decodeStep s0 rest).2.2 := by
  have hl := Utf8.decodeStep_length s0 rest
  unfold Utf8.runes
  rw [List.length_cons, Utf8.runesFuel,
    Utf8.runesFuel_eq rest.length _ _ hl (Nat.le_refl _)]

theorem Utf8.runes_nil : Utf8.runes [] = [] := rfl

/-- A change of the bytes after a leading byte that every continuation position sees
through (`T` commutes with `contAt` for ranges above 0x80) leaves the first rune and its
width as they are, and acts on what follows the rune. -/
theorem Utf8.decodeStep_map (T : List UInt8 → List UInt8)
    (hT : ∀ lo hi s, 0x80 ≤ lo →
      Utf8.contAt lo hi (T s) = (Utf8.contAt lo hi s).map (fun p => (p.1, T p.2)))
    (s0 : UInt8) (rest : List UInt8) :
    Utf8.decodeStep s0 (T rest) =
      ((Utf8.decodeStep s0 rest).1, (Utf8.decodeStep s0 rest).2.1,
        T (Utf8.decodeStep s0 rest).2.2) := by
  unfold Utf8.decodeStep
  by_cases h1 : s0.toNat < 0x80
  · simp only [h1, if_true]
  · simp only [h1, if_false]
    by_cases h2 : 0xC2 ≤ s0.toNat ∧ s0.toNat ≤ 0xDF
    · simp only [h2, and_self, if_true]
      rw [hT _ _ rest (by norm_num)]
      rcases Utf8.contAt 0x80 0xBF rest with _ | ⟨x1, r1⟩ <;> rfl
    · simp only [h2, if_false]
      by_cases h3 : 0xE0 ≤ s0.toNat ∧ s0.toNat ≤ 0xEF
      · simp only [h3, and_self, if_true]
        rw [hT _ _ rest (by split <;> norm_num)]
        rcases Utf8.contAt (if s0.toNat = 0xE0 then 0xA0 else 0x80)
          (if s0.toNat = 0xED then 0x9F else 0xBF) rest with _ | ⟨x1, r1⟩
        · rfl
        · simp only [Option.map_some']
          rw [hT _ _ r1 (by norm_num)]
          rcases Utf8.contAt 0x80 0xBF r1 with _ | ⟨x2, r2⟩ <;> rfl
      · simp only [h3, if_false]
        by_cases h4 : 0xF0 ≤ s0.toNat ∧ s0.toNat ≤ 0xF4
        · simp only [h4, and_self, if_true]
          rw [hT _ _ rest (by split <;> norm_num)]
          rcases Utf8.contAt (if s0.toNat = 0xF0 then 0x90 else 0x80)
            (if s0.toNat = 0xF4 then 0x8F else 0xBF) rest with _ | ⟨x1, r1⟩
          · rfl
          · simp only [Option.map_some']
            rw [hT _ _ r1 (by norm_num)]
            rcases Utf8.contAt 0x80 0xBF r1 with _ | ⟨x2, r2⟩
            · rfl
            · simp only [Option.map_some']
              rw [hT _ _ r2 (by norm_num)]
              rcases Utf8.contAt 0x80 0xBF r2 with _ | ⟨x3, r3⟩ <;> rfl
        · simp only [h4, if_false]

/-- The five outcomes of one decoding step: an ASCII byte, an invalid byte, or a
sequence of two, three or four bytes within the ranges of `utf8.DecodeRuneInString`. -/
theorem Utf8.decodeStep_cases (s0 : UInt8) (rest : List UInt8) :
    (s0.toNat < 0x80 ∧ Utf8.decodeStep s0 rest = (Char.ofNat s0.toNat, 1, rest)) ∨
    (0x80 ≤ s0.toNat ∧ Utf8.decodeStep s0 rest = (Utf8.RuneError, 1, rest)) ∨
    (∃ b1 r, rest = b1 :: r ∧ 0xC2 ≤ s0.toNat ∧ s0.toNat ≤ 0xDF ∧
      0x80 ≤ b1.toNat ∧ b1.toNat ≤ 0xBF ∧
      Utf8.decodeStep s0 rest =
        (Char.ofNat (s0.toNat % 32 * 64 + b1.toNat % 64), 2, r)) ∨
    (∃ b1 b2 r, rest = b1 :: b2 :: r ∧ 0xE0 ≤ s0.toNat ∧ s0.toNat ≤ 0xEF ∧
      (if s0.toNat = 0xE0 then 0xA0 else 0x80) ≤ b1.toNat ∧
      b1.toNat ≤ (if s0.toNat = 0xED then 0x9F else 0xBF) ∧
      0x80 ≤ b2.toNat ∧ b2.toNat ≤ 0xBF ∧
      Utf8.decodeStep s0 rest =
        (Char.ofNat (s0.toNat % 16 * 4096 + b1.toNat % 64 * 64 + b2.toNat % 64), 3, r)) ∨
    (∃ b1 b2 b3 r, rest = b1 :: b2 :: b3 :: r ∧ 0xF0 ≤ s0.toNat ∧ s0.toNat ≤ 0xF4 ∧
      (if s0.toNat = 0xF0 then 0x90 else 0x80) ≤ b1.toNat ∧
      b1.toNat ≤ (if s0.toNat = 0xF4 then 0x8F else 0xBF) ∧
      0x80 ≤ b2.toNat ∧ b2.toNat ≤ 0xBF ∧ 0x80 ≤ b3.toNat ∧ b3.toNat ≤ 0xBF ∧
      Utf8.decodeStep s0 rest =
        (Char.ofNat (s0.toNat % 8 * 262144 + b1.toNat % 64 * 4096 + b2.toNat % 64 * 64 +
          b3.toNat % 64), 4, r)) := by
  unfold Utf8.decodeStep
  by_cases h1 : s0.toNat < 0x80
  · left
    exact ⟨h1, by simp only [h1, if_true]⟩
  · right
    have hge : 0x80 ≤ s0.toNat := by omega
    simp only [h1, if_false]
    by_cases h2 : 0xC2 ≤ s0.toNat ∧ s0.toNat ≤ 0xDF
    · simp only [h2, and_self, if_true]
      rcases hc1 : Utf8.contAt 0x80 0xBF rest with _ | ⟨x1, r1⟩
      · left
        exact ⟨hge, rfl⟩
      · right; left
        obtain ⟨b1, hs, hlo, hhi, hx⟩ := Utf8.contAt_some hc1
        exact ⟨b1, r1, hs, trivial, trivial, hlo, hhi, by rw [hx]⟩
    · simp only [h2, if_false]
      by_cases h3 : 0xE0 ≤ s0.toNat ∧ s0.toNat ≤ 0xEF
      · simp only [h3, and_self, if_true]
        rcases hc1 : Utf8.contAt (if s0.toNat = 0xE0 then 0xA0 else 0x80)
          (if s0.toNat = 0xED then 0x9F else 0xBF) rest with _ | ⟨x1, r1⟩
        · left
          exact ⟨hge, rfl⟩
        · obtain ⟨b1, hs1, hlo1, hhi1, hx1⟩ := Utf8.contAt_some hc1
          simp only []
          rcases hc2 : Utf8.contAt 0x80 0xBF r1 with _ | ⟨x2, r2⟩
          · left
            exact ⟨hge, rfl⟩
          · right; right; left
            obtain ⟨b2, hs2, hlo2, hhi2, hx2⟩ := Utf8.contAt_some hc2
            exact ⟨b1, b2, r2, by rw [hs1, hs2], trivial, trivial, hlo1, hhi1, hlo2, hhi2,
              by rw [hx1, hx2]⟩
      · simp only [h3, if_false]
        by_cases h4 : 0xF0 ≤ s0.toNat ∧ s0.toNat ≤ 0xF4
        · simp only [h4, and_self, if_true]
          rcases hc1 : Utf8.contAt (if s0.toNat = 0xF0 then 0x90 else 0x80)
            (if s0.toNat = 0xF4 then 0x8F else 0xBF) rest with _ | ⟨x1, r1⟩
          · left
            exact ⟨hge, rfl⟩
          · obtain ⟨b1, hs1, hlo1, hhi1, hx1⟩ := Utf8.contAt_some hc1
            simp only []
            rcases hc2 : Utf8.contAt 0x80 0xBF r1 with _ | ⟨x2, r2⟩
            · left
              exact ⟨hge, rfl⟩
            · obtain ⟨b2, hs2, hlo2, hhi2, hx2⟩ := Utf8.contAt_some hc2
              simp only []
              rcases hc3 : Utf8.contAt 0x80 0xBF r2 with _ | ⟨x3, r3⟩
              · left
                exact ⟨hge, rfl⟩
              · right; right; right
                obtain ⟨b3, hs3, hlo3, hhi3, hx3⟩ := Utf8.contAt_some hc3
                exact ⟨b1, b2, b3, r3, by rw [hs1, hs2, hs3], trivial, trivial, hlo1, hhi1,
                  hlo2, hhi2, hlo3, hhi3, by rw [hx1, hx2, hx3]⟩
        · simp only [h4, if_false]
          left
          exact ⟨hge, trivial⟩

theorem Utf8.toNat_ofNat (n : Nat) (h : n < 0xD800 ∨ (0xDFFF < n ∧ n < 0x110000)) :
    (Char.ofNat n).toNat = n := by
  have hv : n.isValidChar := h
  unfold Char.ofNat
  rw [dif_pos hv]
  unfold Char.ofNatAux Char.toNat
  simp [UInt32.toNat]

theorem Utf8.ofNat_toNat_byte (b : UInt8) (k : Nat) (h : k = b.toNat) : UInt8.ofNat k = b := by
  subst h
  apply UInt8.ext
  exact UInt8.toNat_ofNat_of_lt (UInt8.toNat_lt_size b)

/-- A decoding step that does not meet an invalid byte consumes exactly the encoding of
the rune it yields. -/
theorem Utf8.decodeStep_encode (s0 : UInt8) (rest : List UInt8)
    (hvalid : ¬ ((Utf8.decodeStep s0 rest).1 = Utf8.RuneError ∧
      (Utf8.decodeStep s0 rest).2.1 = 1)) :
    s0 :: rest =
      Utf8.EncodeRune (Utf8.decodeStep s0 rest).1 ++ (Utf8.decodeStep s0 rest).2.2 := by
  rcases Utf8.decodeStep_cases s0 rest with ⟨h0, hs⟩ | ⟨_, hs⟩ |
    ⟨b1, r, hr, h1, h2, h3, h4, hs⟩ | ⟨b1, b2, r, hr, h1, h2, h3, h4, h5, h6, hs⟩ |
    ⟨b1, b2, b3, r, hr, h1, h2, h3, h4, h5, h6, h7, h8, hs⟩
  · rw [hs]
    have hn := Utf8.toNat_ofNat s0.toNat (Or.inl (by omega))
    simp only [Utf8.EncodeRune, hn, h0, if_true, List.singleton_append, List.cons.injEq,
      and_true]
    exact (Utf8.ofNat_toNat_byte s0 _ rfl).symm
  · rw [hs] at hvalid
    exact absurd ⟨rfl, rfl⟩ hvalid
  · rw [hs, hr]
    have hn := Utf8.toNat_ofNat (s0.toNat % 32 * 64 + b1.toNat % 64) (Or.inl (by omega))
    have c1 : ¬ s0.toNat % 32 * 64 + b1.toNat % 64 < 0x80 := by omega
    have c2 : s0.toNat % 32 * 64 + b1.toNat % 64 < 0x800 := by omega
    simp only [Utf8.EncodeRune, hn, c1, c2, if_true, if_false, List.cons_append,
      List.nil_append, List.cons.injEq, and_true]
    exact ⟨(Utf8.ofNat_toNat_byte s0 _ (by omega)).symm,
      (Utf8.ofNat_toNat_byte b1 _ (by omega)).symm⟩
  · rw [hs, hr]
    have hb : s0.toNat % 16 * 4096 + b1.toNat % 64 * 64 + b2.toNat % 64 < 0xD800 ∨
        (0xDFFF < s0.toNat % 16 * 4096 + b1.toNat % 64 * 64 + b2.toNat % 64 ∧
          s0.toNat % 16 * 4096 + b1.toNat % 64 * 64 + b2.toNat % 64 < 0x110000) := by
      split at h3 <;> split at h4 <;> omega
    have hn := Utf8.toNat_ofNat _ hb
    have c1 : ¬ s0.toNat % 16 * 4096 + b1.toNat % 64 * 64 + b2.toNat % 64 < 0x80 := by
      split at h3 <;> split at h4 <;> omega
    have c2 : ¬ s0.toNat % 16 * 4096 + b1.toNat % 64 * 64 + b2.toNat % 64 < 0x800 := by
      split at h3 <;> split at h4 <;> omega
    have c3 : s0.toNat % 16 * 4096 + b1.toNat % 64 * 64 + b2.toNat % 64 < 0x10000 := by
      split at h3 <;> split at h4 <;> omega
    simp only [Utf8.EncodeRune, hn, c1, c2, c3, if_true, if_false, List.cons_append,
      List.nil_append, List.cons.injEq, and_true]
    refine ⟨(Utf8.ofNat_toNat_byte s0 _ ?_).symm, (Utf8.ofNat_toNat_byte b1 _ ?_).symm,
      (Utf8.ofNat_toNat_byte b2 _ ?_).symm⟩ <;>
      split at h3 <;> split at h4 <;> omega
  · rw [hs, hr]
    have hb : s0.toNat % 8 * 262144 + b1.toNat % 64 * 4096 + b2.toNat % 64 * 64 +
          b3.toNat % 64 < 0xD800 ∨
        (0xDFFF < s0.toNat % 8 * 262144 + b1.toNat % 64 * 4096 + b2.toNat % 64 * 64 +
            b3.toNat % 64 ∧
          s0.toNat % 8 * 262144 + b1.toNat % 64 * 4096 + b2.toNat % 64 * 64 +
            b3.toNat % 64 < 0x110000) := by
      split at h3 <;> split at h4 <;> omega
    have hn := Utf8.toNat_ofNat _ hb
    have c3 : ¬ s0.toNat % 8 * 262144 + b1.toNat % 64 * 4096 + b2.toNat % 64 * 64 +
        b3.toNat % 64 < 0x10000 := by
      split at h3 <;> split at h4 <;> omega
    have c1 : ¬ s0.toNat % 8 * 262144 + b1.toNat % 64 * 4096 + b2.toNat % 64 * 64 +
        b3.toNat % 64 < 0x80 := by omega
    have c2 : ¬ s0.toNat % 8 * 262144 + b1.toNat % 64 * 4096 + b2.toNat % 64 * 64 +
        b3.toNat % 64 < 0x800 := by omega
    simp only [Utf8.EncodeRune, hn, c1, c2, c3, if_false, List.cons_append,
      List.nil_append, List.cons.injEq, and_true]
    refine ⟨(Utf8.ofNat_toNat_byte s0 _ ?_).symm, (Utf8.ofNat_toNat_byte b1 _ ?_).symm,
      (Utf8.ofNat_toNat_byte b2 _ ?_).symm, (Utf8.ofNat_toNat_byte b3 _ ?_).symm⟩ <;>
      split at h3 <;> split at h4 <;> omega

theorem Regexp.special_toNat_lt {c : Char} (h : Regexp.special c = true) : c.toNat < 0x80 := by
  have := Regexp.special_escapable h
  simp only [Bool.and_eq_true, decide_eq_true_eq] at this
  exact this.1

theorem Utf8.RuneError_toNat : Utf8.RuneError.toNat = 0xFFFD := by decide

/-- The rune of a step that starts with a byte from 0x80 on is not an ASCII character. -/
theorem Utf8.decodeStep_toNat_ge (s0 : UInt8) (rest : List UInt8) (h : 0x80 ≤ s0.toNat) :
    0x80 ≤ (Utf8.decodeStep s0 rest).1.toNat := by
  rcases Utf8.decodeStep_cases s0 rest with ⟨h0, hs⟩ | ⟨_, hs⟩ |
    ⟨b1, r, hr, h1, h2, h3, h4, hs⟩ | ⟨b1, b2, r, hr, h1, h2, h3, h4, h5, h6, hs⟩ |
    ⟨b1, b2, b3, r, hr, h1, h2, h3, h4, h5, h6, h7, h8, hs⟩
  · omega
  · rw [hs, Utf8.RuneError_toNat]
    omega
  · rw [hs]
    simp only []
    rw [Utf8.toNat_ofNat _ (Or.inl (by omega))]
    omega
  · rw [hs]
    simp only []
    rw [Utf8.toNat_ofNat _ (by split at h3 <;> split at h4 <;> omega)]
    split at h3 <;> split at h4 <;> omega
  · rw [hs]
    simp only []
    rw [Utf8.toNat_ofNat _ (by split at h3 <;> split at h4 <;> omega)]
    split at h3 <;> split at h4 <;> omega

theorem Utf8.decodeStep_ascii (s0 : UInt8) (rest : List UInt8) (h : s0.toNat < 0x80) :
    Utf8.decodeStep s0 rest = (Char.ofNat s0.toNat, 1, rest) := by
  unfold Utf8.decodeStep
  simp only [h, if_true]

/-- The first rune of a string is one of the characters `QuoteMeta` escapes exactly when
the first byte is. -/
theorem Bytes.special_decodeStep (s0 : UInt8) (rest : List UInt8) :
    Regexp.special (Utf8.decodeStep s0 rest).1 = Bytes.special s0 := by
  unfold Bytes.special
  by_cases h : s0.toNat < 0x80
  · rw [Utf8.decodeStep_ascii s0 rest h]
    simp [h]
  · have hge := Utf8.decodeStep_toNat_ge s0 rest (by omega)
    have hf : Regexp.special (Utf8.decodeStep s0 rest).1 = false := by
      rw [Bool.eq_false_iff]
      intro hs
      have := Regexp.special_toNat_lt hs
      omega
    simp [h, hf]

theorem Bytes.contAt_QuoteMeta (lo hi : Nat) (s : List UInt8) (hlo : 0x80 ≤ lo) :
    Utf8.contAt lo hi (Bytes.QuoteMeta s) =
      (Utf8.contAt lo hi s).map (fun p => (p.1, Bytes.QuoteMeta p.2)) := by
  cases s with
  | nil => rfl
  | cons b rest =>
    have hq : Bytes.QuoteMeta (b :: rest) =
        if Bytes.special b then 92 :: b :: Bytes.QuoteMeta rest
        else b :: Bytes.QuoteMeta rest := rfl
    rw [hq]
    by_cases hs : Bytes.special b = true
    · have hb : b.toNat < 0x80 := by
        unfold Bytes.special at hs
        simp only [Bool.and_eq_true, decide_eq_true_eq] at hs
        exact hs.1
      have h92 : ¬ (lo ≤ (92 : UInt8).toNat ∧ (92 : UInt8).toNat ≤ hi) := by
        have : (92 : UInt8).toNat = 92 := by decide
        rw [this]
        omega
      have hnb : ¬ (lo ≤ b.toNat ∧ b.toNat ≤ hi) := by omega
      simp only [hs, if_true, Utf8.contAt, h92, hnb, if_false, Option.map_none']
    · simp only [hs, if_false, Utf8.contAt, Bool.false_eq_true]
      split <;> rfl

theorem Bytes.contAt_append (lo hi : Nat) (s z : List UInt8) (hlo : 0x80 ≤ lo)
    (hz : ∀ a ∈ z.head?, a.toNat < 0x80) :
    Utf8.contAt lo hi (s ++ z) =
      (Utf8.contAt lo hi s).map (fun p => (p.1, p.2 ++ z)) := by
  cases s with
  | nil =>
    cases z with
    | nil => rfl
    | cons a y =>
      have ha := hz a (by simp)
      have hna : ¬ (lo ≤ a.toNat ∧ a.toNat ≤ hi) := by omega
      simp only [List.nil_append, Utf8.contAt, hna, if_false, Option.map_none']
  | cons b rest =>
    simp only [List.cons_append, Utf8.contAt]
    split <;> rfl

theorem Utf8.decode_cons (s0 : UInt8) (rest : List UInt8) :
    Utf8.decode (s0 :: rest) =
      (Utf8.decodeStep s0 rest).1 :: Utf8.decode (Utf8.decodeStep s0 rest).2.2 := by
  unfold Utf8.decode
  rw [Utf8.runes_cons, List.map_cons]

theorem Utf8.Valid_cons (s0 : UInt8) (rest : List UInt8) :
    Utf8.Valid (s0 :: rest) =
      (!((Utf8.decodeStep s0 rest).1 == Utf8.RuneError && (Utf8.decodeStep s0 rest).2.1 == 1) &&
        Utf8.Valid (Utf8.decodeStep s0 rest).2.2) := by
  unfold Utf8.Valid
  rw [Utf8.runes_cons, List.all_cons]

theorem Utf8.runes_append_aux (z : List UInt8) (hz : ∀ a ∈ z.head?, a.toNat < 0x80) :
    ∀ (n : Nat) (s : List UInt8), s.length ≤ n →
      Utf8.runes (s ++ z) = Utf8.runes s ++ Utf8.runes z := by
  intro n
  induction n with
  | zero =>
    intro s hs
    have : s = [] := List.length_eq_zero.mp (Nat.le_zero.mp hs)
    subst this
    rfl
  | succ n ih =>
    intro s hs
    cases s with
    | nil => rfl
    | cons s0 rest =>
      have hl := Utf8.decodeStep_length s0 rest
      simp only [List.length_cons] at hs
      rw [List.cons_append, Utf8.runes_cons, Utf8.runes_cons,
        Utf8.decodeStep_map (fun s => s ++ z)
          (fun lo hi s hlo => Bytes.contAt_append lo hi s z hlo hz) s0 rest]
      simp only []
      rw [ih _ (by omega), List.cons_append]

/-- Reading runes goes through a concatenation whose second part is empty or starts
with an ASCII byte. -/
theorem Utf8.runes_append (s z : List UInt8) (hz : ∀ a ∈ z.head?, a.toNat < 0x80) :
    Utf8.runes (s ++ z) = Utf8.runes s ++ Utf8.runes z :=
  Utf8.runes_append_aux z hz s.length s (Nat.le_refl _)

theorem Utf8.decode_append (s z : List UInt8) (hz : ∀ a ∈ z.head?, a.toNat < 0x80) :
    Utf8.decode (s ++ z) = Utf8.decode s ++ Utf8.decode z := by
  unfold Utf8.decode
  rw [Utf8.runes_append s z hz, List.map_append]

theorem Utf8.Valid_append (s z : List UInt8) (hz : ∀ a ∈ z.head?, a.toNat < 0x80) :
    Utf8.Valid (s ++ z) = (Utf8.Valid s && Utf8.Valid z) := by
  unfold Utf8.Valid
  rw [Utf8.runes_append s z hz, List.all_append]

theorem Bytes.QuoteMeta_runes_aux :
    ∀ (n : Nat) (s : List UInt8), s.length ≤ n →
      Utf8.decode (Bytes.QuoteMeta s) = Regexp.QuoteMeta (Utf8.decode s) ∧
        Utf8.Valid (Bytes.QuoteMeta s) = Utf8.Valid s := by
  intro n
  induction n with
  | zero =>
    intro s hs
    have : s = [] := List.length_eq_zero.mp (Nat.le_zero.mp hs)
    subst this
    exact ⟨rfl, rfl⟩
  | succ n ih =>
    intro s hs
    cases s with
    | nil => exact ⟨rfl, rfl⟩
    | cons s0 rest =>
      have hl := Utf8.decodeStep_length s0 rest
      simp only [List.length_cons] at hs
      obtain ⟨ihd, ihv⟩ := ih (Utf8.decodeStep s0 rest).2.2 (by omega)
      have hstep := Utf8.decodeStep_map Bytes.QuoteMeta
        (fun lo hi s hlo => Bytes.contAt_QuoteMeta lo hi s hlo) s0 rest
      have hsp := Bytes.special_decodeStep s0 rest
      have hd : Utf8.decode (s0 :: Bytes.QuoteMeta rest) =
          (Utf8.decodeStep s0 rest).1 ::
            Regexp.QuoteMeta (Utf8.decode (Utf8.decodeStep s0 rest).2.2) := by
        rw [Utf8.decode_cons, hstep]
        simp only []
        rw [ihd]
      have hv : Utf8.Valid (s0 :: Bytes.QuoteMeta rest) = Utf8.Valid (s0 :: rest) := by
        rw [Utf8.Valid_cons, Utf8.Valid_cons, hstep]
        simp only []
        rw [ihv]
      have hq : Bytes.QuoteMeta (s0 :: rest) =
          if Bytes.special s0 then 92 :: s0 :: Bytes.QuoteMeta rest
          else s0 :: Bytes.QuoteMeta rest := rfl
      have h92 : ∀ y, Utf8.decodeStep 92 y = ('\\', 1, y) := fun y => by
        rw [Utf8.decodeStep_ascii 92 y (by decide)]
        rfl
      rw [hq, Utf8.decode_cons s0 rest, Regexp.QuoteMeta, hsp]
      by_cases hs0 : Bytes.special s0 = true
      · simp only [hs0, if_true]
        refine ⟨?_, ?_⟩
        · rw [Utf8.decode_cons, h92, hd]
        · rw [Utf8.Valid_cons, h92, hv]
          simp only []
          have : (('\\' : Char) == Utf8.RuneError) = false := by decide
          simp [this]
      · simp only [hs0, if_false, Bool.false_eq_true]
        exact ⟨hd, hv⟩

/-- Quoting the bytes and then reading the runes gives the quoted runes. -/
theorem Bytes.decode_QuoteMeta (s : List UInt8) :
    Utf8.decode (Bytes.QuoteMeta s) = Regexp.QuoteMeta (Utf8.decode s) :=
  (Bytes.QuoteMeta_runes_aux s.length s (Nat.le_refl _)).1

/-- Quoting neither removes nor introduces invalid bytes. -/
theorem Bytes.Valid_QuoteMeta (s : List UInt8) :
    Utf8.Valid (Bytes.QuoteMeta s) = Utf8.Valid s :=
  (Bytes.QuoteMeta_runes_aux s.length s (Nat.le_refl _)).2

theorem Bytes.special_ne_w_bytes {b : UInt8} (h : Bytes.special b = true) : b ≠ 119 := by
  rintro rfl
  revert h
  decide

theorem Bytes.QuoteMeta_not_backslash_w_bytes (p rest : List UInt8) :
    Bytes.QuoteMeta p ≠ 92 :: 119 :: rest := by
  cases p with
  | nil => simp [Bytes.QuoteMeta]
  | cons c p =>
    have hq : Bytes.QuoteMeta (c :: p) =
        if Bytes.special c then 92 :: c :: Bytes.QuoteMeta p
        else c :: Bytes.QuoteMeta p := rfl
    rw [hq]
    split
    · rename_i h
      intro heq
      simp only [List.cons.injEq] at heq
      exact Bytes.special_ne_w_bytes h heq.2.1
    · rename_i h
      intro heq
      simp only [List.cons.injEq] at heq
      rw [heq.1] at h
      exact h (by decide)

theorem Bytes.replaceAllParams_cons_of_ne_bytes {x : UInt8} (hx : x ≠ 58) (l : List UInt8) :
    Bytes.replaceAllParams false (x :: l) = x :: Bytes.replaceAllParams false l := by
  match l with
  | [] => simp [Bytes.replaceAllParams]
  | [b] => simp [Bytes.replaceAllParams]
  | b :: w :: rest => simp [Bytes.replaceAllParams, hx]

theorem Bytes.replaceAllParams_cons_QuoteMeta_bytes (x : UInt8) (p : List UInt8) :
    Bytes.replaceAllParams false (x :: Bytes.QuoteMeta p) =
      x :: Bytes.replaceAllParams false (Bytes.QuoteMeta p) := by
  have h := Bytes.QuoteMeta_not_backslash_w_bytes p
  generalize Bytes.QuoteMeta p = l at h
  match l, h with
  | [], _ => simp [Bytes.replaceAllParams]
  | [b], _ => simp [Bytes.replaceAllParams]
  | b :: w :: rest, h =>
    have hbw : ¬ (b = 92 ∧ w = 119) := by
      rintro ⟨rfl, rfl⟩
      exact h rest rfl
    simp only [Bytes.replaceAllParams, Bool.false_and, Bool.false_eq_true, if_false]
    have : (x == 58 && b == 92 && w == 119) = false := by
      simp only [Bool.and_eq_false_imp, Bool.and_eq_true, beq_iff_eq, beq_eq_false_iff_ne]
      rintro ⟨_, hb⟩ hw
      exact hbw ⟨hb, hw⟩
    simp [this]

/-- On bytes too the substitution of `matchPermission` never fires on quoted text. -/
theorem Bytes.replaceAllParams_QuoteMeta_bytes (p : List UInt8) :
    Bytes.replaceAllParams false (Bytes.QuoteMeta p) = Bytes.QuoteMeta p := by
  induction p with
  | nil => simp [Bytes.QuoteMeta, Bytes.replaceAllParams]
  | cons c p ih =>
    have hq : Bytes.QuoteMeta (c :: p) =
        if Bytes.special c then 92 :: c :: Bytes.QuoteMeta p
        else c :: Bytes.QuoteMeta p := rfl
    rw [hq]
    split
    · rw [Bytes.replaceAllParams_cons_of_ne_bytes (by decide), Bytes.replaceAllParams_cons_QuoteMeta_bytes,
        ih]
    · rw [Bytes.replaceAllParams_cons_QuoteMeta_bytes, ih]

/-- The anchored pattern `matchPermission` builds compiles exactly when the permission
path is valid UTF-8, and then to the literal runes of the path. -/
theorem Bytes.Compile_QuoteMeta_bytes (p : List UInt8) :
    Bytes.Compile (94 :: Bytes.replaceAllParams false (Bytes.QuoteMeta p) ++ [36]) =
      if Utf8.Valid p then some ((Utf8.decode p).map Regexp.Atom.lit) else none := by
  rw [Bytes.replaceAllParams_QuoteMeta_bytes]
  have h94 : ∀ y, Utf8.decodeStep 94 y = ('^', 1, y) := fun y => by
    rw [Utf8.decodeStep_ascii 94 y (by decide)]
    rfl
  have hz : ∀ a ∈ ([36] : List UInt8).head?, a.toNat < 0x80 := by
    intro a ha
    simp only [List.head?_cons, Option.mem_def, Option.some.injEq] at ha
    subst ha
    decide
  have hv : Utf8.Valid (94 :: Bytes.QuoteMeta p ++ [36]) = Utf8.Valid p := by
    rw [List.cons_append, Utf8.Valid_cons, h94]
    simp only []
    rw [Utf8.Valid_append _ _ hz, Bytes.Valid_QuoteMeta]
    have h1 : (('^' : Char) == Utf8.RuneError) = false := by decide
    have h2 : Utf8.Valid [36] = true := by decide
    simp [h1, h2]
  have hd : Utf8.decode (94 :: Bytes.QuoteMeta p ++ [36]) =
      '^' :: Regexp.replaceAllParams false (Regexp.QuoteMeta (Utf8.decode p)) ++ ['$'] := by
    rw [List.cons_append, Utf8.decode_cons, h94]
    simp only []
    rw [Utf8.decode_append _ _ hz, Bytes.decode_QuoteMeta, Regexp.replaceAllParams_QuoteMeta]
    have h3 : Utf8.decode [36] = ['$'] := by decide
    rw [h3]
    rfl
  unfold Bytes.Compile
  rw [hv, hd, Regexp.Compile_QuoteMeta]

/-- The function `matchPermission` on bytes, in closed form: the methods are equal
under case folding and the paths are equal, or the trailing wildcard applies, or the
permission path is valid UTF-8 and the request path reads as the same runes. -/
theorem Bytes.matchPermission_eq_bytes (fold : Char → Char) (P m R m2 : List UInt8) :
    Bytes.matchPermission fold P m R m2 =
      (Bytes.EqualFold fold m m2 &&
        (P == R ||
          (Bytes.HasSuffix P [47, 42] &&
            Bytes.HasPrefix R (Bytes.TrimSuffix P [47, 42] ++ [47])) ||
          (Utf8.Valid P && Utf8.decode R == Utf8.decode P))) := by
  unfold Bytes.matchPermission
  simp only []
  rw [Bytes.Compile_QuoteMeta_bytes]
  by_cases hm : Bytes.EqualFold fold m m2 = true
  · by_cases hp : (P == R) = true
    · simp [hm, hp]
    · by_cases hw : (Bytes.HasSuffix P [47, 42] &&
          Bytes.HasPrefix R (Bytes.TrimSuffix P [47, 42] ++ [47])) = true
      · simp [hm, hp, hw]
      · by_cases hv : Utf8.Valid P = true
        · simp only [hm, hp, hw, hv, Bool.not_true, Bool.false_eq_true, if_false, if_true,
            Bytes.MatchString, Regexp.MatchString_lits, Bool.true_and, Bool.false_or]
          by_cases hd : Utf8.decode P = Utf8.decode R
          · simp [hd]
          · have hd2 : ¬ Utf8.decode R = Utf8.decode P := fun e => hd e.symm
            simp [hd, hd2]
        · simp [hm, hp, hw, hv]
  · simp [hm]

theorem Utf8.encode_decode_aux :
    ∀ (n : Nat) (s : List UInt8), s.length ≤ n → Utf8.Valid s = true →
      Utf8.encode (Utf8.decode s) = s := by
  intro n
  induction n with
  | zero =>
    intro s hs _
    have : s = [] := List.length_eq_zero.mp (Nat.le_zero.mp hs)
    subst this
    rfl
  | succ n ih =>
    intro s hs hv
    cases s with
    | nil => rfl
    | cons s0 rest =>
      have hl := Utf8.decodeStep_length s0 rest
      simp only [List.length_cons] at hs
      rw [Utf8.Valid_cons] at hv
      simp only [Bool.and_eq_true, Bool.not_eq_true', Bool.and_eq_false_imp, beq_iff_eq,
        beq_eq_false_iff_ne] at hv
      have hstep : ¬ ((Utf8.decodeStep s0 rest).1 = Utf8.RuneError ∧
          (Utf8.decodeStep s0 rest).2.1 = 1) := fun h => hv.1 h.1 h.2
      rw [Utf8.decode_cons, Utf8.encode, ih _ (by omega) hv.2]
      exact (Utf8.decodeStep_encode s0 rest hstep).symm

/-- A valid UTF-8 string is the encoding of its runes. -/
theorem Utf8.encode_decode (s : List UInt8) (h : Utf8.Valid s = true) :
    Utf8.encode (Utf8.decode s) = s :=
  Utf8.encode_decode_aux s.length s (Nat.le_refl _) h

/-- Two valid UTF-8 strings with the same runes are the same bytes. -/
theorem Utf8.decode_injective (s t : List UInt8) (hs : Utf8.Valid s = true)
    (ht : Utf8.Valid t = true) (h : Utf8.decode s = Utf8.decode t) : s = t := by
  rw [← Utf8.encode_decode s hs, ← Utf8.encode_decode t ht, h]

/-! ## C29: the regular-expression stage, on the bytes of the paths -/

/-- C29 (counterexample): the permission path "/a" followed by the rune U+FFFD, the
request path "/a" followed by the byte 0xFF (sent as "/a%FF"), both with method GET:
the paths differ and the permission path has no trailing "/*", so the formula of the
claim gives false, yet `matchPermission` returns true, because the anchored pattern is
matched against the runes of the request path and the invalid byte reads as U+FFFD. -/
theorem C29_counterexample_invalid_byte :
    exampleReplacementPath = Bytes.ofString "/a\uFFFD" ∧
      exampleInvalidPath = Bytes.ofString "/a" ++ [0xFF] ∧
      exampleGET = Bytes.ofString "GET" ∧
      Bytes.matchPermission foldASCII exampleReplacementPath exampleGET exampleInvalidPath
        exampleGET = true ∧
      (Bytes.EqualFold foldASCII exampleGET exampleGET &&
        (exampleReplacementPath == exampleInvalidPath ||
          (Bytes.HasSuffix exampleReplacementPath (Bytes.ofString "/*") &&
            Bytes.HasPrefix exampleInvalidPath
              (Bytes.TrimSuffix exampleReplacementPath (Bytes.ofString "/*") ++
                Bytes.ofString "/")))) = false := by
  decide

/-- C29 (amended): for all Go strings, as bytes, `matchPermission(P, m, R, m')` equals
`EqualFold(m, m')` and (`P == R`, or `P` ends with "/*" and `R` starts with
`TrimSuffix(P, "/*") + "/"`, or `P` is valid UTF-8 and `R`, each of its invalid bytes
read as U+FFFD, has the runes of `P`).  The replacement of `:\\w+` leaves every quoted
permission path unchanged, and the anchored pattern compiles exactly when `P` is valid
UTF-8, to the literal runes of `P`.  When `R` is valid UTF-8 the last alternative holds
for `R == P` only, so the regular-expression stage adds no match. -/
theorem C29_regex_stage_on_bytes (fold : Char → Char) (P m R m2 : List UInt8) :
    Bytes.matchPermission fold P m R m2 =
        (Bytes.EqualFold fold m m2 &&
          (P == R ||
            (Bytes.HasSuffix P [47, 42] &&
              Bytes.HasPrefix R (Bytes.TrimSuffix P [47, 42] ++ [47])) ||
            (Utf8.Valid P && Utf8.decode R == Utf8.decode P))) ∧
      Bytes.replaceAllParams false (Bytes.QuoteMeta P) = Bytes.QuoteMeta P ∧
      Bytes.Compile (94 :: Bytes.replaceAllParams false (Bytes.QuoteMeta P) ++ [36]) =
        (if Utf8.Valid P then some ((Utf8.decode P).map Regexp.Atom.lit) else none) ∧
      (Utf8.Valid R = true →
        Bytes.matchPermission fold P m R m2 =
          (Bytes.EqualFold fold m m2 &&
            (P == R ||
              (Bytes.HasSuffix P [47, 42] &&
                Bytes.HasPrefix R (Bytes.TrimSuffix P [47, 42] ++ [47]))))) := by
  refine ⟨Bytes.matchPermission_eq_bytes fold P m R m2, Bytes.replaceAllParams_QuoteMeta_bytes P,
    Bytes.Compile_QuoteMeta_bytes P, ?_⟩
  intro hR
  rw [Bytes.matchPermission_eq_bytes]
  by_cases h3 : (Utf8.Valid P && Utf8.decode R == Utf8.decode P) = true
  · simp only [Bool.and_eq_true, beq_iff_eq] at h3
    have hPR : P = R := (Utf8.decode_injective R P hR h3.1 h3.2).symm
    subst hPR
    simp
  · have h3f : (Utf8.Valid P && Utf8.decode R == Utf8.decode P) = false := by
      simpa using h3
    rw [h3f, Bool.or_false]

/-- Witness of C29 (amended): the permission path "/admin/api/users/:id" against the
valid request path "/admin/api/users/1": no match. -/
theorem C29_regex_stage_on_bytes_witness :
    Bytes.matchPermission foldASCII (Bytes.ofString "/admin/api/users/:id") exampleGET
        (Bytes.ofString "/admin/api/users/1") exampleGET =
      (Bytes.EqualFold foldASCII exampleGET exampleGET &&
        (Bytes.ofString "/admin/api/users/:id" == Bytes.ofString "/admin/api/users/1" ||
          (Bytes.HasSuffix (Bytes.ofString "/admin/api/users/:id") [47, 42] &&
            Bytes.HasPrefix (Bytes.ofString "/admin/api/users/1")
              (Bytes.TrimSuffix (Bytes.ofString "/admin/api/users/:id") [47, 42] ++ [47])))) :=
  (C29_regex_stage_on_bytes foldASCII (Bytes.ofString "/admin/api/users/:id") exampleGET
    (Bytes.ofString "/admin/api/users/1") exampleGET).2.2.2 (by decide)

/-! ## C7: the trailing wildcard, on the bytes of the paths -/

theorem Bytes.HasSuffix_append_bytes (q suffix : List UInt8) :
    Bytes.HasSuffix (q ++ suffix) suffix = true := by
  unfold Bytes.HasSuffix
  rw [List.isSuffixOf_iff_suffix]
  exact List.suffix_append _ _

theorem Bytes.TrimSuffix_append_bytes (q suffix : List UInt8) :
    Bytes.TrimSuffix (q ++ suffix) suffix = q := by
  unfold Bytes.TrimSuffix
  rw [Bytes.HasSuffix_append_bytes]
  simp

theorem Bytes.HasPrefix_iff_bytes (s p : List UInt8) : Bytes.HasPrefix s p = true ↔ p <+: s := by
  unfold Bytes.HasPrefix
  exact List.isPrefixOf_iff_prefix

/-- C7 (counterexample): the permission path "/a", U+FFFD, "/*" and the request path
"/a", the byte 0xFF, "/*" (sent as "/a%FF/*"), both with method GET: the request path
does not start with "/a", U+FFFD, "/", yet `matchPermission` returns true, because the
regular-expression stage reads the invalid byte of the request path as U+FFFD. -/
theorem C7_counterexample_invalid_byte :
    exampleReplacementPath = Bytes.ofString "/a\uFFFD" ∧
      exampleInvalidWildcardPath = Bytes.ofString "/a" ++ [0xFF] ++ Bytes.ofString "/*" ∧
      Bytes.EqualFold foldASCII exampleGET exampleGET = true ∧
      Bytes.matchPermission foldASCII (exampleReplacementPath ++ Bytes.ofString "/*")
        exampleGET exampleInvalidWildcardPath exampleGET = true ∧
      Bytes.HasPrefix exampleInvalidWildcardPath
        (exampleReplacementPath ++ Bytes.ofString "/") = false := by
  decide

/-- C7 (amended): for a permission path `Q + "/*"` and methods equal under case folding,
on Go strings as bytes: `matchPermission` is true exactly when the request path starts
with `Q + "/"`, or `Q` is valid UTF-8 and the request path, each of its invalid bytes
read as U+FFFD, has the runes of `Q + "/*"`; for a request path that is valid UTF-8 it
is true exactly when the request path starts with `Q + "/"`; it is false for the path
`Q` itself and true for `Q + "/1"` and `Q + "/1/2"`. -/
theorem C7_trailing_wildcard_on_bytes (fold : Char → Char) (Q m R m2 : List UInt8)
    (hm : Bytes.EqualFold fold m m2 = true) :
    (Bytes.matchPermission fold (Q ++ [47, 42]) m R m2 = true ↔
        Bytes.HasPrefix R (Q ++ [47]) = true ∨
          (Utf8.Valid Q = true ∧ Utf8.decode R = Utf8.decode Q ++ ['/', '*'])) ∧
      (Utf8.Valid R = true →
        (Bytes.matchPermission fold (Q ++ [47, 42]) m R m2 = true ↔
          Bytes.HasPrefix R (Q ++ [47]) = true)) ∧
      Bytes.matchPermission fold (Q ++ [47, 42]) m Q m2 = false ∧
      Bytes.matchPermission fold (Q ++ [47, 42]) m (Q ++ [47, 49]) m2 = true ∧
      Bytes.matchPermission fold (Q ++ [47, 42]) m (Q ++ [47, 49, 47, 50]) m2 = true := by
  have hz : ∀ a ∈ ([47, 42] : List UInt8).head?, a.toNat < 0x80 := by
    intro a ha
    simp only [List.head?_cons, Option.mem_def, Option.some.injEq] at ha
    subst ha
    decide
  have hvP : Utf8.Valid (Q ++ [47, 42]) = Utf8.Valid Q := by
    rw [Utf8.Valid_append _ _ hz]
    have : Utf8.Valid [47, 42] = true := by decide
    rw [this, Bool.and_true]
  have hdP : Utf8.decode (Q ++ [47, 42]) = Utf8.decode Q ++ ['/', '*'] := by
    rw [Utf8.decode_append _ _ hz]
    have : Utf8.decode [47, 42] = ['/', '*'] := by decide
    rw [this]
  have key : ∀ R : List UInt8,
      (Bytes.matchPermission fold (Q ++ [47, 42]) m R m2 = true ↔
        Bytes.HasPrefix R (Q ++ [47]) = true ∨
          (Utf8.Valid Q = true ∧ Utf8.decode R = Utf8.decode Q ++ ['/', '*'])) := by
    intro R
    rw [Bytes.matchPermission_eq_bytes, hm, Bytes.HasSuffix_append_bytes, Bytes.TrimSuffix_append_bytes, hvP, hdP]
    simp only [Bool.true_and, Bool.or_eq_true, Bool.and_eq_true, beq_iff_eq]
    constructor
    · rintro ((h | h) | h)
      · left
        subst h
        rw [Bytes.HasPrefix_iff_bytes]
        exact (List.prefix_append_right_inj _).mpr ⟨[42], rfl⟩
      · exact Or.inl h
      · exact Or.inr h
    · rintro (h | h)
      · exact Or.inl (Or.inr h)
      · exact Or.inr h
  have hpre : ∀ t : List UInt8, Bytes.HasPrefix (Q ++ 47 :: t) (Q ++ [47]) = true := by
    intro t
    rw [Bytes.HasPrefix_iff_bytes]
    exact (List.prefix_append_right_inj _).mpr ⟨t, rfl⟩
  refine ⟨key R, ?_, ?_, (key _).mpr (Or.inl (hpre [49])),
    (key _).mpr (Or.inl (hpre [49, 47, 50]))⟩
  · intro hR
    rw [key R]
    constructor
    · rintro (h | ⟨hQ, hd⟩)
      · exact h
      · have hRP : R = Q ++ [47, 42] :=
          Utf8.decode_injective R (Q ++ [47, 42]) hR (by rw [hvP, hQ]) (by rw [hd, hdP])
        rw [hRP]
        exact hpre [42]
    · exact Or.inl
  · rw [Bool.eq_false_iff]
    intro h
    rcases (key Q).mp h with h | ⟨_, hd⟩
    · rw [Bytes.HasPrefix_iff_bytes] at h
      have := h.length_le
      simp at this
    · have := congrArg List.length hd
      simp at this

/-- Witness of C7 (amended): the pattern "/admin/api/users/*" against
"/admin/api/users/1" and against "/admin/api/users", with the method GET. -/
theorem C7_trailing_wildcard_on_bytes_witness :
    Bytes.matchPermission foldASCII (Bytes.ofString "/admin/api/users" ++ [47, 42])
        exampleGET (Bytes.ofString "/admin/api/users/1") exampleGET = true ∧
      Bytes.matchPermission foldASCII (Bytes.ofString "/admin/api/users" ++ [47, 42])
        exampleGET (Bytes.ofString "/admin/api/users") exampleGET = false :=
  ⟨((C7_trailing_wildcard_on_bytes foldASCII (Bytes.ofString "/admin/api/users") exampleGET
      (Bytes.ofString "/admin/api/users/1") exampleGET (by decide)).2.1 (by decide)).mpr
      (by decide),
    (C7_trailing_wildcard_on_bytes foldASCII (Bytes.ofString "/admin/api/users") exampleGET
      (Bytes.ofString "/admin/api/users/1") exampleGET (by decide)).2.2.1⟩

/-! ## Lean strings as Go strings: the valid UTF-8 strings -/

theorem Utf8.contAt_cons_of_range {lo hi : Nat} {b : UInt8} (h1 : lo ≤ b.toNat)
    (h2 : b.toNat ≤ hi) (rest : List UInt8) :
    Utf8.contAt lo hi (b :: rest) = some (b.toNat % 64, rest) :=
  if_pos ⟨h1, h2⟩

theorem Utf8.toNat_ofNat_byte (k : Nat) (h : k < 256) : (UInt8.ofNat k).toNat = k :=
  UInt8.toNat_ofNat_of_lt h

theorem Utf8.char_valid (c : Char) :
    c.toNat < 0xD800 ∨ (0xDFFF < c.toNat ∧ c.toNat < 0x110000) := c.valid

/-- Decoding reads back the encoding of a rune, whatever bytes follow it. -/
theorem Utf8.decodeStep_EncodeRune (c : Char) (rest : List UInt8) :
    ∃ b0 tail, Utf8.EncodeRune c = b0 :: tail ∧
      Utf8.decodeStep b0 (tail ++ rest) = (c, (Utf8.EncodeRune c).length, rest) ∧
      ¬ (c = Utf8.RuneError ∧ (Utf8.EncodeRune c).length = 1) := by
  have hvalid := Utf8.char_valid c
  have hc : Char.ofNat c.toNat = c := Char.ofNat_toNat c
  by_cases h1 : c.toNat < 0x80
  · have he : Utf8.EncodeRune c = [UInt8.ofNat c.toNat] := by
      unfold Utf8.EncodeRune
      rw [if_pos h1]
    have hb := Utf8.toNat_ofNat_byte c.toNat (by omega)
    refine ⟨UInt8.ofNat c.toNat, [], he, ?_, ?_⟩
    · rw [he, Utf8.decodeStep_ascii _ _ (by omega), hb, hc]
      rfl
    · rintro ⟨hr, _⟩
      rw [hr, Utf8.RuneError_toNat] at h1
      omega
  · by_cases h2 : c.toNat < 0x800
    · have he : Utf8.EncodeRune c =
          [UInt8.ofNat (0xC0 + c.toNat / 64), UInt8.ofNat (0x80 + c.toNat % 64)] := by
        unfold Utf8.EncodeRune
        rw [if_neg h1, if_pos h2]
      have hb0 := Utf8.toNat_ofNat_byte (0xC0 + c.toNat / 64) (by omega)
      have hb1 := Utf8.toNat_ofNat_byte (0x80 + c.toNat % 64) (by omega)
      refine ⟨_, _, he, ?_, ?_⟩
      · unfold Utf8.decodeStep
        rw [if_neg (by omega), if_pos (by omega), List.cons_append,
          Utf8.contAt_cons_of_range (by omega) (by omega)]
        simp only [he, List.length_cons, List.length_nil, Prod.mk.injEq, and_true]
        rw [hb0, hb1]
        have : (0xC0 + c.toNat / 64) % 32 * 64 + (0x80 + c.toNat % 64) % 64 = c.toNat := by
          omega
        rw [this, hc]
        exact ⟨rfl, trivial, rfl⟩
      · rintro ⟨_, hl⟩
        rw [he] at hl
        simp at hl
    · by_cases h3 : c.toNat < 0x10000
      · have he : Utf8.EncodeRune c =
            [UInt8.ofNat (0xE0 + c.toNat / 4096), UInt8.ofNat (0x80 + c.toNat / 64 % 64),
              UInt8.ofNat (0x80 + c.toNat % 64)] := by
          unfold Utf8.EncodeRune
          rw [if_neg h1, if_neg h2, if_pos h3]
        have hb0 := Utf8.toNat_ofNat_byte (0xE0 + c.toNat / 4096) (by omega)
        have hb1 := Utf8.toNat_ofNat_byte (0x80 + c.toNat / 64 % 64) (by omega)
        have hb2 := Utf8.toNat_ofNat_byte (0x80 + c.toNat % 64) (by omega)
        refine ⟨_, _, he, ?_, ?_⟩
        · unfold Utf8.decodeStep
          rw [if_neg (by omega), if_neg (by omega), if_pos (by omega), List.cons_append,
            Utf8.contAt_cons_of_range (by rw [hb0, hb1]; split <;> omega)
              (by rw [hb0, hb1]; split <;> omega)]
          simp only [List.cons_append, List.nil_append]
          rw [Utf8.contAt_cons_of_range (by omega) (by omega)]
          simp only [he, List.length_cons, List.length_nil, Prod.mk.injEq, and_true]
          rw [hb0, hb1, hb2]
          have : (0xE0 + c.toNat / 4096) % 16 * 4096 + (0x80 + c.toNat / 64 % 64) % 64 * 64 +
              (0x80 + c.toNat % 64) % 64 = c.toNat := by omega
          rw [this, hc]
        · rintro ⟨_, hl⟩
          rw [he] at hl
          simp at hl
      · have he : Utf8.EncodeRune c =
            [UInt8.ofNat (0xF0 + c.toNat / 262144), UInt8.ofNat (0x80 + c.toNat / 4096 % 64),
              UInt8.ofNat (0x80 + c.toNat / 64 % 64), UInt8.ofNat (0x80 + c.toNat % 64)] := by
          unfold Utf8.EncodeRune
          rw [if_neg h1, if_neg h2, if_neg h3]
        have hb0 := Utf8.toNat_ofNat_byte (0xF0 + c.toNat / 262144) (by omega)
        have hb1 := Utf8.toNat_ofNat_byte (0x80 + c.toNat / 4096 % 64) (by omega)
        have hb2 := Utf8.toNat_ofNat_byte (0x80 + c.toNat / 64 % 64) (by omega)
        have hb3 := Utf8.toNat_ofNat_byte (0x80 + c.toNat % 64) (by omega)
        refine ⟨_, _, he, ?_, ?_⟩
        · unfold Utf8.decodeStep
          rw [if_neg (by omega), if_neg (by omega), if_neg (by omega), if_pos (by omega),
            List.cons_append,
            Utf8.contAt_cons_of_range (by rw [hb0, hb1]; split <;> omega)
              (by rw [hb0, hb1]; split <;> omega)]
          simp only [List.cons_append, List.nil_append]
          rw [Utf8.contAt_cons_of_range (by omega) (by omega)]
          simp only []
          rw [Utf8.contAt_cons_of_range (by omega) (by omega)]
          simp only [he, List.length_cons, List.length_nil, Prod.mk.injEq, and_true]
          rw [hb0, hb1, hb2, hb3]
          have : (0xF0 + c.toNat / 262144) % 8 * 262144 +
              (0x80 + c.toNat / 4096 % 64) % 64 * 4096 +
              (0x80 + c.toNat / 64 % 64) % 64 * 64 + (0x80 + c.toNat % 64) % 64 =
              c.toNat := by omega
          rw [this, hc]
        · rintro ⟨_, hl⟩
          rw [he] at hl
          simp at hl

theorem Utf8.runes_encode_append (cs : List Char) (rest : List UInt8) :
    Utf8.runes (Utf8.encode cs ++ rest) =
      cs.map (fun c => (c, (Utf8.EncodeRune c).length)) ++ Utf8.runes rest := by
  induction cs with
  | nil => rfl
  | cons c cs ih =>
    obtain ⟨b0, tail, he, hstep, _⟩ := Utf8.decodeStep_EncodeRune c (Utf8.encode cs ++ rest)
    have hl : (Utf8.EncodeRune c).length = (b0 :: tail).length := by rw [he]
    rw [Utf8.encode, List.append_assoc, he, List.cons_append, Utf8.runes_cons, hstep]
    simp only [List.map_cons, List.cons_append, ih, he]

/-- The runes of the encoding of a string of runes, followed by any bytes. -/
theorem Utf8.decode_encode_append (cs : List Char) (rest : List UInt8) :
    Utf8.decode (Utf8.encode cs ++ rest) = cs ++ Utf8.decode rest := by
  unfold Utf8.decode
  rw [Utf8.runes_encode_append, List.map_append, List.map_map]
  congr 1
  exact List.map_id'' (fun _ => rfl) cs

theorem Utf8.decode_encode (cs : List Char) : Utf8.decode (Utf8.encode cs) = cs := by
  have h := Utf8.decode_encode_append cs []
  rw [List.append_nil] at h
  rw [h]
  exact List.append_nil cs

/-- The encoding of a string of runes is valid UTF-8. -/
theorem Utf8.Valid_encode (cs : List Char) : Utf8.Valid (Utf8.encode cs) = true := by
  have h := Utf8.runes_encode_append cs []
  rw [List.append_nil] at h
  unfold Utf8.Valid
  rw [h, List.all_append]
  simp only [Utf8.runes_nil, List.all_nil, Bool.and_true, List.all_eq_true, List.mem_map,
    Bool.not_eq_true', Bool.and_eq_false_imp, beq_iff_eq, beq_eq_false_iff_ne,
    forall_exists_index, and_imp]
  intro rw c _ hrw hr
  subst hrw
  obtain ⟨_, _, _, _, hne⟩ := Utf8.decodeStep_EncodeRune c []
  intro hl
  exact hne ⟨hr, hl⟩

theorem Utf8.encode_append (a b : List Char) :
    Utf8.encode (a ++ b) = Utf8.encode a ++ Utf8.encode b := by
  induction a with
  | nil => rfl
  | cons c a ih => rw [List.cons_append, Utf8.encode, Utf8.encode, ih, List.append_assoc]

theorem Utf8.encode_injective (a b : List Char) (h : Utf8.encode a = Utf8.encode b) :
    a = b := by
  rw [← Utf8.decode_encode a, ← Utf8.decode_encode b, h]

theorem Utf8.encode_isPrefix (p r : List Char) :
    Utf8.encode p <+: Utf8.encode r ↔ p <+: r := by
  constructor
  · rintro ⟨y, hy⟩
    have h := Utf8.decode_encode_append p y
    rw [hy, Utf8.decode_encode] at h
    exact ⟨_, h.symm⟩
  · rintro ⟨t, ht⟩
    rw [← ht, Utf8.encode_append]
    exact List.prefix_append _ _

theorem Bytes.ofString_beq (P R : String) :
    (Bytes.ofString P == Bytes.ofString R) = (P == R) := by
  by_cases h : P = R
  · subst h
    simp
  · have h2 : Bytes.ofString P ≠ Bytes.ofString R := fun e =>
      h (String.ext (Utf8.encode_injective _ _ e))
    simp [h, h2]

theorem Bytes.ofString_append (a b : String) :
    Bytes.ofString (a ++ b) = Bytes.ofString a ++ Bytes.ofString b := by
  unfold Bytes.ofString
  rw [String.data_append, Utf8.encode_append]

theorem Bytes.HasPrefix_ofString (s p : String) :
    Bytes.HasPrefix (Bytes.ofString s) (Bytes.ofString p) = Strings.HasPrefix s p := by
  rw [Bool.eq_iff_iff, Bytes.HasPrefix_iff_bytes, Strings.HasPrefix_iff]
  exact Utf8.encode_isPrefix _ _

theorem Bytes.HasSuffix_ofString (P : String) :
    Bytes.HasSuffix (Bytes.ofString P) [47, 42] = Strings.HasSuffix P "/*" := by
  have hz : ∀ a ∈ ([47, 42] : List UInt8).head?, a.toNat < 0x80 := by
    intro a ha
    simp only [List.head?_cons, Option.mem_def, Option.some.injEq] at ha
    subst ha
    decide
  rw [Bool.eq_iff_iff]
  unfold Bytes.HasSuffix Strings.HasSuffix
  rw [List.isSuffixOf_iff_suffix, List.isSuffixOf_iff_suffix]
  constructor
  · rintro ⟨x, hx⟩
    have h := Utf8.decode_append x [47, 42] hz
    rw [hx] at h
    unfold Bytes.ofString at h
    rw [Utf8.decode_encode] at h
    have h2 : Utf8.decode [47, 42] = ['/', '*'] := by decide
    rw [h2] at h
    exact ⟨_, h.symm⟩
  · rintro ⟨q, hq⟩
    have h2 : Utf8.encode ("/*" : String).data = [47, 42] := by decide
    unfold Bytes.ofString
    rw [← hq, Utf8.encode_append, h2]
    exact List.suffix_append _ _

/-- On valid UTF-8 strings, that is on the bytes of Lean strings, the function on bytes
is the function on strings of runes. -/
theorem matchPermission_bytes_ofString (fold : Char → Char) (P m R m2 : String) :
    Bytes.matchPermission fold (Bytes.ofString P) (Bytes.ofString m) (Bytes.ofString R)
        (Bytes.ofString m2) =
      matchPermission fold P m R m2 := by
  rw [Bytes.matchPermission_eq_bytes, matchPermission_eq]
  have hfold : Bytes.EqualFold fold (Bytes.ofString m) (Bytes.ofString m2) =
      Strings.EqualFold fold m m2 := by
    unfold Bytes.EqualFold Strings.EqualFold Bytes.ofString
    rw [Utf8.decode_encode, Utf8.decode_encode]
  have hthird : (Utf8.Valid (Bytes.ofString P) &&
      Utf8.decode (Bytes.ofString R) == Utf8.decode (Bytes.ofString P)) = (P == R) := by
    unfold Bytes.ofString
    rw [Utf8.Valid_encode, Utf8.decode_encode, Utf8.decode_encode, Bool.true_and]
    by_cases h : P = R
    · subst h
      simp
    · have h2 : ¬ R.data = P.data := fun e => h (String.ext e.symm)
      simp [h, h2]
  rw [hfold, hthird, Bytes.ofString_beq, Bytes.HasSuffix_ofString]
  by_cases hs : Strings.HasSuffix P "/*" = true
  · obtain ⟨q, hq⟩ : ∃ q : String, P = q ++ "/*" := by
      unfold Strings.HasSuffix at hs
      rw [List.isSuffixOf_iff_suffix] at hs
      obtain ⟨q, hq⟩ := hs
      exact ⟨String.mk q, String.ext (by rw [String.data_append]; exact hq.symm)⟩
    have h2 : Bytes.ofString "/*" = [47, 42] := by decide
    have h1 : Bytes.ofString "/" = [47] := by decide
    have hpre : Bytes.HasPrefix (Bytes.ofString R)
        (Bytes.TrimSuffix (Bytes.ofString P) [47, 42] ++ [47]) =
        Strings.HasPrefix R (Strings.TrimSuffix P "/*" ++ "/") := by
      rw [hq, Bytes.ofString_append, h2, Bytes.TrimSuffix_append_bytes,
        Strings.TrimSuffix_append, ← h1, ← Bytes.ofString_append, Bytes.HasPrefix_ofString]
    rw [hpre]
    cases (P == R) <;> simp
  · have hs2 : Strings.HasSuffix P "/*" = false := by simpa using hs
    rw [hs2]
    cases (P == R) <;> simp

end Gadmin
